import Mathlib

/-!
Verification of mg-downloader: tile permutation, descrambler, API signature,
manifest parsing and search.

A shallow embedding of the pure parts of `pkg/pocketShonenmagazine/main.go`,
`pkg/ourfeel/comicsession.go` and `app.go`, followed by the properties proved
about them.

Conventions of the embedding
* Go `int` is the 64-bit signed integer of the supported targets and is
  modelled by `Int`. The product `tileCount*8` of the size guard of
  `CalculateDescrambleDimensions` wraps explicitly (`wrapInt64`), since it
  decides whether a raster is descrambled at all; the remaining `int`
  arithmetic is exact, which is what Go computes as long as the values stay
  within 64 bits, as they do for every raster that passes an unwrapped guard
  and fits in memory.
* `uint32` is modelled by `Nat` with an explicit `% 2 ^ 32` wherever the Go
  operation can wrap.
* A Go run-time panic (negative `make` length, division by zero) is the
  `none` of an `Option`.
* Go `for` loops over `0 .. n-1` are folds over `List.range n`.
-/

namespace MgDownloader

/-! ## Xorshift32 (`pkg/pocketShonenmagazine/main.go`, lines 55-70) -/

/-- The generator `Xorshift32`; `state` is a `uint32`. -/
structure Xorshift32 where
  state : Nat
deriving Repr, DecidableEq

/-- Truncation of a natural number to a `uint32`. -/
def wrap32 (n : Nat) : Nat := n % 2 ^ 32

/-- Go conversion `uint32(seed)` of an `int`: the low 32 bits. -/
def uint32OfInt (seed : Int) : Nat := (seed % 2 ^ 32).toNat

/-- Constructor `NewXorshift32(seed uint32)`. -/
def NewXorshift32 (seed : Nat) : Xorshift32 := { state := seed }

/-- Method `(*Xorshift32).Next`: three xor-shift updates of the state, the
left shifts truncated to 32 bits; returns the new state together with the
updated generator. -/
def Xorshift32.Next (x : Xorshift32) : Nat × Xorshift32 :=
  let s1 := x.state ^^^ wrap32 (x.state <<< 13)
  let s2 := s1 ^^^ (s1 >>> 17)
  let s3 := s2 ^^^ wrap32 (s2 <<< 5)
  (s3, { state := s3 })

/-- The xorshift step as the specification words it: `s ^= s << 13`,
`s ^= s >> 17`, `s ^= s << 5`, every shift taken modulo `2 ^ 32`. -/
def xorshiftStepSpec (s : Nat) : Nat :=
  let a := s ^^^ ((s * 2 ^ 13) % 2 ^ 32)
  let b := a ^^^ ((a / 2 ^ 17) % 2 ^ 32)
  b ^^^ ((b * 2 ^ 5) % 2 ^ 32)

/-! ## ShuffleOrder (`pkg/pocketShonenmagazine/main.go`, lines 73-97) -/

/-- Body of the first loop of `ShuffleOrder`:
`pairs[i] = [2]int{int(gen.Next()), i}`. -/
def fillStep (st : Xorshift32 × List (Int × Int)) (i : Nat) : Xorshift32 × List (Int × Int) :=
  let r := st.1.Next
  (r.2, st.2.set i ((r.1 : Int), (i : Int)))

/-- First loop of `ShuffleOrder`, `for i := 0; i < count; i++`, on the
zero-initialised slice `make([][2]int, count)`. -/
def fillPairs (count : Nat) (gen : Xorshift32) : Xorshift32 × List (Int × Int) :=
  (List.range count).foldl fillStep (gen, List.replicate count ((0 : Int), (0 : Int)))

/-- Go tuple assignment `pairs[i], pairs[j] = pairs[j], pairs[i]`. -/
def swapPairs (pairs : List (Int × Int)) (i j : Nat) : List (Int × Int) :=
  (pairs.set i (pairs.getD j (0, 0))).set j (pairs.getD i (0, 0))

/-- Inner loop of the exchange sort: `for j := i + 1; j < count; j++`. -/
def sortInner (count : Nat) (pairs : List (Int × Int)) (i : Nat) : List (Int × Int) :=
  (List.range' (i + 1) (count - (i + 1))).foldl
    (fun ps j =>
      if (ps.getD i (0, 0)).1 > (ps.getD j (0, 0)).1 then swapPairs ps i j else ps)
    pairs

/-- Second loop nest of `ShuffleOrder`: the exchange sort on the first
component. -/
def sortPairs (count : Nat) (pairs : List (Int × Int)) : List (Int × Int) :=
  (List.range count).foldl (sortInner count) pairs

/-- Third loop of `ShuffleOrder`: `result[i] = pairs[i][1]`. -/
def extractIndices (count : Nat) (pairs : List (Int × Int)) : List Int :=
  (List.range count).map (fun i => (pairs.getD i (0, 0)).2)

/-- Function `ShuffleOrder(count, seed)`. `none` is the panic of
`make([][2]int, count)` on a negative `count`. -/
def ShuffleOrder (count : Int) (seed : Int) : Option (List Int) :=
  if count < 0 then none
  else
    let n := count.toNat
    let gen := NewXorshift32 (uint32OfInt seed)
    let pairs := (fillPairs n gen).2
    let pairs := sortPairs n pairs
    some (extractIndices n pairs)

/-! ## Rasters and colours (`image`, `image/color`)

`image.Image` values are modelled as rasters whose bounds are
`image.Rect(0, 0, W, H)`, the bounds of every image `jpeg.Decode` yields (the
only producer of the images handed to `UnscrambleImage`). A pixel is a value
of the interface type `color.Color`: a `color.RGBA`, or a colour of another
type `κ` (such as the `color.Gray` and `color.YCbCr` pixels of the rasters that
`jpeg.Decode` yields) that has the method `RGBA()`. -/

/-- A raster: `W = Bounds().Dx()`, `H = Bounds().Dy()`, and the pixel
accessor `At(x, y)`. -/
structure Image (α : Type) where
  W : Int
  H : Int
  At : Int → Int → α

/-- The colour type `color.RGBA`: four channels of 8 bits. -/
structure RGBA where
  R : Nat
  G : Nat
  B : Nat
  A : Nat
deriving DecidableEq, Repr

/-- The method `RGBA() (r, g, b, a uint32)` with which a colour type other
than `color.RGBA` implements the interface `color.Color`. -/
class ColorType (κ : Type) where
  RGBA : κ → Nat × Nat × Nat × Nat

/-- A value of the interface type `color.Color`: its dynamic type is
`color.RGBA` or another colour type `κ`. -/
inductive Color (κ : Type) where
  | rgba (c : RGBA) : Color κ
  | other (c : κ) : Color κ

/-- The colour type `color.Gray`, the pixel type of the rasters that
`jpeg.Decode` yields for greyscale pictures. -/
structure Gray where
  Y : Nat
deriving DecidableEq, Repr

/-- Method `(c Gray) RGBA()`: `y := uint32(c.Y); y |= y << 8; return y, y, y, 0xffff`. -/
instance Gray.colorType : ColorType Gray where
  RGBA c := ((c.Y ||| (c.Y <<< 8)), (c.Y ||| (c.Y <<< 8)), (c.Y ||| (c.Y <<< 8)), 0xffff)

/-- Function `rgbaModel(c)`, the conversion `color.RGBAModel.Convert(c)`:
a `color.RGBA` is returned as it is, any other colour becomes
`RGBA{uint8(r >> 8), uint8(g >> 8), uint8(b >> 8), uint8(a >> 8)}` of its
`r, g, b, a := c.RGBA()`. -/
def rgbaModel {κ : Type} [ColorType κ] (c : Color κ) : Color κ :=
  match c with
  | Color.rgba _ => c
  | Color.other k =>
    let (r, g, b, a) := ColorType.RGBA k
    Color.rgba { R := (r >>> 8) % 256, G := (g >>> 8) % 256, B := (b >>> 8) % 256,
                 A := (a >>> 8) % 256 }

/-- Allocation `image.NewRGBA(bounds)`: every pixel is the zero colour
`color.RGBA{0, 0, 0, 0}`. -/
def NewRGBA {κ : Type} (W H : Int) : Image (Color κ) :=
  { W := W, H := H, At := fun _ _ => Color.rgba { R := 0, G := 0, B := 0, A := 0 } }

/-- Method `(*image.RGBA).Set(x, y, c)`: a point outside the bounds is
ignored; otherwise the pixel at `(x, y)` becomes
`color.RGBAModel.Convert(c).(color.RGBA)`. -/
def Image.Set {κ : Type} [ColorType κ] (img : Image (Color κ)) (x y : Int) (c : Color κ) :
    Image (Color κ) :=
  if 0 ≤ x ∧ x < img.W ∧ 0 ≤ y ∧ y < img.H then
    { img with At := fun a b => if a = x ∧ b = y then rgbaModel c else img.At a b }
  else img

/-- Two's-complement wrap of a mathematical integer to the 64-bit type `int`. -/
def wrapInt64 (n : Int) : Int := (n + 2 ^ 63) % 2 ^ 64 - 2 ^ 63

/-- Go loop `for k := 0; k < n; k++ { acc = body(acc, k) }`. -/
def forRange {β : Type} (n : Int) (body : β → Int → β) (init : β) : β :=
  (List.range n.toNat).foldl (fun acc (k : Nat) => body acc (k : Int)) init

/-- Go integer division `a / b`; `none` is the division-by-zero panic. -/
def goDiv (a b : Int) : Option Int :=
  if b = 0 then none else some (Int.tdiv a b)

/-! ## Descrambler (`pkg/pocketShonenmagazine/main.go`, lines 100-182) -/

/-- Function `CalculateDescrambleDimensions(originalWidth, originalHeight,
tileCount)`, returning `(tileW, tileH, ok)`; `none` is the division-by-zero
panic. The product `tileCount*y` of the size guard is computed in the 64-bit
type `int` and wraps; the quotients and the products `finalTileable* * y`
cannot leave the range of `int` for operands in that range. -/
def CalculateDescrambleDimensions (originalWidth originalHeight tileCount : Int) :
    Option (Int × Int × Bool) :=
  let y : Int := 8
  if originalWidth < wrapInt64 (tileCount * y) ∨ originalHeight < wrapInt64 (tileCount * y) then
    some (0, 0, false)
  else do
    let tempWidth := Int.tdiv originalWidth y
    let tempHeight := Int.tdiv originalHeight y
    let finalTileableWidth ← goDiv tempWidth tileCount
    let finalTileableHeight ← goDiv tempHeight tileCount
    some (finalTileableWidth * y, finalTileableHeight * y, true)

/-- The block copy of `UnscrambleImage`:
`for y < tileH { for x < tileW { unscrambled.Set(destX+x, destY+y, img.At(srcX+x, srcY+y)) } }`. -/
def copyTile {κ : Type} [ColorType κ] (img : Image (Color κ))
    (srcX srcY destX destY tileW tileH : Int) (unscrambled : Image (Color κ)) :
    Image (Color κ) :=
  forRange tileH (fun out y =>
    forRange tileW (fun out x =>
      out.Set (destX + x) (destY + y) (img.At (srcX + x) (srcY + y))) out) unscrambled

/-- Body of the tile loop of `UnscrambleImage` for one pair of a destination
and a source tile index (`tileCount` is non-zero where the loop is reached). -/
def tileStep {κ : Type} [ColorType κ] (img : Image (Color κ)) (tileCount tileW tileH : Int)
    (unscrambled : Image (Color κ)) (destTileIndex sourceTileIndex : Int) : Image (Color κ) :=
  let srcX := (Int.tmod sourceTileIndex tileCount) * tileW
  let srcY := (Int.tdiv sourceTileIndex tileCount) * tileH
  let destX := (Int.tmod destTileIndex tileCount) * tileW
  let destY := (Int.tdiv destTileIndex tileCount) * tileH
  copyTile img srcX srcY destX destY tileW tileH unscrambled

/-- The copy of the right leftover strip in `UnscrambleImage`. -/
def copyRightStrip {κ : Type} [ColorType κ] (img : Image (Color κ))
    (originalWidth originalHeight leftoverW : Int) (unscrambled : Image (Color κ)) :
    Image (Color κ) :=
  if leftoverW > 0 then
    let srcX := originalWidth - leftoverW
    forRange originalHeight (fun out y =>
      forRange leftoverW (fun out x =>
        out.Set (srcX + x) y (img.At (srcX + x) y)) out) unscrambled
  else unscrambled

/-- The copy of the bottom leftover strip in `UnscrambleImage`. -/
def copyBottomStrip {κ : Type} [ColorType κ] (img : Image (Color κ))
    (originalWidth originalHeight leftoverH : Int) (unscrambled : Image (Color κ)) :
    Image (Color κ) :=
  if leftoverH > 0 then
    let srcY := originalHeight - leftoverH
    forRange leftoverH (fun out y =>
      forRange originalWidth (fun out x =>
        out.Set x (srcY + y) (img.At x (srcY + y))) out) unscrambled
  else unscrambled

/-- The type of Go `error` values. -/
abbrev GoError := String

/-- Function `UnscrambleImage(img, scrambleSeed, tileCount)`, returning the
pair `(image, error)`; the outer `none` is a run-time panic. The image
returned is `img` itself when the grid derivation rejects the raster, and a
fresh `image.RGBA` raster otherwise. -/
def UnscrambleImage {κ : Type} [ColorType κ] (img : Image (Color κ))
    (scrambleSeed tileCount : Int) : Option (Image (Color κ) × Option GoError) := do
  let originalWidth := img.W
  let originalHeight := img.H
  let (tileW, tileH, ok) ← CalculateDescrambleDimensions originalWidth originalHeight tileCount
  if !ok then
    some (img, none)
  else do
    let leftoverW := originalWidth - tileW * tileCount
    let leftoverH := originalHeight - tileH * tileCount
    let unscrambled : Image (Color κ) := NewRGBA originalWidth originalHeight
    let order ← ShuffleOrder (tileCount * tileCount) scrambleSeed
    let unscrambled := (List.range order.length).foldl
      (fun out (i : Nat) => tileStep img tileCount tileW tileH out (i : Int) (order.getD i 0))
      unscrambled
    let unscrambled := copyRightStrip img originalWidth originalHeight leftoverW unscrambled
    let unscrambled := copyBottomStrip img originalWidth originalHeight leftoverH unscrambled
    some (unscrambled, none)

/-- The pixel `(a, b)` lies in the tile with index `j` of a grid of
`tc` columns of `tw × th` tiles. -/
abbrev inTile (tc tw th j a b : Int) : Prop :=
  (j % tc) * tw ≤ a ∧ a < (j % tc) * tw + tw ∧ (j / tc) * th ≤ b ∧ b < (j / tc) * th + th

/-- The raster built by `UnscrambleImage` after the grid derivation, as a
function of the list of (destination, source) tile indices it moves: a fresh
raster, the tile moves, the right strip, the bottom strip. -/
def assembleRaster {κ : Type} [ColorType κ] (img : Image (Color κ)) (tileCount tileW tileH : Int)
    (moves : List (Int × Int)) : Image (Color κ) :=
  copyBottomStrip img img.W img.H (img.H - tileH * tileCount)
    (copyRightStrip img img.W img.H (img.W - tileW * tileCount)
      (moves.foldl (fun out p => tileStep img tileCount tileW tileH out p.1 p.2)
        (NewRGBA img.W img.H)))

/-- The moves of `UnscrambleImage`: destination `i` takes source `order[i]`. -/
def forwardMoves (order : List Int) : List (Int × Int) :=
  (List.range order.length).map (fun (i : Nat) => ((i : Int), order.getD i 0))

/-- The moves of the opposite direction: destination `order[i]` takes
source `i`. -/
def inverseMoves (order : List Int) : List (Int × Int) :=
  (List.range order.length).map (fun (i : Nat) => (order.getD i 0, (i : Int)))

/-- Modelled from the spec: the tile move `destination π(i) ← source i` of the
round-trip property, which the repository does not implement. It is
`UnscrambleImage` with the roles of the two tile indices exchanged: same grid
derivation, same permutation `π = ShuffleOrder(tileCount², seed)`, same copy
of the leftover strips, into a raster of the same kind. -/
def inverseTileMove {κ : Type} [ColorType κ] (img : Image (Color κ))
    (scrambleSeed tileCount : Int) : Option (Image (Color κ) × Option GoError) := do
  let originalWidth := img.W
  let originalHeight := img.H
  let (tileW, tileH, ok) ← CalculateDescrambleDimensions originalWidth originalHeight tileCount
  if !ok then
    some (img, none)
  else do
    let leftoverW := originalWidth - tileW * tileCount
    let leftoverH := originalHeight - tileH * tileCount
    let scrambled : Image (Color κ) := NewRGBA originalWidth originalHeight
    let order ← ShuffleOrder (tileCount * tileCount) scrambleSeed
    let scrambled := (List.range order.length).foldl
      (fun out (i : Nat) => tileStep img tileCount tileW tileH out (order.getD i 0) (i : Int))
      scrambled
    let scrambled := copyRightStrip img originalWidth originalHeight leftoverW scrambled
    let scrambled := copyBottomStrip img originalWidth originalHeight leftoverH scrambled
    some (scrambled, none)

/-- A greyscale raster of the given size, as `jpeg.Decode` yields for a
greyscale picture: the pixel `(x, y)` is `color.Gray{(x + 3*y) mod 256}`. -/
def grayRaster (W H : Int) : Image (Color Gray) :=
  { W := W, H := H, At := fun x y => Color.other { Y := ((x + 3 * y) % 256).toNat } }

/-! ## API signature (`pkg/pocketShonenmagazine/main.go`, lines 253-286)

Go `string`s are modelled by `String`; `len(s)` is `s.utf8ByteSize` and the
comparison of strings is the lexicographic order of `String`. The hash
functions `sha256.Sum256([]byte(s))` and `sha512.Sum512([]byte(s))` are
parameters `sha256 sha512 : String → List UInt8`. -/

/-- The constant `hextable` of `encoding/hex`. -/
def hextable : List Char := "0123456789abcdef".toList

/-- Function `hex.EncodeToString`: two characters of `hextable` per byte,
`hextable[v>>4]` and `hextable[v&0x0f]`. -/
def hexEncodeToString (src : List UInt8) : String :=
  String.mk (src.foldl
    (fun dst v =>
      dst ++ [hextable.getD (v.toNat >>> 4) '0', hextable.getD (v.toNat &&& 0x0f) '0'])
    [])

/-- Function `sort.Strings`: the keys in increasing order. The library sort is
modelled by insertion sort; an increasing arrangement of a list of strings is
unique, so the choice of the algorithm does not matter. -/
def sortStrings (keys : List String) : List String :=
  keys.insertionSort (fun a b => a ≤ b)

/-- Function `ComputeHash(params, seed)`, returning `(string, error)`. The
map `params` is the list of its entries in the order in which
`for k := range params` enumerates them; `params[key]` is the lookup with the
zero value `""` for a missing key. -/
def ComputeHash (sha256 sha512 : String → List UInt8) (params : List (String × String))
    (seed : String) : String × Option GoError :=
  let keys := params.foldl (fun keys kv => keys ++ [kv.1]) []
  let keys := sortStrings keys
  let paramHashes := keys.foldl
    (fun paramHashes key =>
      let value := (params.lookup key).getD ""
      let keyHashStr := hexEncodeToString (sha256 key)
      let valueHashStr := hexEncodeToString (sha512 value)
      paramHashes ++ [keyHashStr ++ "_" ++ valueHashStr])
    []
  let combined := ",".intercalate paramHashes
  let combinedHash := sha256 combined
  let finalInput := hexEncodeToString combinedHash ++ seed
  let finalHash := sha512 finalInput
  (hexEncodeToString finalHash, none)

/-- The lowercase hexadecimal digit of a value below 16, by arithmetic on
character codes: `0`-`9` then `a`-`f`. -/
def lowerHexDigit (d : Nat) : Char :=
  if d < 10 then Char.ofNat (48 + d) else Char.ofNat (87 + d)

/-- Lowercase hexadecimal encoding in the specification's sense: the high
and the low digit of every byte. -/
def lowerHex (bytes : List UInt8) : String :=
  String.mk (bytes.flatMap (fun b => [lowerHexDigit (b.toNat / 16), lowerHexDigit (b.toNat % 16)]))

/-- The signature as the specification defines it, for the keys listed in
`keys`: `lowerhex(SHA-512(lowerhex(SHA-256(combined)) ++ seed))` with
`combined` the comma-join of `lowerhex(SHA-256(k)) ++ "_" ++ lowerhex(SHA-512(v))`. -/
def signatureSpec (sha256 sha512 : String → List UInt8) (params : List (String × String))
    (keys : List String) (seed : String) : String :=
  let part := fun k => lowerHex (sha256 k) ++ "_" ++ lowerHex (sha512 ((params.lookup k).getD ""))
  let combined := ",".intercalate (keys.map part)
  lowerHex (sha512 (lowerHex (sha256 combined) ++ seed))

/-! ## Source B manifest (`pkg/ourfeel/comicsession.go`, lines 104-146) -/

/-- A decoded JSON value as `json.Unmarshal` stores it in an `interface{}`:
`nil`, `bool`, `float64`, `string`, `[]interface{}`, `map[string]interface{}`.
A `float64` is modelled by the rational number it denotes, a map by the list
of its entries. -/
inductive JsonValue where
  | null : JsonValue
  | bool (b : Bool) : JsonValue
  | number (f : ℚ) : JsonValue
  | str (s : String) : JsonValue
  | array (items : List JsonValue) : JsonValue
  | object (fields : List (String × JsonValue)) : JsonValue

/-- Modelled from the spec: the type `Page` of package `ourfeel`, whose
declaration is not among the sources; a PageRef of sources A/B carries
`src_url`, `width` and `height`. -/
structure Page where
  Src : String
  Width : Int
  Height : Int
deriving DecidableEq, Repr

/-- Modelled from the spec: the constructor `NewPage(src, width, height)` of
package `ourfeel`, not among the sources; it records its three arguments. -/
def NewPage (src : String) (width height : Int) : Page :=
  { Src := src, Width := width, Height := height }

/-- Go conversion `int(f)` of a `float64`: the integer part of `f` (truncation
toward zero) when it lies in the range of the 64-bit type `int`. For a value
outside that range Go leaves the result to the implementation; the model
takes the result of the amd64 target, the smallest `int`. -/
def intOfFloat64 (f : ℚ) : Int :=
  let t := Int.tdiv f.num f.den
  if -2 ^ 63 ≤ t ∧ t < 2 ^ 63 then t else -2 ^ 63

/-- Type assertion `v.(map[string]interface{})` in its comma-ok form, on the
result of a map lookup. -/
def asMap (v : Option JsonValue) : List (String × JsonValue) × Bool :=
  match v with
  | some (JsonValue.object m) => (m, true)
  | _ => ([], false)

/-- Type assertion `v.([]interface{})` in its comma-ok form. -/
def asSlice (v : Option JsonValue) : List JsonValue × Bool :=
  match v with
  | some (JsonValue.array l) => (l, true)
  | _ => ([], false)

/-- Type assertion `v.(string)` in its comma-ok form. -/
def asString (v : Option JsonValue) : String × Bool :=
  match v with
  | some (JsonValue.str s) => (s, true)
  | _ => ("", false)

/-- Type assertion `v.(float64)` in its comma-ok form. -/
def asFloat64 (v : Option JsonValue) : ℚ × Bool :=
  match v with
  | some (JsonValue.number f) => (f, true)
  | _ => (0, false)

/-- Function `sort.Slice(x, less)`: the slice rearranged so that no element is
`less` than an earlier one. The library sort is modelled by insertion sort;
`sort.Slice` does not promise an order among elements of which neither is
`less` than the other, and the order in which the model leaves them is one of
the orders the library may produce. -/
def sortSlice {α : Type} (less : α → α → Bool) (x : List α) : List α :=
  x.insertionSort (fun a b => less b a = false)

/-- Body of the loop `for _, p := range pages` of `parsePages`. -/
def parsePagesStep (validPages : List Page) (p : JsonValue) : List Page :=
  let (page, ok) := asMap (some p)
  if !ok then validPages
  else
    let (src, ok) := asString (page.lookup "src")
    let (width, okW) := asFloat64 (page.lookup "width")
    let (height, okH) := asFloat64 (page.lookup "height")
    if ok && okW && okH && src != "" then
      validPages ++ [NewPage src (intOfFloat64 width) (intOfFloat64 height)]
    else validPages

/-- Function `parsePages(jsonData)`. The decoder
`json.Unmarshal([]byte(jsonData), &data)` into a `map[string]interface{}` is
the parameter `jsonUnmarshal`. -/
def parsePages (jsonUnmarshal : String → Except GoError (List (String × JsonValue)))
    (jsonData : String) : Except GoError (List Page) :=
  match jsonUnmarshal jsonData with
  | Except.error err => Except.error ("error parsing JSON data: " ++ err)
  | Except.ok data =>
    let (readableProduct, ok) := asMap (data.lookup "readableProduct")
    if !ok then Except.error "invalid JSON structure: missing readableProduct"
    else
      let (pageStructure, ok) := asMap (readableProduct.lookup "pageStructure")
      if !ok then Except.error "invalid JSON structure: missing pageStructure"
      else
        let (pages, ok) := asSlice (pageStructure.lookup "pages")
        if !ok then Except.error "invalid JSON structure: missing pages"
        else
          let validPages := pages.foldl parsePagesStep []
          let validPages := sortSlice (fun a b => decide (a.Src < b.Src)) validPages
          Except.ok validPages

/-- The page that the entry `p` of `pages[]` stands for when it has a
non-empty string `src`, a numeric `width` and a numeric `height`: it carries
`src`, `int(width)` and `int(height)`. -/
def validEntryPage (p : JsonValue) : Option Page :=
  match p with
  | JsonValue.object page =>
    match page.lookup "src", page.lookup "width", page.lookup "height" with
    | some (JsonValue.str src), some (JsonValue.number w), some (JsonValue.number h) =>
      if src = "" then none else some (NewPage src (intOfFloat64 w) (intOfFloat64 h))
    | _, _, _ => none
  | _ => none

/-- A decoded episode document whose `readableProduct.pageStructure.pages`
is the array `pages`. -/
def episodeDocument (pages : List JsonValue) : List (String × JsonValue) :=
  [("readableProduct", JsonValue.object
    [("pageStructure", JsonValue.object [("pages", JsonValue.array pages)])])]

/-- An entry of `pages[]` with the three fields `src`, `width`, `height`. -/
def pageEntry (src : String) (width height : ℚ) : JsonValue :=
  JsonValue.object [("src", JsonValue.str src), ("width", JsonValue.number width),
    ("height", JsonValue.number height)]

/-! ## Search (`app.go`, lines 61-114 and 603-605) -/

/-- The record `ComicInfo`. -/
structure ComicInfo where
  Mode : String
  Title : String
  Thumbnail : String
  PageURL : String
deriving DecidableEq, Repr

/-- Function `contains(s, substr)` of `app.go`:
`len(s) >= len(substr) && (s == substr || len(s) > len(substr))`. -/
def contains (s substr : String) : Bool :=
  decide (s.utf8ByteSize ≥ substr.utf8ByteSize) &&
    (s == substr || decide (s.utf8ByteSize > substr.utf8ByteSize))

/-- A source adapter `GetFirstPageFrom...(url)`, returning
`(title, thumbnail, error)`. -/
abbrev FirstPageAdapter := String → String × String × Option GoError

/-- The `switch mode` of `SearchComics`: the adapter call of the selected
source; an error is the early `return nil, err`. -/
def searchSwitch (comicDays ourfeel pocketShonenmagazine : FirstPageAdapter)
    (mode query : String) : Except GoError (List ComicInfo) :=
  if mode = "comicDays" then
    let (mgTitle, picSrc, err) := comicDays query
    match err with
    | some e => Except.error e
    | none => Except.ok [{ Mode := mode, Title := mgTitle, Thumbnail := picSrc, PageURL := query }]
  else if mode = "ourfeel" then
    let (mgTitle, picSrc, err) := ourfeel query
    match err with
    | some e => Except.error e
    | none => Except.ok [{ Mode := mode, Title := mgTitle, Thumbnail := picSrc, PageURL := query }]
  else if mode = "PocketShonenmagazine" then
    let (mgTitle, picSrc, err) := pocketShonenmagazine query
    match err with
    | some e => Except.error e
    | none => Except.ok [{ Mode := mode, Title := mgTitle, Thumbnail := picSrc, PageURL := query }]
  else Except.error ("未知模式: " ++ mode)

/-- Method `(*App).SearchComics(mode, query)`, returning
`([]ComicInfo, error)`; the three source adapters are parameters. The waits
at the start of the method do not influence the result and are left out. -/
def SearchComics (comicDays ourfeel pocketShonenmagazine : FirstPageAdapter)
    (mode query : String) : List ComicInfo × Option GoError :=
  match searchSwitch comicDays ourfeel pocketShonenmagazine mode query with
  | Except.error e => ([], some e)
  | Except.ok comics =>
    let filtered := comics.foldl
      (fun filtered comic =>
        if query == "" || contains comic.Title query then filtered ++ [comic] else filtered)
      []
    (filtered, none)

/-! ## Source B session (`pkg/ourfeel/comicsession.go`, lines 19-102, and
`pkg/ourfeel/main.go`, lines 38-45) -/

/-- The parts of a `*goquery.Document` that the adapter reads:
`doc.Find("title").Text()` and the result of
`doc.Find("#episode-json").Attr("data-value")` (`none` when the attribute
does not exist). -/
structure Document where
  title : String
  episodeJson : Option String
deriving DecidableEq, Repr

/-- The record `ComicSession` (its `NetworkClient` field plays no role here
and is left out). -/
structure ComicSession where
  URL : String
  Doc : Document
  Pages : List Page
deriving DecidableEq, Repr

/-- Function `extractEpisodeJSON(doc)`; `html.UnescapeString` is the
parameter `htmlUnescape`. -/
def extractEpisodeJSON (htmlUnescape : String → String) (doc : Document) :
    Except GoError String :=
  match doc.episodeJson with
  | none => Except.error "could not find episode data on the page"
  | some jsonData =>
    let jsonData := htmlUnescape jsonData
    if jsonData = "" then Except.error "episode data is empty" else Except.ok jsonData

/-- The loop of `NewComicSession`
`for { docp, err := fetchComicHTML(url, networkClient); if err == nil { doc = docp; break }; ...; time.Sleep(10 * time.Second) }`.
`fetchComicHTML attempt` is the outcome of the call number `attempt`
(counted from 0) of `fetchComicHTML`, an error meaning that the fetcher gave
up after its retries. `fuel` bounds the number of iterations that are run;
`none` means that the loop is still running after `fuel` iterations. -/
def initialFetchLoop (fetchComicHTML : Nat → Except GoError Document) :
    Nat → Nat → Option Document
  | 0, _ => none
  | fuel + 1, attempt =>
    match fetchComicHTML attempt with
    | Except.ok docp => some docp
    | Except.error _ => initialFetchLoop fetchComicHTML fuel (attempt + 1)

/-- Function `NewComicSession(url)`, returning `(title, session, error)`;
the outer `none` means that the call has not returned within `fuel`
iterations of its fetch loop. -/
def NewComicSession (fetchComicHTML : Nat → Except GoError Document)
    (htmlUnescape : String → String)
    (jsonUnmarshal : String → Except GoError (List (String × JsonValue)))
    (url : String) (fuel : Nat) : Option (String × Option ComicSession × Option GoError) :=
  match initialFetchLoop fetchComicHTML fuel 0 with
  | none => none
  | some doc =>
    let mgTitle := doc.title
    match extractEpisodeJSON htmlUnescape doc with
    | Except.error err => some ("", none, some err)
    | Except.ok jsonData =>
      match parsePages jsonUnmarshal jsonData with
      | Except.error err => some ("", none, some err)
      | Except.ok pages =>
        some (mgTitle, some { URL := url, Doc := doc, Pages := pages }, none)

/-- The expression `session.Pages[0]` of `GetFirstPageFromOurfeel`; `none` is
the index-out-of-range panic. -/
def firstPageOfSession (session : ComicSession) : Option Page :=
  session.Pages[0]?

/-! ## Download session controller (`app.go`, lines 26-60 and 213-601)

The methods of `App` are state transformers on the record `App` below. A
download method runs on one goroutine while the shell's `CancelDownload` runs
on another. The model divides a download method into its steps (a critical
section of `downloadMutex`, a `select`, an event emission, the I/O of a page)
and names the points between them (`YieldPoint`); a `Schedule` says at which
of these points a call of `CancelDownload` takes place. Such a call runs to
completion at its point: of the interleavings that the Go scheduler allows,
the model covers those in which the download goroutine does not run during a
`CancelDownload` call. A second, concurrent `DownloadComicPage` is not
modelled. The effects of a run (emitted events, processed pages, written
files, cancel calls) are logged in the record itself. -/

/-- The record `DownloadProgress`. -/
structure DownloadProgress where
  Current : Int
  Total : Int
  Title : String
  Status : String
deriving DecidableEq, Repr

/-- The fields of `App` that the download code reads or writes, followed by
the logs of its effects. A channel of capacity 1 is the number of signals it
holds. `emitted` lists the payloads passed to
`runtime.EventsEmit(ctx, "download-progress", ·)`, `processed` the page numbers
handed to `page.Process`, `saved` the pairs `(pageNum, filepath)` of the
files written by `SaveImage`; `cancelled` holds, for every call of
`CancelDownload` that found the download active, the number of events that
had been emitted when the call set the stop flag. -/
structure App where
  ctxValid : Bool
  currentMode : String
  isDownloading : Bool
  forceStop : Bool
  downloadCancelChan : Nat
  progressStopChan : Nat
  downloadSessionId : Int
  emitted : List DownloadProgress
  processed : List Int
  saved : List (Int × String)
  cancelled : List Nat
deriving DecidableEq, Repr

/-- Method `shouldStopDownload(sessionId)`. -/
def App.shouldStopDownload (a : App) (sessionId : Int) : Bool :=
  if a.forceStop then true
  else if a.downloadSessionId != sessionId then true
  else false

/-- Method `isForceStop()`. -/
def App.isForceStop (a : App) : Bool := a.forceStop

/-- Method `setForceStop()`. -/
def App.setForceStop (a : App) : App := { a with forceStop := true }

/-- Method `clearAllChannels()`: both channels are drained. -/
def App.clearAllChannels (a : App) : App :=
  { a with downloadCancelChan := 0, progressStopChan := 0 }

/-- A non-blocking send `select { case ch <- struct{}{}: default: }` on a
channel of capacity 1. -/
def trySend (ch : Nat) : Nat := if ch < 1 then ch + 1 else ch

/-- Method `sendForceStopSignals()`. -/
def App.sendForceStopSignals (a : App) : App :=
  (List.range 3).foldl
    (fun a _ =>
      { a with downloadCancelChan := trySend a.downloadCancelChan,
               progressStopChan := trySend a.progressStopChan })
    a.clearAllChannels

/-- Method `forceCleanupAll()` (the event listeners are left out). -/
def App.forceCleanupAll (a : App) : App :=
  ({ a with isDownloading := false, forceStop := true }).clearAllChannels

/-- Method `cleanupDownloadState()`. -/
def App.cleanupDownloadState (a : App) : App :=
  { a with isDownloading := false, forceStop := false }

/-- Method `CancelDownload()` (the time stamp `lastCancelTime` is left out);
the call is entered in the log `cancelled` where it sets the stop flag. -/
def App.CancelDownload (a : App) : App × Option GoError :=
  if !a.isDownloading then (a, none)
  else
    let a := { a with forceStop := true, cancelled := a.cancelled ++ [a.emitted.length] }
    let a := a.sendForceStopSignals
    let a := a.forceCleanupAll
    (a, none)

/-- The points between the steps of a download method at which the goroutine
of the shell may run.
* `iterationStart n`: before the first `shouldStopDownload` of the iteration
  of page `n`;
* `beforeSelect n`: after that check, before the `select` on the two channels;
* `sendEntered p`: after the caller's last step, before the
  `shouldStopDownload` of `sendProgressSafely(p, ·)`;
* `sendChecked p`: after that check has returned false and released the
  mutex, before the `select` on `progressStopChan`;
* `sendPolled p`: after that `select`, before `runtime.EventsEmit`;
* `pageIO n`: during the network and file I/O of page `n`, before the
  `shouldStopDownload` that follows it;
* `loopDone`: after the loop, before `isForceStop`. -/
inductive YieldPoint where
  | iterationStart (pageNum : Int) : YieldPoint
  | beforeSelect (pageNum : Int) : YieldPoint
  | sendEntered (progress : DownloadProgress) : YieldPoint
  | sendChecked (progress : DownloadProgress) : YieldPoint
  | sendPolled (progress : DownloadProgress) : YieldPoint
  | pageIO (pageNum : Int) : YieldPoint
  | loopDone : YieldPoint
deriving DecidableEq, Repr

/-- What the environment of a download method does: `cancelAt pt` says
whether the shell calls `CancelDownload` at the point `pt`, and
`selectCancel pageNum` is the choice of the `select` statement at the top of
the iteration of page `pageNum` when both channels hold a signal (`true`: the
cancel case). -/
structure Schedule where
  cancelAt : YieldPoint → Bool
  selectCancel : Int → Bool

/-- The state after the point `pt` of a download method: the shell's
`CancelDownload` has run if the schedule places a call there. -/
def App.interleave (a : App) (sched : Schedule) (pt : YieldPoint) : App :=
  if sched.cancelAt pt then a.CancelDownload.1 else a

/-- Method `sendProgressSafely(progress, sessionId)`, returning the new state
and the `error`: the check `shouldStopDownload`, the `select` on
`progressStopChan`, the test of `ctx` and `runtime.EventsEmit`, with the
points between them. -/
def App.sendProgressSafely (a : App) (sched : Schedule) (progress : DownloadProgress)
    (sessionId : Int) : App × Option GoError :=
  let a := a.interleave sched (YieldPoint.sendEntered progress)
  if a.shouldStopDownload sessionId then (a, some "会话已停止")
  else
    let a := a.interleave sched (YieldPoint.sendChecked progress)
    if a.progressStopChan > 0 then
      (({ a with progressStopChan := a.progressStopChan - 1 }).setForceStop,
        some "进度发送已停止")
    else
      let a := a.interleave sched (YieldPoint.sendPolled progress)
      if !a.ctxValid then (a, some "上下文无效")
      else ({ a with emitted := a.emitted ++ [progress] }, none)

/-- Outcome of one iteration of a page loop: the method returned, or the
loop goes on to the next page. -/
inductive LoopStep where
  | returned (a : App) (err : Option GoError) : LoopStep
  | next (a : App) : LoopStep
deriving DecidableEq, Repr

/-- The statement
`select { case <-a.downloadCancelChan: a.setForceStop(); return nil
          case <-a.progressStopChan: a.setForceStop()
          default: }`
at the top of each iteration of the three page loops. -/
def App.pollStopSignals (a : App) (selectCancel : Bool) : LoopStep :=
  if a.downloadCancelChan > 0 ∧ (a.progressStopChan = 0 ∨ selectCancel = true) then
    LoopStep.returned
      ({ a with downloadCancelChan := a.downloadCancelChan - 1 }).setForceStop none
  else if a.progressStopChan > 0 then
    LoopStep.next ({ a with progressStopChan := a.progressStopChan - 1 }).setForceStop
  else LoopStep.next a

/-- The call `page.Process(..., outDir, pageNum)` of sources A and B, logged. -/
def App.processPage (a : App) (pageNum : Int) : App :=
  { a with processed := a.processed ++ [pageNum] }

/-- A successful call `ps.SaveImage(processedData, filepath)` for page
`pageNum`, logged. -/
def App.saveFile (a : App) (pageNum : Int) (filepath : String) : App :=
  { a with saved := a.saved ++ [(pageNum, filepath)] }

/-- A Go loop `for i, x := range xs { ... }` whose body may return from the
enclosing method. -/
def rangeLoop {α : Type} (body : App → Nat → α → LoopStep) : Nat → List α → App → LoopStep
  | _, [], a => LoopStep.next a
  | i, x :: xs, a =>
    match body a i x with
    | LoopStep.returned a' err => LoopStep.returned a' err
    | LoopStep.next a' => rangeLoop body (i + 1) xs a'

/-- The end of the three download methods: the result of the loop, and after
a complete loop the `completed` event, `if !a.isForceStop() { sendProgressSafely(..) }`,
and `return nil`. -/
def finishDownload (sched : Schedule) (totalPages : Int) (title : String) (sessionId : Int)
    (r : LoopStep) : App × Option GoError :=
  match r with
  | LoopStep.returned a err => (a, err)
  | LoopStep.next a =>
    let a := a.interleave sched YieldPoint.loopDone
    if !a.isForceStop then
      ((a.sendProgressSafely sched
        { Current := totalPages, Total := totalPages, Title := title, Status := "completed" }
        sessionId).1, none)
    else (a, none)

/-- Body of the loop of `downloadComicDays` and of `downloadOurfeel` (the two
bodies differ only in the arguments of `page.Process`). -/
def pageStepAB (sched : Schedule) (totalPages : Int) (title : String) (sessionId : Int)
    (a : App) (i : Nat) (_page : Page) : LoopStep :=
  let a := a.interleave sched (YieldPoint.iterationStart ((i : Int) + 1))
  if a.shouldStopDownload sessionId then LoopStep.returned a none
  else
    let a := a.interleave sched (YieldPoint.beforeSelect ((i : Int) + 1))
    match a.pollStopSignals (sched.selectCancel ((i : Int) + 1)) with
    | LoopStep.returned a err => LoopStep.returned a err
    | LoopStep.next a =>
      let pageNum : Int := (i : Int) + 1
      let a := (a.sendProgressSafely sched
        { Current := pageNum, Total := totalPages, Title := title, Status := "downloading" }
        sessionId).1
      let a := (a.processPage pageNum).interleave sched (YieldPoint.pageIO pageNum)
      if a.shouldStopDownload sessionId then LoopStep.returned a none
      else LoopStep.next a

/-- Method `downloadComicDays(outDir, totalPages, title, sessionId)` on the
manifest `pages = cd.COMIC_DAYS_INFO.Pages`. -/
def App.downloadComicDays (a : App) (sched : Schedule) (pages : List Page)
    (totalPages : Int) (title : String) (sessionId : Int) : App × Option GoError :=
  finishDownload sched totalPages title sessionId
    (rangeLoop (pageStepAB sched totalPages title sessionId) 0 pages a)

/-- Method `downloadOurfeel(outDir, totalPages, title, sessionId)` on the
manifest `pages = of.OURFEEL_INFO.Pages`. -/
def App.downloadOurfeel (a : App) (sched : Schedule) (pages : List Page)
    (totalPages : Int) (title : String) (sessionId : Int) : App × Option GoError :=
  finishDownload sched totalPages title sessionId
    (rangeLoop (pageStepAB sched totalPages title sessionId) 0 pages a)

/-- The record `ShonenMagazineEpisodeData`. -/
structure ShonenMagazineEpisodeData where
  ScrambleSeed : Int
  PageList : List String
deriving DecidableEq, Repr

/-- The outcomes of the library and I/O calls of the source C loop:
`os.MkdirAll`, `ps.DownloadImage`, `ps.ProcessImage`, `ps.SaveImage` (`none`
is a nil error) and the function `filepath.Join`. -/
structure PageIO where
  mkdirAll : String → Option GoError
  downloadImage : String → Except GoError (List UInt8)
  processImage : List UInt8 → Int → Int → Except GoError (List UInt8)
  saveImage : List UInt8 → String → Option GoError
  pathJoin : String → String → String

/-- The verb `%03d` of `fmt.Sprintf` on an `int`: the decimal digits, padded
with zeros to a width of at least 3 (a minus sign counts for the width). -/
def sprintf03d (n : Int) : String :=
  let digits := Nat.repr n.natAbs
  if n < 0 then "-" ++ String.mk (List.replicate (2 - digits.length) '0') ++ digits
  else String.mk (List.replicate (3 - digits.length) '0') ++ digits

/-- Body of the loop of `downloadPocketShonenmagazine`
(`config.TileCount` is 4, `config.OutputDir` is `outDir`). -/
def pageStepC (sched : Schedule) (io : PageIO) (episode : ShonenMagazineEpisodeData)
    (outDir : String) (totalPages : Int) (title : String) (sessionId : Int)
    (a : App) (i : Nat) (imgURL : String) : LoopStep :=
  let a := a.interleave sched (YieldPoint.iterationStart ((i : Int) + 1))
  if a.shouldStopDownload sessionId then LoopStep.returned a none
  else
    let a := a.interleave sched (YieldPoint.beforeSelect ((i : Int) + 1))
    match a.pollStopSignals (sched.selectCancel ((i : Int) + 1)) with
    | LoopStep.returned a err => LoopStep.returned a err
    | LoopStep.next a =>
      let pageNum : Int := (i : Int) + 1
      let a := (a.sendProgressSafely sched
        { Current := pageNum, Total := totalPages, Title := title, Status := "downloading" }
        sessionId).1
      if episode.PageList.length = 0 then
        LoopStep.returned a (some "章节数据中没有找到图片")
      else
        match io.mkdirAll outDir with
        | some err => LoopStep.returned a (some ("创建输出目录失败: " ++ err))
        | none =>
          let downloaded := io.downloadImage imgURL
          let a := a.interleave sched (YieldPoint.pageIO pageNum)
          match downloaded with
          | Except.error _ => LoopStep.next a
          | Except.ok imgData =>
            match io.processImage imgData episode.ScrambleSeed 4 with
            | Except.error _ => LoopStep.next a
            | Except.ok processedData =>
              let filename := sprintf03d pageNum ++ ".jpg"
              let filepath := io.pathJoin outDir filename
              match io.saveImage processedData filepath with
              | some _ => LoopStep.next a
              | none =>
                let a := a.saveFile pageNum filepath
                if a.shouldStopDownload sessionId then LoopStep.returned a none
                else LoopStep.next a

/-- Method `downloadPocketShonenmagazine(outDir, totalPages, title, sessionId)`
on `episode = ps.EpisodeData`. -/
def App.downloadPocketShonenmagazine (a : App) (sched : Schedule) (io : PageIO)
    (episode : ShonenMagazineEpisodeData) (outDir : String) (totalPages : Int)
    (title : String) (sessionId : Int) : App × Option GoError :=
  finishDownload sched totalPages title sessionId
    (rangeLoop (pageStepC sched io episode outDir totalPages title sessionId) 0
      episode.PageList a)

/-- A state of `App` in which the download of session `sessionId` has just
been started: no effects yet, empty channels. -/
def startedApp (sessionId : Int) : App :=
  { ctxValid := true, currentMode := "", isDownloading := true, forceStop := false,
    downloadCancelChan := 0, progressStopChan := 0, downloadSessionId := sessionId,
    emitted := [], processed := [], saved := [], cancelled := [] }

/-- A schedule in which no `CancelDownload` call arrives. -/
def quietSchedule : Schedule :=
  { cancelAt := fun _ => false, selectCancel := fun _ => true }

/-- A schedule with one call of `CancelDownload`: it takes place while
`sendProgressSafely` is sending the event `completed`, after the check
`shouldStopDownload` and the `select` on `progressStopChan`, before
`runtime.EventsEmit`. -/
def cancelBeforeCompletedEmit : Schedule :=
  { cancelAt := fun pt =>
      match pt with
      | YieldPoint.sendPolled progress => progress.Status == "completed"
      | _ => false,
    selectCancel := fun _ => true }

/-- I/O in which every call succeeds; paths are joined with a slash. -/
def successIO : PageIO :=
  { mkdirAll := fun _ => none, downloadImage := fun _ => Except.ok [],
    processImage := fun d _ _ => Except.ok d, saveImage := fun _ _ => none,
    pathJoin := fun dir file => dir ++ "/" ++ file }

/-- The state of a loop outcome. -/
def LoopStep.app : LoopStep → App
  | LoopStep.returned a _ => a
  | LoopStep.next a => a

/-- The name `NNN` of exactly three decimal digits for a number below 1000:
hundreds, tens and units. -/
def threeDigits (n : Nat) : String :=
  String.mk [Nat.digitChar (n / 100), Nat.digitChar (n / 10 % 10), Nat.digitChar (n % 10)]

/-- Between the states `a` and `r` of a run, files were only added to the log
of written files, each of them satisfying `P`. -/
def savedOnly (P : Int × String → Prop) (a r : App) : Prop :=
  ∃ new, r.saved = a.saved ++ new ∧ ∀ e ∈ new, P e

/-! ## Pixel accesses of the descrambler

The same loops as in `UnscrambleImage`, collecting for every executed
`unscrambled.Set(dx, dy, img.At(sx, sy))` the coordinate read and the
coordinate written, in the order of execution. -/

/-- One executed statement `unscrambled.Set(dstX, dstY, img.At(srcX, srcY))`. -/
structure PixelCopy where
  srcX : Int
  srcY : Int
  dstX : Int
  dstY : Int
deriving DecidableEq, Repr

/-- Execution of a list of pixel copies from `img` into `unscrambled`. -/
def applyCopies {κ : Type} [ColorType κ] (img : Image (Color κ)) (copies : List PixelCopy)
    (unscrambled : Image (Color κ)) : Image (Color κ) :=
  copies.foldl (fun out c => out.Set c.dstX c.dstY (img.At c.srcX c.srcY)) unscrambled

/-- The pixel copies of the block copy `copyTile`. -/
def copyTileAccesses (srcX srcY destX destY tileW tileH : Int) : List PixelCopy :=
  (List.range tileH.toNat).flatMap (fun (y : Nat) =>
    (List.range tileW.toNat).map (fun (x : Nat) =>
      { srcX := srcX + x, srcY := srcY + y, dstX := destX + x, dstY := destY + y }))

/-- The pixel copies of `tileStep`. -/
def tileStepAccesses (tileCount tileW tileH destTileIndex sourceTileIndex : Int) :
    List PixelCopy :=
  let srcX := (Int.tmod sourceTileIndex tileCount) * tileW
  let srcY := (Int.tdiv sourceTileIndex tileCount) * tileH
  let destX := (Int.tmod destTileIndex tileCount) * tileW
  let destY := (Int.tdiv destTileIndex tileCount) * tileH
  copyTileAccesses srcX srcY destX destY tileW tileH

/-- The pixel copies of `copyRightStrip`. -/
def rightStripAccesses (originalWidth originalHeight leftoverW : Int) : List PixelCopy :=
  if leftoverW > 0 then
    let srcX := originalWidth - leftoverW
    (List.range originalHeight.toNat).flatMap (fun (y : Nat) =>
      (List.range leftoverW.toNat).map (fun (x : Nat) =>
        { srcX := srcX + x, srcY := y, dstX := srcX + x, dstY := y }))
  else []

/-- The pixel copies of `copyBottomStrip`. -/
def bottomStripAccesses (originalWidth originalHeight leftoverH : Int) : List PixelCopy :=
  if leftoverH > 0 then
    let srcY := originalHeight - leftoverH
    (List.range leftoverH.toNat).flatMap (fun (y : Nat) =>
      (List.range originalWidth.toNat).map (fun (x : Nat) =>
        { srcX := x, srcY := srcY + y, dstX := x, dstY := srcY + y }))
  else []

/-- The pixel copies of `UnscrambleImage` on a raster of the given width and
height, in the order of execution: tile copies, right strip, bottom strip
(none when the raster is returned as it is); the outer `none` is a panic. -/
def unscrambleAccesses (originalWidth originalHeight scrambleSeed tileCount : Int) :
    Option (List PixelCopy) := do
  let (tileW, tileH, ok) ← CalculateDescrambleDimensions originalWidth originalHeight tileCount
  if !ok then
    some []
  else do
    let leftoverW := originalWidth - tileW * tileCount
    let leftoverH := originalHeight - tileH * tileCount
    let order ← ShuffleOrder (tileCount * tileCount) scrambleSeed
    some ((List.range order.length).flatMap
        (fun (i : Nat) => tileStepAccesses tileCount tileW tileH (i : Int) (order.getD i 0)) ++
      rightStripAccesses originalWidth originalHeight leftoverW ++
      bottomStripAccesses originalWidth originalHeight leftoverH)

/-! ## Short cycles of the xorshift step

A word of 32 bits is a vector over the field of two elements and the xorshift
step is a linear map `T` on these vectors. The tables below are the columns
of the inverse matrices of `T` (entry 0) and of `T^d + 1` for `d = 1 .. 15`
(entry `d`); they certify that no state other than 0 returns to itself within
15 steps. -/

/-- Product of the matrix with columns `cols` (column `i` is a 32-bit word)
and the vector `y`: the xor of the columns selected by the bits of `y`, the
first column belonging to bit `i`. -/
def applyCols : List Nat → Nat → Nat → Nat
  | [], _, _ => 0
  | c :: cs, i, y => (if y.testBit i then c else 0) ^^^ applyCols cs (i + 1) y

/-- The map `T` for `d = 0` and `T^d + 1` for `d > 0`, where `T` is the
xorshift step. -/
def cycleMap (d : Nat) (x : Nat) : Nat :=
  if d = 0 then xorshiftStepSpec x else (xorshiftStepSpec^[d] x) ^^^ x

/-- Columns of the inverse matrices of `cycleMap d`, `d = 0 .. 15`. -/
def cycleCertificates : List (List Nat) :=
  [[4071982377, 3848997458, 3738612901, 3182258506, 2069549716, 4139099432,
    3983231568, 3470144673, 2645322050, 995676804, 1991353608, 3982707216,
    3469095969, 2643224642, 991481988, 1982963976, 3965927952, 3435537441,
    2576107586, 857247876, 1714495752, 3428991504, 2294547488, 294127680,
    588255360, 1176510720, 2353021440, 142607360, 285214720, 570429440,
    1140858880, 2281717760],
   [2456421193, 645318041, 1313818681, 1280725041, 1214537761, 1073741825,
    2147483650, 3502817351, 1901674701, 3803349402, 3351756863, 2408546430,
    522125564, 4009148859, 260538430, 3485974591, 2676981886, 1058996476,
    2935407035, 2408022078, 521076860, 4007051451, 264733246, 3477587007,
    2660206718, 1025446140, 2868306363, 2273820734, 252674172, 3470246075,
    2645524854, 3912565156],
   [1199292750, 109543855, 1438105646, 3144220765, 1725202619, 264602175,
    3477324861, 2390820987, 218403063, 3401703853, 3443195946, 1254014999,
    1169506413, 2607546587, 2886484367, 1253883924, 1169244267, 2338488534,
    113476013, 1161379883, 2322759766, 82018477, 1098465835, 1111278612,
    1420904555, 2841809110, 1120117165, 3443064875, 1253752853, 1438367848,
    2876735696, 3426435481],
   [2332617502, 3607954719, 1651612526, 3963333265, 1046911796, 1874585091,
    3920544339, 943392963, 1853326238, 620714802, 1264350575, 1483847813,
    1166307191, 3788738445, 1696063273, 451378705, 2192191345, 1196921804,
    1583867867, 3653312429, 843047516, 3031893243, 4101015011, 942263173,
    1059526743, 2961662709, 2131711986, 2915660202, 2743254874, 453452162,
    4173795679, 356331427],
   [2630594315, 139718218, 4063129220, 2800754191, 3441458256, 1951440237,
    1911601388, 4216828580, 3994658356, 500829486, 190294788, 1597379709,
    4160055951, 1837651547, 3576412256, 2510869578, 2718345891, 213063223,
    1231989859, 1782639265, 1559352945, 3924503791, 2738612362, 3616936031,
    4138984138, 3051292388, 1001819589, 3343837852, 1601311871, 765930174,
    3275281998, 1484945417],
   [3878413362, 1807735053, 830021350, 3552595174, 3525513023, 3863113933,
    1842702892, 2919842475, 3716102214, 1746832021, 27017622, 3392406729,
    4294438077, 3462055526, 3987701984, 1609239672, 3353432247, 4062992769,
    555976701, 1755130563, 2256826625, 1486814431, 2183800233, 1673272679,
    2190335631, 2484468370, 2232274312, 1887940308, 643584781, 3249215128,
    3296873891, 2879024875],
   [91150926, 1926875594, 836599778, 3026196051, 4245010540, 2982022396,
    4173242155, 1511601873, 1737903608, 3627561509, 729200402, 828230983,
    2244476237, 2356850395, 1628748487, 507798751, 1019199736, 529085043,
    576956052, 3699820380, 797918046, 2359694997, 2238701280, 1188782839,
    1049060933, 3338792409, 696072339, 3077092247, 4111421838, 2061758203,
    2164371198, 3554499413],
   [3500295782, 2289321543, 43931846, 4223356839, 1794669404, 2989602544,
    10093580, 2472231623, 2552055136, 1671198474, 291025143, 1039816603,
    1688521871, 3093538192, 1619306822, 3538174434, 943383163, 1122836349,
    1330107767, 4282551860, 3128436550, 2150620732, 4277147784, 2110911836,
    277406595, 3042546767, 2410662050, 475314167, 1820421642, 1956599764,
    3908155384, 763026161],
   [649751795, 768780412, 1655138868, 1156788943, 3757963338, 1610679864,
    2082673475, 444208325, 3464419509, 2301843775, 986215244, 791561814,
    2050263520, 3823725738, 1905292943, 4256837728, 611589069, 243217233,
    2867925792, 1126063074, 4138949589, 3641393517, 1617917663, 4190842960,
    3219816608, 1489085118, 439641638, 1653138062, 3442011381, 3481534778,
    2332744948, 2860125960],
   [743624198, 4017922803, 2406893599, 3652729753, 2272327714, 3098068855,
    4041273172, 1935150517, 3741293156, 3965448559, 2077875996, 473778571,
    3326683907, 421309459, 2841473112, 827403302, 969524985, 2483035264,
    1244792909, 2847682269, 1169917449, 959155320, 4248529828, 1045938261,
    4110872153, 3637579200, 238102623, 2817630252, 3749120657, 1902204208,
    3413468227, 123129066],
   [448048888, 4253618139, 3039819215, 3876927112, 2491914367, 3588311660,
    1994035834, 914149891, 3532276284, 520176949, 943140110, 2182659304,
    1758699149, 2584676349, 3834681729, 2756223596, 3082366118, 1105935333,
    927736708, 1039219074, 508278052, 4217406264, 2478391008, 955509309,
    4232967916, 1591470755, 4213145513, 1185326864, 1057534120, 2994215238,
    1143101574, 2301513025],
   [32656330, 287545612, 3055550106, 3915574259, 3047766913, 4069614154,
    1274084622, 3994438474, 1770053777, 570745835, 2955159561, 1233640241,
    1067475182, 915137231, 3352683020, 3866093669, 1389375846, 1557912049,
    2617644320, 3208753059, 3459876937, 3853833305, 4058392406, 2175914631,
    994889642, 1475456730, 3940532021, 666905285, 1141536047, 528016440,
    797674155, 3038091867],
   [3816236671, 2288725115, 870713180, 2013288575, 2305278363, 396552300,
    581503231, 1810823357, 963821591, 1000099270, 593250076, 1709768518,
    1979415420, 1691957344, 3537423933, 1621591946, 217335087, 642346441,
    1621919664, 695828752, 2854051313, 1601790911, 1000378518, 3788957215,
    1130054892, 3735231673, 4284158682, 279245385, 958471059, 240269250,
    2561720973, 723256891],
   [3802551976, 560400369, 172419422, 1073225795, 43700506, 3450359802,
    281126798, 2886573680, 1958371740, 916353819, 1708330208, 110726619,
    1422968005, 431621522, 616439902, 842412968, 3991299691, 1803194977,
    279907441, 3886620860, 2931317614, 3814706543, 1073626292, 3351787749,
    4119116433, 4204192693, 2481802680, 1660268334, 198966239, 895104158,
    1836896222, 4041039048],
   [1008268760, 4066143187, 2699651187, 1787181928, 2586350743, 3049195526,
    2457593029, 4020653995, 880964447, 1799771549, 3634415374, 730050982,
    219319510, 928597780, 3957861379, 17247113, 2433964546, 2496276553,
    3357658979, 271523669, 2135331537, 3750874120, 1946107159, 106571268,
    3558680794, 801289561, 184046082, 17793542, 2926058766, 1734717662,
    2017793375, 2649518594],
   [2942747606, 2893733020, 3184444488, 2451026076, 2099719829, 3706147634,
    546965136, 3592286765, 495055500, 868505930, 1555622036, 1087611964,
    1914665749, 95400439, 485861352, 2890745166, 2453201834, 1858792542,
    3803517515, 2597894028, 170350752, 4180340964, 3588592746, 145389011,
    4161586033, 1122448809, 4131113892, 3754832850, 3975494340, 808907017,
    1960034642, 3215243621]]

/-- The map `f` on words is linear over the field of two elements. -/
def XorLinear (f : Nat → Nat) : Prop :=
  ∀ x y, f (x ^^^ y) = f x ^^^ f y


/-! ## Stable-sort reference for `ShuffleOrder` -/

/-- First component of the pair stored at index `k` of the pair array. -/
def keyAt (ps : List (Int × Int)) (k : Nat) : Int := (ps.getD k (0, 0)).1

/-- The first `count` outputs of a generator, in the order they are drawn. -/
def xorshiftOutputs : Nat → Xorshift32 → List Nat
  | 0, _ => []
  | n + 1, gen => (gen.Next).1 :: xorshiftOutputs n (gen.Next).2

/-- Modelled from the spec: the pairs `(r_i, i)` for `i = 0 .. count-1`, where
`r_i` are the first `count` outputs of a generator seeded with `seed`, sorted
stably (merge sort) by the first component in ascending unsigned order; the
second components give the permutation. -/
def stableShuffleOrder (count : Nat) (seed : Int) : List Int :=
  let rs := xorshiftOutputs count (NewXorshift32 (uint32OfInt seed))
  let pairs := rs.zip (List.range count)
  (pairs.mergeSort (fun a b => decide (a.1 ≤ b.1))).map (fun p => (p.2 : Int))

/-! ## Properties -/

/-- Invariant rule for a left fold: a property that holds initially and is
kept by every step on an element of the list holds at the end. -/
theorem foldl_invariant {α β : Type} (P : β → Prop) (f : β → α → β) :
    ∀ (l : List α) (b : β), P b → (∀ b a, a ∈ l → P b → P (f b a)) → P (l.foldl f b)
  | [], b, h0, _ => h0
  | a :: l, b, h0, hstep => by
      simp only [List.foldl_cons]
      exact foldl_invariant P f l (f b a)
        (hstep b a (List.mem_cons_self a l) h0)
        (fun b' a' ha' hb' => hstep b' a' (List.mem_cons_of_mem a ha') hb')

theorem swapPairs_length (ps : List (Int × Int)) (i j : Nat) :
    (swapPairs ps i j).length = ps.length := by
  simp [swapPairs]

theorem set_swap_perm {α : Type} [DecidableEq α] (l : List α) (i j : Nat)
    (hi : i < l.length) (hj : j < l.length) :
    ((l.set i l[j]).set j l[i]).Perm l := by
  rw [List.perm_iff_count]
  intro b
  rw [List.count_set _ _ _ _ (by simpa using hj), List.count_set _ _ _ _ hi]
  simp only [List.getElem_set, ite_self]
  simp only [beq_iff_eq]
  by_cases h1 : l[i] = b
  · have hpos : 1 ≤ l.count b := List.count_pos_iff.mpr (h1 ▸ List.getElem_mem hi)
    by_cases h2 : l[j] = b <;> simp only [h1, h2, if_true, if_false] <;> omega
  · by_cases h2 : l[j] = b <;> simp only [h1, h2, if_true, if_false] <;> omega

theorem swapPairs_perm (ps : List (Int × Int)) (i j : Nat)
    (hi : i < ps.length) (hj : j < ps.length) : (swapPairs ps i j).Perm ps := by
  unfold swapPairs
  rw [List.getD_eq_getElem _ _ hi, List.getD_eq_getElem _ _ hj]
  exact set_swap_perm ps i j hi hj

theorem sortInner_inv (count : Nat) (ps : List (Int × Int)) (i : Nat)
    (hlen : ps.length = count) (hi : i < count) :
    (sortInner count ps i).length = count ∧ (sortInner count ps i).Perm ps := by
  unfold sortInner
  refine foldl_invariant (fun (l : List (Int × Int)) => l.length = count ∧ l.Perm ps) _ _ _
    ⟨hlen, List.Perm.refl _⟩ ?_
  intro l j hj hl
  have hj' : j < count := by
    rw [List.mem_range'_1] at hj
    omega
  split
  · exact ⟨by rw [swapPairs_length]; exact hl.1,
      (swapPairs_perm l i j (by omega) (by omega)).trans hl.2⟩
  · exact hl

theorem sortPairs_inv (count : Nat) (ps : List (Int × Int)) (hlen : ps.length = count) :
    (sortPairs count ps).length = count ∧ (sortPairs count ps).Perm ps := by
  unfold sortPairs
  refine foldl_invariant (fun (l : List (Int × Int)) => l.length = count ∧ l.Perm ps) _ _ _
    ⟨hlen, List.Perm.refl _⟩ ?_
  intro l i hi hl
  have h := sortInner_inv count l i hl.1 (List.mem_range.mp hi)
  exact ⟨h.1, h.2.trans hl.2⟩

theorem fillLoop_inv (count : Nat) (gen : Xorshift32) (k : Nat) (hk : k ≤ count) :
    (((List.range k).foldl fillStep
        (gen, List.replicate count ((0 : Int), (0 : Int)))).2.length = count) ∧
    ∀ j, j < k → (((List.range k).foldl fillStep
        (gen, List.replicate count ((0 : Int), (0 : Int)))).2.getD j (0, 0)).2 = (j : Int) := by
  induction k with
  | zero => simp
  | succ k ih =>
    obtain ⟨hlen, hval⟩ := ih (by omega)
    rw [List.range_succ, List.foldl_append]
    simp only [List.foldl_cons, List.foldl_nil, fillStep]
    refine ⟨by simpa using hlen, ?_⟩
    intro j hj
    rw [List.getD_eq_getElem _ _ (by rw [List.length_set]; omega), List.getElem_set]
    split
    · next h => simp [h]
    · next h =>
      have := hval j (by omega)
      rwa [List.getD_eq_getElem _ _ (by omega)] at this

theorem fillPairs_length (count : Nat) (gen : Xorshift32) :
    (fillPairs count gen).2.length = count :=
  (fillLoop_inv count gen count (Nat.le_refl _)).1

theorem fillPairs_snd (count : Nat) (gen : Xorshift32) :
    (fillPairs count gen).2.map Prod.snd = (List.range count).map Int.ofNat := by
  have h := fillLoop_inv count gen count (Nat.le_refl _)
  apply List.ext_getElem
  · simp [fillPairs_length]
  · intro j h1 h2
    have hj : j < count := by simpa using h2
    have := h.2 j hj
    rw [List.getD_eq_getElem _ _ (by rw [h.1]; exact hj)] at this
    simpa [fillPairs] using this

theorem extractIndices_eq_map (count : Nat) (ps : List (Int × Int)) (h : ps.length = count) :
    extractIndices count ps = ps.map Prod.snd := by
  unfold extractIndices
  apply List.ext_getElem
  · simp [h]
  · intro j h1 h2
    have hj : j < ps.length := by simpa using h2
    simp only [List.getElem_map, List.getElem_range]
    rw [List.getD_eq_getElem _ _ hj]

/-- Shape of a successful `ShuffleOrder` call in terms of its three loops. -/
theorem ShuffleOrder_eq (count seed : Int) (h : 0 ≤ count) :
    ShuffleOrder count seed =
      some ((sortPairs count.toNat
        (fillPairs count.toNat (NewXorshift32 (uint32OfInt seed))).2).map Prod.snd) := by
  unfold ShuffleOrder
  rw [if_neg (by omega)]
  simp only
  rw [extractIndices_eq_map _ _ (sortPairs_inv _ _ (fillPairs_length _ _)).1]

theorem ShuffleOrder_perm (count seed : Int) (h : 0 ≤ count) :
    ∃ order, ShuffleOrder count seed = some order ∧ order.length = count.toNat ∧
      order.Perm ((List.range count.toNat).map Int.ofNat) := by
  refine ⟨_, ShuffleOrder_eq count seed h, ?_, ?_⟩
  · simp [(sortPairs_inv _ _ (fillPairs_length count.toNat _)).1]
  · rw [← fillPairs_snd count.toNat (NewXorshift32 (uint32OfInt seed))]
    exact (sortPairs_inv _ _ (fillPairs_length count.toNat _)).2.map _

/-- C1. For every `count ≥ 0` and every integer seed, `ShuffleOrder(count, seed)`
returns (without panicking) a list of length `count` that is a permutation of
`0, 1, .., count-1`: all its members lie in `[0, count)` and every integer of
`[0, count)` occurs in it exactly once. -/
theorem ShuffleOrder_permutation (count seed : Int) (h : 0 ≤ count) :
    ∃ order, ShuffleOrder count seed = some order ∧
      (order.length : Int) = count ∧
      order.Perm ((List.range count.toNat).map Int.ofNat) ∧
      (∀ k ∈ order, 0 ≤ k ∧ k < count) ∧
      (∀ k : Int, 0 ≤ k → k < count → order.count k = 1) := by
  obtain ⟨order, ho, hlen, hperm⟩ := ShuffleOrder_perm count seed h
  have hmem : ∀ k : Int, k ∈ order ↔ 0 ≤ k ∧ k < count := by
    intro k
    rw [hperm.mem_iff, List.mem_map]
    constructor
    · rintro ⟨a, ha, rfl⟩
      have := List.mem_range.mp ha
      exact ⟨Int.ofNat_nonneg a, by simp only [Int.ofNat_eq_coe]; omega⟩
    · rintro ⟨h0, h1⟩
      exact ⟨k.toNat, List.mem_range.mpr (by omega), by simp only [Int.ofNat_eq_coe]; omega⟩
  have hnodup : order.Nodup :=
    hperm.nodup_iff.mpr ((List.nodup_range _).map (fun a b hab => by simpa using hab))
  refine ⟨order, ho, by rw [hlen]; omega, hperm, fun k hk => (hmem k).mp hk, ?_⟩
  intro k h0 h1
  exact List.count_eq_one_of_mem hnodup ((hmem k).mpr ⟨h0, h1⟩)

/-- Witness of C1 at `count = 16`, `seed = 12345`. -/
theorem ShuffleOrder_permutation_witness :
    ∃ order, ShuffleOrder 16 12345 = some order ∧
      (order.length : Int) = 16 ∧
      order.Perm ((List.range (16 : Int).toNat).map Int.ofNat) ∧
      (∀ k ∈ order, 0 ≤ k ∧ k < 16) ∧
      (∀ k : Int, 0 ≤ k → k < 16 → order.count k = 1) :=
  ShuffleOrder_permutation 16 12345 (by decide)

theorem xorshiftStepSpec_lt (s : Nat) (hs : s < 2 ^ 32) : xorshiftStepSpec s < 2 ^ 32 := by
  unfold xorshiftStepSpec
  have hm : ∀ n : Nat, n % 2 ^ 32 < 2 ^ 32 := fun n => Nat.mod_lt _ (by decide)
  exact Nat.xor_lt_two_pow
    (Nat.xor_lt_two_pow (Nat.xor_lt_two_pow hs (hm _)) (hm _)) (hm _)

theorem Next_eq_spec (s : Nat) (hs : s < 2 ^ 32) :
    (Xorshift32.Next { state := s }).1 = xorshiftStepSpec s := by
  have hm : ∀ n : Nat, n % 2 ^ 32 < 2 ^ 32 := fun n => Nat.mod_lt _ (by decide)
  have ha : s ^^^ (s * 2 ^ 13) % 2 ^ 32 < 2 ^ 32 := Nat.xor_lt_two_pow hs (hm _)
  have hb : (s ^^^ (s * 2 ^ 13) % 2 ^ 32) / 2 ^ 17 < 2 ^ 32 :=
    Nat.lt_of_le_of_lt (Nat.div_le_self _ _) ha
  simp only [Xorshift32.Next, xorshiftStepSpec, wrap32, Nat.shiftLeft_eq,
    Nat.shiftRight_eq_div_pow]
  rw [Nat.mod_eq_of_lt hb]

/-- C6. For every 32-bit state `s`, `Next` returns the value of
`s ^= s << 13; s ^= s >> 17; s ^= s << 5` computed modulo `2 ^ 32`, leaves
exactly that value (again a 32-bit number) as the new state, and a generator
seeded with 1 returns 270369, 67634689, 2647435461 on its first three calls. -/
theorem Xorshift32_Next_spec (s : Nat) (hs : s < 2 ^ 32) :
    (Xorshift32.Next { state := s }).1 = xorshiftStepSpec s ∧
    (Xorshift32.Next { state := s }).2.state = xorshiftStepSpec s ∧
    (Xorshift32.Next { state := s }).2.state < 2 ^ 32 ∧
    (NewXorshift32 1).Next.1 = 270369 ∧
    (NewXorshift32 1).Next.2.Next.1 = 67634689 ∧
    (NewXorshift32 1).Next.2.Next.2.Next.1 = 2647435461 := by
  have h1 := Next_eq_spec s hs
  have h2 : (Xorshift32.Next { state := s }).2.state = (Xorshift32.Next { state := s }).1 := rfl
  refine ⟨h1, h2.trans h1, ?_, by decide, by decide, by decide⟩
  rw [h2, h1]
  exact xorshiftStepSpec_lt s hs

/-- Witness of C6 at the state `s = 1`. -/
theorem Xorshift32_Next_spec_witness :
    (Xorshift32.Next { state := 1 }).1 = xorshiftStepSpec 1 ∧
    (Xorshift32.Next { state := 1 }).2.state = xorshiftStepSpec 1 ∧
    (Xorshift32.Next { state := 1 }).2.state < 2 ^ 32 ∧
    (NewXorshift32 1).Next.1 = 270369 ∧
    (NewXorshift32 1).Next.2.Next.1 = 67634689 ∧
    (NewXorshift32 1).Next.2.Next.2.Next.1 = 2647435461 :=
  Xorshift32_Next_spec 1 (by decide)


/-! ### Pixel writes and block copies -/

theorem rgbaModel_rgba {κ : Type} [ColorType κ] (c : RGBA) :
    rgbaModel (Color.rgba c : Color κ) = Color.rgba c := rfl

theorem rgbaModel_idem {κ : Type} [ColorType κ] (c : Color κ) :
    rgbaModel (rgbaModel c) = rgbaModel c := by
  cases c <;> rfl

/-- A converted colour never has a dynamic type other than `color.RGBA`. -/
theorem rgbaModel_ne_other {κ : Type} [ColorType κ] (c : Color κ) (k : κ) :
    rgbaModel c ≠ Color.other k := by
  cases c <;> intro h <;> cases h

theorem Image.Set_W {κ : Type} [ColorType κ] (img : Image (Color κ)) (x y : Int) (c : Color κ) :
    (img.Set x y c).W = img.W := by
  unfold Image.Set; split <;> rfl

theorem Image.Set_H {κ : Type} [ColorType κ] (img : Image (Color κ)) (x y : Int) (c : Color κ) :
    (img.Set x y c).H = img.H := by
  unfold Image.Set; split <;> rfl

theorem Image.Set_At {κ : Type} [ColorType κ] (img : Image (Color κ)) (x y : Int) (c : Color κ) (a b : Int) :
    (img.Set x y c).At a b =
      if (a = x ∧ b = y) ∧ 0 ≤ a ∧ a < img.W ∧ 0 ≤ b ∧ b < img.H then rgbaModel c else img.At a b := by
  unfold Image.Set
  by_cases hin : 0 ≤ x ∧ x < img.W ∧ 0 ≤ y ∧ y < img.H
  · rw [if_pos hin]
    by_cases hab : a = x ∧ b = y
    · obtain ⟨rfl, rfl⟩ := hab
      simp [hin]
    · simp [hab]
  · rw [if_neg hin]
    by_cases hab : a = x ∧ b = y
    · obtain ⟨rfl, rfl⟩ := hab
      rw [if_neg]
      intro h
      exact hin h.2
    · simp [hab]

theorem forRange_natCast_succ {β : Type} (k : Nat) (body : β → Int → β) (init : β) :
    forRange ((k : Int) + 1) body init = body (forRange (k : Int) body init) (k : Int) := by
  have h : ((k : Int) + 1).toNat = k + 1 := by omega
  simp only [forRange, h, Int.toNat_ofNat, List.range_succ, List.foldl_append,
    List.foldl_cons, List.foldl_nil]

theorem forRange_nonpos {β : Type} (n : Int) (hn : n ≤ 0) (body : β → Int → β) (init : β) :
    forRange n body init = init := by
  have h : n.toNat = 0 := by omega
  simp [forRange, h]

/-- One row of a block copy: the pixels `(dx + x, yy)`, `0 ≤ x < w`, receive
the colours `c x`; everything else is kept. -/
theorem rowLoop_spec {κ : Type} [ColorType κ] (out : Image (Color κ)) (dx yy : Int) (c : Int → Color κ) (k : Nat) :
    (forRange (k : Int) (fun o x => o.Set (dx + x) yy (c x)) out).W = out.W ∧
    (forRange (k : Int) (fun o x => o.Set (dx + x) yy (c x)) out).H = out.H ∧
    ∀ a b, (forRange (k : Int) (fun o x => o.Set (dx + x) yy (c x)) out).At a b =
      if (dx ≤ a ∧ a < dx + k ∧ b = yy) ∧ 0 ≤ a ∧ a < out.W ∧ 0 ≤ b ∧ b < out.H
      then rgbaModel (c (a - dx)) else out.At a b := by
  induction k with
  | zero =>
    refine ⟨by simp [forRange], by simp [forRange], ?_⟩
    intro a b
    rw [if_neg]
    · simp [forRange]
    · intro h
      have := h.1
      omega
  | succ k ih =>
    obtain ⟨hW, hH, hAt⟩ := ih
    rw [Nat.cast_succ, forRange_natCast_succ]
    refine ⟨by rw [Image.Set_W, hW], by rw [Image.Set_H, hH], ?_⟩
    intro a b
    rw [Image.Set_At, hW, hH, hAt]
    by_cases hin : 0 ≤ a ∧ a < out.W ∧ 0 ≤ b ∧ b < out.H
    · by_cases hnew : a = dx + k ∧ b = yy
      · have e : a - dx = k := by omega
        rw [if_pos ⟨hnew, hin⟩, if_pos ⟨⟨by omega, by omega, hnew.2⟩, hin⟩, e]
      · rw [if_neg (fun h => hnew h.1)]
        by_cases hold : dx ≤ a ∧ a < dx + k ∧ b = yy
        · rw [if_pos ⟨hold, hin⟩, if_pos ⟨⟨hold.1, by omega, hold.2.2⟩, hin⟩]
        · rw [if_neg (fun h => hold h.1), if_neg]
          intro h
          have h1 := h.1
          by_cases hb : b = yy
          · exact hold ⟨h1.1, by omega, hb⟩
          · exact hb h1.2.2
    · rw [if_neg (fun h => hin h.2), if_neg (fun h => hin h.2), if_neg (fun h => hin h.2)]

theorem rowLoop_spec_int {κ : Type} [ColorType κ] (out : Image (Color κ)) (dx yy : Int) (c : Int → Color κ) (w : Int) :
    (forRange w (fun o x => o.Set (dx + x) yy (c x)) out).W = out.W ∧
    (forRange w (fun o x => o.Set (dx + x) yy (c x)) out).H = out.H ∧
    ∀ a b, (forRange w (fun o x => o.Set (dx + x) yy (c x)) out).At a b =
      if (dx ≤ a ∧ a < dx + w ∧ b = yy) ∧ 0 ≤ a ∧ a < out.W ∧ 0 ≤ b ∧ b < out.H
      then rgbaModel (c (a - dx)) else out.At a b := by
  by_cases hw : 0 ≤ w
  · obtain ⟨k, rfl⟩ := Int.eq_ofNat_of_zero_le hw
    exact rowLoop_spec out dx yy c k
  · rw [forRange_nonpos w (by omega)]
    refine ⟨rfl, rfl, ?_⟩
    intro a b
    rw [if_neg]
    intro h
    have := h.1
    omega

/-- A block copy writes the `w × h` block at `(dx, dy)` of the destination
(as far as it lies inside the destination) with the block at `(sx, sy)` of the
source, and keeps every other pixel. -/
theorem copyTile_spec_nat {κ : Type} [ColorType κ] (img out : Image (Color κ)) (sx sy dx dy w : Int) (k : Nat) :
    (copyTile img sx sy dx dy w (k : Int) out).W = out.W ∧
    (copyTile img sx sy dx dy w (k : Int) out).H = out.H ∧
    ∀ a b, (copyTile img sx sy dx dy w (k : Int) out).At a b =
      if (dx ≤ a ∧ a < dx + w ∧ dy ≤ b ∧ b < dy + k) ∧ 0 ≤ a ∧ a < out.W ∧ 0 ≤ b ∧ b < out.H
      then rgbaModel (img.At (sx + (a - dx)) (sy + (b - dy))) else out.At a b := by
  unfold copyTile
  induction k with
  | zero =>
    refine ⟨by simp [forRange], by simp [forRange], ?_⟩
    intro a b
    rw [if_neg]
    · simp [forRange]
    · intro h
      have := h.1
      omega
  | succ k ih =>
    obtain ⟨hW, hH, hAt⟩ := ih
    rw [Nat.cast_succ, forRange_natCast_succ]
    obtain ⟨rW, rH, rAt⟩ := rowLoop_spec_int
      (forRange (k : Int) (fun out y =>
        forRange w (fun out x =>
          out.Set (dx + x) (dy + y) (img.At (sx + x) (sy + y))) out) out)
      dx (dy + k) (fun x => img.At (sx + x) (sy + k)) w
    refine ⟨by rw [rW, hW], by rw [rH, hH], ?_⟩
    intro a b
    rw [rAt, hW, hH, hAt]
    by_cases hin : 0 ≤ a ∧ a < out.W ∧ 0 ≤ b ∧ b < out.H
    · by_cases hx : dx ≤ a ∧ a < dx + w
      · by_cases hnew : b = dy + k
        · have e : b - dy = k := by omega
          rw [if_pos ⟨⟨hx.1, hx.2, hnew⟩, hin⟩,
            if_pos ⟨⟨hx.1, hx.2, by omega, by omega⟩, hin⟩, e]
        · rw [if_neg (fun h => hnew h.1.2.2)]
          by_cases hold : dy ≤ b ∧ b < dy + k
          · rw [if_pos ⟨⟨hx.1, hx.2, hold.1, hold.2⟩, hin⟩,
              if_pos ⟨⟨hx.1, hx.2, hold.1, by omega⟩, hin⟩]
          · rw [if_neg (fun h => hold ⟨h.1.2.2.1, h.1.2.2.2⟩), if_neg]
            intro h
            have h1 := h.1
            exact hold ⟨h1.2.2.1, by omega⟩
      · rw [if_neg (fun h => hx ⟨h.1.1, h.1.2.1⟩), if_neg (fun h => hx ⟨h.1.1, h.1.2.1⟩),
          if_neg (fun h => hx ⟨h.1.1, h.1.2.1⟩)]
    · rw [if_neg (fun h => hin h.2), if_neg (fun h => hin h.2), if_neg (fun h => hin h.2)]

theorem copyTile_spec {κ : Type} [ColorType κ] (img out : Image (Color κ)) (sx sy dx dy w h : Int) :
    (copyTile img sx sy dx dy w h out).W = out.W ∧
    (copyTile img sx sy dx dy w h out).H = out.H ∧
    ∀ a b, (copyTile img sx sy dx dy w h out).At a b =
      if (dx ≤ a ∧ a < dx + w ∧ dy ≤ b ∧ b < dy + h) ∧ 0 ≤ a ∧ a < out.W ∧ 0 ≤ b ∧ b < out.H
      then rgbaModel (img.At (sx + (a - dx)) (sy + (b - dy))) else out.At a b := by
  by_cases hh : 0 ≤ h
  · obtain ⟨k, rfl⟩ := Int.eq_ofNat_of_zero_le hh
    exact copyTile_spec_nat img out sx sy dx dy w k
  · have e : copyTile img sx sy dx dy w h out = out := by
      unfold copyTile
      exact forRange_nonpos h (by omega) _ _
    rw [e]
    refine ⟨rfl, rfl, ?_⟩
    intro a b
    rw [if_neg]
    intro h'
    have := h'.1
    omega

theorem copyRightStrip_eq {κ : Type} [ColorType κ] (img out : Image (Color κ)) (W H leftoverW : Int) :
    copyRightStrip img W H leftoverW out =
      if leftoverW > 0 then
        copyTile img (W - leftoverW) 0 (W - leftoverW) 0 leftoverW H out
      else out := by
  simp only [copyRightStrip, copyTile, Int.zero_add]

theorem copyBottomStrip_eq {κ : Type} [ColorType κ] (img out : Image (Color κ)) (W H leftoverH : Int) :
    copyBottomStrip img W H leftoverH out =
      if leftoverH > 0 then
        copyTile img 0 (H - leftoverH) 0 (H - leftoverH) W leftoverH out
      else out := by
  simp only [copyBottomStrip, copyTile, Int.zero_add]

theorem copyRightStrip_spec {κ : Type} [ColorType κ] (img out : Image (Color κ)) (W H lw : Int) :
    (copyRightStrip img W H lw out).W = out.W ∧
    (copyRightStrip img W H lw out).H = out.H ∧
    ∀ a b, (copyRightStrip img W H lw out).At a b =
      if (0 < lw ∧ W - lw ≤ a ∧ a < W ∧ 0 ≤ b ∧ b < H) ∧ 0 ≤ a ∧ a < out.W ∧ 0 ≤ b ∧ b < out.H
      then rgbaModel (img.At a b) else out.At a b := by
  rw [copyRightStrip_eq]
  by_cases hl : lw > 0
  · rw [if_pos hl]
    obtain ⟨hW, hH, hAt⟩ := copyTile_spec img out (W - lw) 0 (W - lw) 0 lw H
    refine ⟨hW, hH, ?_⟩
    intro a b
    rw [hAt]
    have ea : W - lw + (a - (W - lw)) = a := by omega
    have eb : 0 + (b - 0) = b := by omega
    rw [ea, eb]
    apply if_congr _ rfl rfl
    constructor <;> intro h <;> refine ⟨?_, h.2⟩ <;> have := h.1 <;> omega
  · rw [if_neg hl]
    refine ⟨rfl, rfl, ?_⟩
    intro a b
    rw [if_neg]
    intro h
    exact hl h.1.1

theorem copyBottomStrip_spec {κ : Type} [ColorType κ] (img out : Image (Color κ)) (W H lh : Int) :
    (copyBottomStrip img W H lh out).W = out.W ∧
    (copyBottomStrip img W H lh out).H = out.H ∧
    ∀ a b, (copyBottomStrip img W H lh out).At a b =
      if (0 < lh ∧ 0 ≤ a ∧ a < W ∧ H - lh ≤ b ∧ b < H) ∧ 0 ≤ a ∧ a < out.W ∧ 0 ≤ b ∧ b < out.H
      then rgbaModel (img.At a b) else out.At a b := by
  rw [copyBottomStrip_eq]
  by_cases hl : lh > 0
  · rw [if_pos hl]
    obtain ⟨hW, hH, hAt⟩ := copyTile_spec img out 0 (H - lh) 0 (H - lh) W lh
    refine ⟨hW, hH, ?_⟩
    intro a b
    rw [hAt]
    have ea : 0 + (a - 0) = a := by omega
    have eb : H - lh + (b - (H - lh)) = b := by omega
    rw [ea, eb]
    apply if_congr _ rfl rfl
    constructor <;> intro h <;> refine ⟨?_, h.2⟩ <;> have := h.1 <;> omega
  · rw [if_neg hl]
    refine ⟨rfl, rfl, ?_⟩
    intro a b
    rw [if_neg]
    intro h
    exact hl h.1.1

/-! ### Tile geometry -/

theorem mul_interval_unique (x y t a : Int)
    (hx1 : x * t ≤ a) (hx2 : a < x * t + t) (hy1 : y * t ≤ a) (hy2 : a < y * t + t) :
    x = y := by
  have ht : 0 < t := by omega
  rcases Int.lt_trichotomy x y with h | h | h
  · have : (x + 1) * t ≤ y * t := Int.mul_le_mul_of_nonneg_right (by omega) (by omega)
    rw [Int.add_mul, Int.one_mul] at this
    omega
  · exact h
  · have : (y + 1) * t ≤ x * t := Int.mul_le_mul_of_nonneg_right (by omega) (by omega)
    rw [Int.add_mul, Int.one_mul] at this
    omega

theorem inTile_unique (tc tw th j j' a b : Int)
    (h : inTile tc tw th j a b) (h' : inTile tc tw th j' a b) : j = j' := by
  obtain ⟨h1, h2, h3, h4⟩ := h
  obtain ⟨h1', h2', h3', h4'⟩ := h'
  have em := mul_interval_unique _ _ _ _ h1 h2 h1' h2'
  have ed := mul_interval_unique _ _ _ _ h3 h4 h3' h4'
  rw [← Int.ediv_add_emod j tc, ← Int.ediv_add_emod j' tc, em, ed]

theorem tile_index_bounds (tc j : Int) (htc : 1 ≤ tc) (h0 : 0 ≤ j) (h1 : j < tc * tc) :
    0 ≤ j % tc ∧ j % tc < tc ∧ 0 ≤ j / tc ∧ j / tc < tc :=
  ⟨Int.emod_nonneg _ (by omega), Int.emod_lt_of_pos _ (by omega),
    Int.ediv_nonneg h0 (by omega), Int.ediv_lt_of_lt_mul (by omega) h1⟩

theorem inTile_in_bounds (tc tw th j a b : Int) (htc : 1 ≤ tc) (h0 : 0 ≤ j)
    (h1 : j < tc * tc) (htw : 0 ≤ tw) (hth : 0 ≤ th) (h : inTile tc tw th j a b) :
    0 ≤ a ∧ a < tw * tc ∧ 0 ≤ b ∧ b < th * tc := by
  obtain ⟨m0, m1, d0, d1⟩ := tile_index_bounds tc j htc h0 h1
  obtain ⟨h1, h2, h3, h4⟩ := h
  have e1 : 0 ≤ (j % tc) * tw := Int.mul_nonneg m0 htw
  have e2 : (j % tc + 1) * tw ≤ tc * tw := Int.mul_le_mul_of_nonneg_right (by omega) htw
  have e3 : 0 ≤ (j / tc) * th := Int.mul_nonneg d0 hth
  have e4 : (j / tc + 1) * th ≤ tc * th := Int.mul_le_mul_of_nonneg_right (by omega) hth
  rw [Int.add_mul, Int.one_mul] at e2 e4
  rw [Int.mul_comm tw tc, Int.mul_comm th tc]
  omega

theorem tileStep_spec {κ : Type} [ColorType κ] (img out : Image (Color κ)) (tc tw th d s : Int)
    (htc : 0 ≤ tc) (hd : 0 ≤ d) (hs : 0 ≤ s) :
    (tileStep img tc tw th out d s).W = out.W ∧
    (tileStep img tc tw th out d s).H = out.H ∧
    ∀ a b, (tileStep img tc tw th out d s).At a b =
      if inTile tc tw th d a b ∧ 0 ≤ a ∧ a < out.W ∧ 0 ≤ b ∧ b < out.H
      then rgbaModel
        (img.At ((s % tc) * tw + (a - (d % tc) * tw)) ((s / tc) * th + (b - (d / tc) * th)))
      else out.At a b := by
  unfold tileStep inTile
  simp only [Int.tmod_eq_emod hd htc, Int.tmod_eq_emod hs htc, Int.tdiv_eq_ediv hd htc,
    Int.tdiv_eq_ediv hs htc]
  exact copyTile_spec img out _ _ _ _ tw th

/-- The tile loop over a list of (destination, source) tile indices with
pairwise distinct destinations: dimensions are kept, every destination tile
holds the pixels of its source tile, and pixels outside all destination tiles
are kept. -/
theorem tilesLoop_spec {κ : Type} [ColorType κ] (img : Image (Color κ)) (tc tw th : Int)
    (htc : 1 ≤ tc) (htw : 0 ≤ tw) (hth : 0 ≤ th) :
    ∀ (L : List (Int × Int)) (init : Image (Color κ)),
      tw * tc ≤ init.W → th * tc ≤ init.H →
      (∀ p ∈ L, 0 ≤ p.1 ∧ p.1 < tc * tc ∧ 0 ≤ p.2) →
      (L.map Prod.fst).Nodup →
      (L.foldl (fun out p => tileStep img tc tw th out p.1 p.2) init).W = init.W ∧
      (L.foldl (fun out p => tileStep img tc tw th out p.1 p.2) init).H = init.H ∧
      (∀ p ∈ L, ∀ a b, inTile tc tw th p.1 a b →
        (L.foldl (fun out p => tileStep img tc tw th out p.1 p.2) init).At a b =
          rgbaModel (img.At ((p.2 % tc) * tw + (a - (p.1 % tc) * tw))
            ((p.2 / tc) * th + (b - (p.1 / tc) * th)))) ∧
      (∀ a b, (∀ p ∈ L, ¬ inTile tc tw th p.1 a b) →
        (L.foldl (fun out p => tileStep img tc tw th out p.1 p.2) init).At a b =
          init.At a b)
  | [], init, _, _, _, _ => by
      refine ⟨rfl, rfl, ?_, ?_⟩
      · intro p hp
        cases hp
      · intro a b _
        rfl
  | q :: L, init, hW, hH, hL, hnd => by
      have hq := hL q (List.mem_cons_self q L)
      obtain ⟨sW, sH, sAt⟩ := tileStep_spec img init tc tw th q.1 q.2 (by omega) hq.1 hq.2.2
      rw [List.map_cons, List.nodup_cons] at hnd
      obtain ⟨rW, rH, rIn, rOut⟩ := tilesLoop_spec img tc tw th htc htw hth L
        (tileStep img tc tw th init q.1 q.2) (by rw [sW]; exact hW) (by rw [sH]; exact hH)
        (fun p hp => hL p (List.mem_cons_of_mem q hp)) hnd.2
      simp only [List.foldl_cons]
      refine ⟨by rw [rW, sW], by rw [rH, sH], ?_, ?_⟩
      · intro p hp a b hab
        rcases List.mem_cons.mp hp with rfl | hp'
        · have hnot : ∀ r ∈ L, ¬ inTile tc tw th r.1 a b := by
            intro r hr hr'
            have := inTile_unique tc tw th _ _ a b hab hr'
            exact hnd.1 (List.mem_map.mpr ⟨r, hr, this.symm⟩)
          have hb := inTile_in_bounds tc tw th p.1 a b htc hq.1 hq.2.1 htw hth hab
          rw [rOut a b hnot, sAt, if_pos ⟨hab, by omega, by omega, by omega, by omega⟩]
        · exact rIn p hp' a b hab
      · intro a b hnot
        rw [rOut a b (fun p hp => hnot p (List.mem_cons_of_mem q hp)), sAt, if_neg]
        intro h
        exact hnot q (List.mem_cons_self q L) h.1

/-! ### Grid derivation -/

theorem wrapInt64_eq (n : Int) (h0 : -2 ^ 63 ≤ n) (h1 : n < 2 ^ 63) : wrapInt64 n = n := by
  unfold wrapInt64
  omega

theorem wrapInt64_le (n : Int) (h : 0 ≤ n) : wrapInt64 n ≤ n := by
  unfold wrapInt64
  omega

theorem CalculateDescrambleDimensions_ok (W H tc : Int) (htc : 1 ≤ tc)
    (hW : 8 * tc ≤ W) (hH : 8 * tc ≤ H) :
    CalculateDescrambleDimensions W H tc = some (W / 8 / tc * 8, H / 8 / tc * 8, true) := by
  unfold CalculateDescrambleDimensions goDiv
  have e1 : W.tdiv 8 = W / 8 := Int.tdiv_eq_ediv (by omega) (by omega)
  have e2 : H.tdiv 8 = H / 8 := Int.tdiv_eq_ediv (by omega) (by omega)
  have e3 : (W / 8).tdiv tc = W / 8 / tc := Int.tdiv_eq_ediv (by omega) (by omega)
  have e4 : (H / 8).tdiv tc = H / 8 / tc := Int.tdiv_eq_ediv (by omega) (by omega)
  have hne : ¬ tc = 0 := by omega
  have hwrap : wrapInt64 (tc * 8) ≤ tc * 8 := wrapInt64_le _ (by omega)
  have hbig : ¬ (W < wrapInt64 (tc * 8) ∨ H < wrapInt64 (tc * 8)) := by omega
  simp only [e1, e2, e3, e4, if_neg hne, if_neg hbig]
  rfl

/-- The size guard is taken when `8·tc` does not leave the range of `int`. -/
theorem CalculateDescrambleDimensions_small (W H tc : Int) (htc : 1 ≤ tc) (h60 : tc < 2 ^ 60)
    (h : W < 8 * tc ∨ H < 8 * tc) :
    CalculateDescrambleDimensions W H tc = some (0, 0, false) := by
  unfold CalculateDescrambleDimensions
  simp only
  rw [wrapInt64_eq (tc * 8) (by omega) (by omega), if_pos (by omega)]

/-- For a non-zero tile count the grid derivation returns (no division by
zero), whatever the size guard decides. -/
theorem CalculateDescrambleDimensions_isSome (W H tc : Int) (htc : tc ≠ 0) :
    ∃ tw th ok, CalculateDescrambleDimensions W H tc = some (tw, th, ok) := by
  unfold CalculateDescrambleDimensions goDiv
  simp only
  split
  · exact ⟨_, _, _, rfl⟩
  · exact ⟨_, _, _, rfl⟩

theorem tileDim_bounds (W tc : Int) (htc : 1 ≤ tc) (hW : 8 * tc ≤ W) :
    8 ≤ W / 8 / tc * 8 ∧ (W / 8 / tc * 8) * tc ≤ W ∧ W - (W / 8 / tc * 8) * tc < 8 * tc := by
  have hq : tc ≤ W / 8 := by omega
  have h1 : 1 ≤ W / 8 / tc := Int.le_ediv_of_mul_le (by omega) (by omega)
  have h2 : W / 8 / tc * tc ≤ W / 8 := Int.ediv_mul_le _ (by omega)
  have h3 : W / 8 < (W / 8 / tc + 1) * tc := Int.lt_ediv_add_one_mul_self _ (by omega)
  have e : (W / 8 / tc * 8) * tc = 8 * (W / 8 / tc * tc) := by ring
  rw [Int.add_mul, Int.one_mul] at h3
  rw [e]
  omega

/-! ### The assembled raster -/

theorem assembleRaster_spec {κ : Type} [ColorType κ] (img : Image (Color κ)) (tc tw th : Int)
    (L : List (Int × Int)) (htc : 1 ≤ tc) (htw : 0 ≤ tw) (hth : 0 ≤ th)
    (hW : tw * tc ≤ img.W) (hH : th * tc ≤ img.H)
    (hL : ∀ p ∈ L, 0 ≤ p.1 ∧ p.1 < tc * tc ∧ 0 ≤ p.2) (hnd : (L.map Prod.fst).Nodup) :
    (assembleRaster img tc tw th L).W = img.W ∧
    (assembleRaster img tc tw th L).H = img.H ∧
    (∀ p ∈ L, ∀ a b, inTile tc tw th p.1 a b →
      (assembleRaster img tc tw th L).At a b =
        rgbaModel (img.At ((p.2 % tc) * tw + (a - (p.1 % tc) * tw))
          ((p.2 / tc) * th + (b - (p.1 / tc) * th)))) ∧
    (∀ a b, 0 ≤ a → a < img.W → 0 ≤ b → b < img.H → (tw * tc ≤ a ∨ th * tc ≤ b) →
      (assembleRaster img tc tw th L).At a b = rgbaModel (img.At a b)) := by
  obtain ⟨tW, tH, tIn, _⟩ := tilesLoop_spec img tc tw th htc htw hth L
    (NewRGBA img.W img.H) hW hH hL hnd
  obtain ⟨rW, rH, rAt⟩ := copyRightStrip_spec img
    (L.foldl (fun out p => tileStep img tc tw th out p.1 p.2) (NewRGBA img.W img.H))
    img.W img.H (img.W - tw * tc)
  obtain ⟨bW, bH, bAt⟩ := copyBottomStrip_spec img
    (copyRightStrip img img.W img.H (img.W - tw * tc)
      (L.foldl (fun out p => tileStep img tc tw th out p.1 p.2) (NewRGBA img.W img.H)))
    img.W img.H (img.H - th * tc)
  have nW : (NewRGBA img.W img.H : Image (Color κ)).W = img.W := rfl
  have nH : (NewRGBA img.W img.H : Image (Color κ)).H = img.H := rfl
  rw [tW, nW] at rW
  rw [tH, nH] at rH
  rw [rW] at bW
  rw [rH] at bH
  unfold assembleRaster
  refine ⟨bW, bH, ?_, ?_⟩
  · intro p hp a b hab
    have hb := inTile_in_bounds tc tw th p.1 a b htc (hL p hp).1 (hL p hp).2.1 htw hth hab
    rw [bAt, if_neg (fun h => by have := h.1; omega), rAt,
      if_neg (fun h => by have := h.1; omega)]
    exact tIn p hp a b hab
  · intro a b ha0 ha1 hb0 hb1 hout
    rw [bAt, rW, rH]
    by_cases hb : th * tc ≤ b
    · rw [if_pos ⟨⟨by omega, ha0, ha1, by omega, hb1⟩, ha0, ha1, hb0, hb1⟩]
    · rw [if_neg (fun h => by have := h.1; omega), rAt, tW, tH, nW, nH,
        if_pos ⟨⟨by omega, by omega, ha1, hb0, hb1⟩, ha0, ha1, hb0, hb1⟩]

/-- Shape of `UnscrambleImage` once the grid derivation has accepted the
raster: the assembled raster of the forward moves. -/
theorem UnscrambleImage_of_dims {κ : Type} [ColorType κ] (img : Image (Color κ))
    (seed tc tw th : Int) (order : List Int)
    (hd : CalculateDescrambleDimensions img.W img.H tc = some (tw, th, true))
    (ho : ShuffleOrder (tc * tc) seed = some order) :
    UnscrambleImage img seed tc =
      some (assembleRaster img tc tw th (forwardMoves order), none) := by
  unfold UnscrambleImage
  simp only [hd, ho, assembleRaster, forwardMoves, List.foldl_map]
  rfl

theorem UnscrambleImage_eq {κ : Type} [ColorType κ] (img : Image (Color κ)) (seed tc : Int)
    (order : List Int) (htc : 1 ≤ tc) (hW : 8 * tc ≤ img.W) (hH : 8 * tc ≤ img.H)
    (ho : ShuffleOrder (tc * tc) seed = some order) :
    UnscrambleImage img seed tc =
      some (assembleRaster img tc (img.W / 8 / tc * 8) (img.H / 8 / tc * 8)
        (forwardMoves order), none) :=
  UnscrambleImage_of_dims img seed tc _ _ order
    (CalculateDescrambleDimensions_ok img.W img.H tc htc hW hH) ho

theorem inverseTileMove_eq {κ : Type} [ColorType κ] (img : Image (Color κ)) (seed tc : Int)
    (order : List Int) (htc : 1 ≤ tc) (hW : 8 * tc ≤ img.W) (hH : 8 * tc ≤ img.H)
    (ho : ShuffleOrder (tc * tc) seed = some order) :
    inverseTileMove img seed tc =
      some (assembleRaster img tc (img.W / 8 / tc * 8) (img.H / 8 / tc * 8)
        (inverseMoves order), none) := by
  unfold inverseTileMove
  simp only [CalculateDescrambleDimensions_ok img.W img.H tc htc hW hH, ho, assembleRaster,
    inverseMoves, List.foldl_map]
  rfl

/-! ### The permutation inside the descrambler -/

theorem order_facts (count seed : Int) (order : List Int) (hc : 0 ≤ count)
    (ho : ShuffleOrder count seed = some order) :
    (order.length : Int) = count ∧ (∀ k ∈ order, 0 ≤ k ∧ k < count) ∧ order.Nodup ∧
      (∀ j : Int, 0 ≤ j → j < count → j ∈ order) := by
  obtain ⟨order', ho', hlen, hperm⟩ := ShuffleOrder_perm count seed hc
  rw [ho] at ho'
  cases ho'
  have hmem : ∀ k : Int, k ∈ order ↔ 0 ≤ k ∧ k < count := by
    intro k
    rw [hperm.mem_iff, List.mem_map]
    constructor
    · rintro ⟨a, ha, rfl⟩
      have := List.mem_range.mp ha
      exact ⟨Int.ofNat_nonneg a, by simp only [Int.ofNat_eq_coe]; omega⟩
    · rintro ⟨h0, h1⟩
      exact ⟨k.toNat, List.mem_range.mpr (by omega), by simp only [Int.ofNat_eq_coe]; omega⟩
  refine ⟨by omega, fun k hk => (hmem k).mp hk, ?_, fun j h0 h1 => (hmem j).mpr ⟨h0, h1⟩⟩
  exact hperm.nodup_iff.mpr ((List.nodup_range _).map (fun a b hab => by simpa using hab))

theorem getD_mem (order : List Int) (i : Nat) (hi : i < order.length) :
    order.getD i 0 ∈ order := by
  rw [List.getD_eq_getElem _ _ hi]
  exact List.getElem_mem hi

theorem forwardMoves_mem (order : List Int) (i : Nat) (hi : i < order.length) :
    ((i : Int), order.getD i 0) ∈ forwardMoves order :=
  List.mem_map.mpr ⟨i, List.mem_range.mpr hi, rfl⟩

theorem inverseMoves_mem (order : List Int) (i : Nat) (hi : i < order.length) :
    (order.getD i 0, (i : Int)) ∈ inverseMoves order :=
  List.mem_map.mpr ⟨i, List.mem_range.mpr hi, rfl⟩

theorem forwardMoves_ok (count : Int) (order : List Int) (hlen : (order.length : Int) = count)
    (hmem : ∀ k ∈ order, 0 ≤ k ∧ k < count) :
    (∀ p ∈ forwardMoves order, 0 ≤ p.1 ∧ p.1 < count ∧ 0 ≤ p.2) ∧
      ((forwardMoves order).map Prod.fst).Nodup := by
  constructor
  · intro p hp
    obtain ⟨i, hi, rfl⟩ := List.mem_map.mp hp
    have hi' := List.mem_range.mp hi
    exact ⟨by omega, by simp only; omega, (hmem _ (getD_mem order i hi')).1⟩
  · unfold forwardMoves
    rw [List.map_map]
    exact (List.nodup_range _).map (fun a b hab => by simpa using hab)

theorem inverseMoves_ok (count : Int) (order : List Int)
    (hmem : ∀ k ∈ order, 0 ≤ k ∧ k < count) (hnd : order.Nodup) :
    (∀ p ∈ inverseMoves order, 0 ≤ p.1 ∧ p.1 < count ∧ 0 ≤ p.2) ∧
      ((inverseMoves order).map Prod.fst).Nodup := by
  constructor
  · intro p hp
    obtain ⟨i, hi, rfl⟩ := List.mem_map.mp hp
    have hi' := List.mem_range.mp hi
    have := hmem _ (getD_mem order i hi')
    exact ⟨this.1, this.2, by simp only; omega⟩
  · have e : (inverseMoves order).map Prod.fst = order := by
      unfold inverseMoves
      rw [List.map_map]
      apply List.ext_getElem
      · simp
      · intro j h1 h2
        simp only [List.getElem_map, List.getElem_range, Function.comp]
        exact List.getD_eq_getElem _ _ h2
    rw [e]
    exact hnd

/-- What `UnscrambleImage` returns for a raster that passes the size guard:
a raster of the same size whose tiles hold the converted pixels of their
source tiles and whose leftover strips hold the converted pixels of the same
positions. -/
theorem UnscrambleImage_pixels {κ : Type} [ColorType κ] (img : Image (Color κ))
    (seed tc : Int) (htc : 1 ≤ tc) (hW : 8 * tc ≤ img.W) (hH : 8 * tc ≤ img.H) :
    ∃ tileW tileH order out,
      CalculateDescrambleDimensions img.W img.H tc = some (tileW, tileH, true) ∧
      tileW = img.W / 8 / tc * 8 ∧ tileH = img.H / 8 / tc * 8 ∧
      ShuffleOrder (tc * tc) seed = some order ∧
      UnscrambleImage img seed tc = some (out, none) ∧
      out.W = img.W ∧ out.H = img.H ∧
      (∀ (i : Nat) (x y : Int), (i : Int) < tc * tc → 0 ≤ x → x < tileW → 0 ≤ y → y < tileH →
        out.At (((i : Int) % tc) * tileW + x) (((i : Int) / tc) * tileH + y) =
          rgbaModel
            (img.At ((order.getD i 0 % tc) * tileW + x) ((order.getD i 0 / tc) * tileH + y))) ∧
      (∀ x y : Int, 0 ≤ x → x < img.W → 0 ≤ y → y < img.H →
        (tileW * tc ≤ x ∨ tileH * tc ≤ y) → out.At x y = rgbaModel (img.At x y)) := by
  have hcount : 0 ≤ tc * tc := Int.mul_nonneg (by omega) (by omega)
  obtain ⟨order, ho, _, _⟩ := ShuffleOrder_perm (tc * tc) seed hcount
  obtain ⟨hlen, hmem, _, _⟩ := order_facts (tc * tc) seed order hcount ho
  obtain ⟨w8, wle, _⟩ := tileDim_bounds img.W tc htc hW
  obtain ⟨h8, hle, _⟩ := tileDim_bounds img.H tc htc hH
  obtain ⟨fb, fnd⟩ := forwardMoves_ok (tc * tc) order hlen hmem
  obtain ⟨eW, eH, hIn, hOut⟩ := assembleRaster_spec img tc (img.W / 8 / tc * 8)
    (img.H / 8 / tc * 8) (forwardMoves order) htc (by omega) (by omega) wle hle fb fnd
  refine ⟨_, _, order, _, CalculateDescrambleDimensions_ok img.W img.H tc htc hW hH, rfl, rfl,
    ho, UnscrambleImage_eq img seed tc order htc hW hH ho, eW, eH, ?_, hOut⟩
  intro i x y hi hx0 hx1 hy0 hy1
  have hi' : i < order.length := by omega
  have hin : inTile tc (img.W / 8 / tc * 8) (img.H / 8 / tc * 8) (i : Int)
      (((i : Int) % tc) * (img.W / 8 / tc * 8) + x)
      (((i : Int) / tc) * (img.H / 8 / tc * 8) + y) :=
    ⟨by omega, by omega, by omega, by omega⟩
  have := hIn _ (forwardMoves_mem order i hi') _ _ hin
  have ex : ∀ u v : Int, u + v - u = v := fun u v => by omega
  rw [ex, ex] at this
  exact this

/-- C2, as stated, fails: for a 32 × 32 greyscale raster, `tileCount = 4` and
seed 12345 the output pixel of the first tile at offset `(0, 0)` is a
`color.RGBA` value, not the `color.Gray` pixel of the input: the output raster
is an `image.RGBA`, whose `Set` converts every colour. -/
theorem gray_tile_pixel_is_converted :
    ∃ tileW tileH order out,
      CalculateDescrambleDimensions 32 32 4 = some (tileW, tileH, true) ∧
      ShuffleOrder (4 * 4) 12345 = some order ∧
      UnscrambleImage (grayRaster 32 32) 12345 4 = some (out, none) ∧
      ¬ (∀ (i : Nat) (x y : Int), (i : Int) < 4 * 4 → 0 ≤ x → x < tileW → 0 ≤ y → y < tileH →
        out.At (((i : Int) % 4) * tileW + x) (((i : Int) / 4) * tileH + y) =
          (grayRaster 32 32).At ((order.getD i 0 % 4) * tileW + x)
            ((order.getD i 0 / 4) * tileH + y)) := by
  obtain ⟨tileW, tileH, order, out, hd, htw, hth, ho, hu, _, _, htiles, _⟩ :=
    UnscrambleImage_pixels (grayRaster 32 32) 12345 4 (by decide) (by decide) (by decide)
  refine ⟨tileW, tileH, order, out, hd, ho, hu, ?_⟩
  intro hall
  have w0 : 0 < tileW := by rw [htw]; decide
  have h0 : 0 < tileH := by rw [hth]; decide
  have h1 := hall 0 0 0 (by decide) (le_refl 0) w0 (le_refl 0) h0
  rw [htiles 0 0 0 (by decide) (le_refl 0) w0 (le_refl 0) h0] at h1
  exact rgbaModel_ne_other _ _ h1

/-- C2 (amended). For a raster of width `W` and height `H` (origin `(0, 0)`),
a tile count `tc ≥ 1` with `W ≥ 8·tc` and `H ≥ 8·tc`, and any seed: the grid
derivation succeeds with some `(tileW, tileH)`, `ShuffleOrder(tc², seed)`
returns some `order`, `UnscrambleImage` returns an image and no error, and for
every tile index `i < tc²` and every offset `0 ≤ x < tileW`, `0 ≤ y < tileH`
the output pixel at `((i mod tc)·tileW + x, (i div tc)·tileH + y)` is the
conversion by `color.RGBAModel` of the input pixel at
`((order[i] mod tc)·tileW + x, (order[i] div tc)·tileH + y)`; the conversion
leaves a `color.RGBA` pixel as it is. -/
theorem UnscrambleImage_tile_pixels {κ : Type} [ColorType κ] (img : Image (Color κ))
    (seed tc : Int) (htc : 1 ≤ tc) (hW : 8 * tc ≤ img.W) (hH : 8 * tc ≤ img.H) :
    ∃ tileW tileH order out,
      CalculateDescrambleDimensions img.W img.H tc = some (tileW, tileH, true) ∧
      ShuffleOrder (tc * tc) seed = some order ∧
      UnscrambleImage img seed tc = some (out, none) ∧
      (∀ (i : Nat) (x y : Int), (i : Int) < tc * tc → 0 ≤ x → x < tileW → 0 ≤ y → y < tileH →
        out.At (((i : Int) % tc) * tileW + x) (((i : Int) / tc) * tileH + y) =
          rgbaModel
            (img.At ((order.getD i 0 % tc) * tileW + x) ((order.getD i 0 / tc) * tileH + y))) ∧
      (∀ c : RGBA, rgbaModel (Color.rgba c : Color κ) = Color.rgba c) := by
  obtain ⟨tileW, tileH, order, out, hd, _, _, ho, hu, _, _, htiles, _⟩ :=
    UnscrambleImage_pixels img seed tc htc hW hH
  exact ⟨tileW, tileH, order, out, hd, ho, hu, htiles, fun c => rgbaModel_rgba c⟩

/-- Witness of C2 (amended): a 32 × 32 greyscale raster, `tileCount = 4`, seed
12345. -/
theorem UnscrambleImage_tile_pixels_witness :
    ∃ tileW tileH order out,
      CalculateDescrambleDimensions 32 32 4 = some (tileW, tileH, true) ∧
      ShuffleOrder (4 * 4) 12345 = some order ∧
      UnscrambleImage (grayRaster 32 32) 12345 4 = some (out, none) ∧
      (∀ (i : Nat) (x y : Int), (i : Int) < 4 * 4 → 0 ≤ x → x < tileW → 0 ≤ y → y < tileH →
        out.At (((i : Int) % 4) * tileW + x) (((i : Int) / 4) * tileH + y) =
          rgbaModel ((grayRaster 32 32).At ((order.getD i 0 % 4) * tileW + x)
            ((order.getD i 0 / 4) * tileH + y))) ∧
      (∀ c : RGBA, rgbaModel (Color.rgba c : Color Gray) = Color.rgba c) :=
  UnscrambleImage_tile_pixels (grayRaster 32 32) 12345 4 (by decide) (by decide) (by decide)

/-- C3, as stated, fails: for a 35 × 33 greyscale raster, `tileCount = 4` and
seed 12345 the output pixel `(34, 0)` of the right leftover strip is a
`color.RGBA` value, not the `color.Gray` pixel of the input. -/
theorem gray_strip_pixel_is_converted :
    ∃ tileW tileH out,
      CalculateDescrambleDimensions 35 33 4 = some (tileW, tileH, true) ∧
      UnscrambleImage (grayRaster 35 33) 12345 4 = some (out, none) ∧
      tileW * 4 ≤ 34 ∧ out.At 34 0 ≠ (grayRaster 35 33).At 34 0 := by
  obtain ⟨tileW, tileH, order, out, hd, htw, hth, ho, hu, _, _, _, hstrips⟩ :=
    UnscrambleImage_pixels (grayRaster 35 33) 12345 4 (by decide) (by decide) (by decide)
  have hw : tileW * 4 ≤ 34 := by rw [htw]; decide
  refine ⟨tileW, tileH, out, hd, hu, hw, ?_⟩
  rw [hstrips 34 0 (by decide) (by decide) (by decide) (by decide) (Or.inl hw)]
  exact rgbaModel_ne_other _ _

/-- C3 (amended). For a raster of width `W` and height `H`, `tc ≥ 1` with
`W ≥ 8·tc` and `H ≥ 8·tc`, and any seed, `UnscrambleImage` returns an image of
the same width and height in which every pixel `(x, y)` of the raster outside
the scrambled region (`x ≥ tileW·tc` or `y ≥ tileH·tc`) is the conversion by
`color.RGBAModel` of the input pixel at `(x, y)`; the conversion leaves a
`color.RGBA` pixel as it is. -/
theorem UnscrambleImage_leftover_strips {κ : Type} [ColorType κ] (img : Image (Color κ))
    (seed tc : Int) (htc : 1 ≤ tc) (hW : 8 * tc ≤ img.W) (hH : 8 * tc ≤ img.H) :
    ∃ tileW tileH out,
      CalculateDescrambleDimensions img.W img.H tc = some (tileW, tileH, true) ∧
      UnscrambleImage img seed tc = some (out, none) ∧
      out.W = img.W ∧ out.H = img.H ∧
      (∀ x y : Int, 0 ≤ x → x < img.W → 0 ≤ y → y < img.H →
        (tileW * tc ≤ x ∨ tileH * tc ≤ y) → out.At x y = rgbaModel (img.At x y)) ∧
      (∀ c : RGBA, rgbaModel (Color.rgba c : Color κ) = Color.rgba c) := by
  obtain ⟨tileW, tileH, order, out, hd, _, _, _, hu, eW, eH, _, hstrips⟩ :=
    UnscrambleImage_pixels img seed tc htc hW hH
  exact ⟨tileW, tileH, out, hd, hu, eW, eH, hstrips, fun c => rgbaModel_rgba c⟩

/-- Witness of C3 (amended): a 35 × 33 greyscale raster, `tileCount = 4`, seed
12345. -/
theorem UnscrambleImage_leftover_strips_witness :
    ∃ tileW tileH out,
      CalculateDescrambleDimensions 35 33 4 = some (tileW, tileH, true) ∧
      UnscrambleImage (grayRaster 35 33) 12345 4 = some (out, none) ∧
      out.W = 35 ∧ out.H = 33 ∧
      (∀ x y : Int, 0 ≤ x → x < 35 → 0 ≤ y → y < 33 →
        (tileW * 4 ≤ x ∨ tileH * 4 ≤ y) → out.At x y = rgbaModel ((grayRaster 35 33).At x y)) ∧
      (∀ c : RGBA, rgbaModel (Color.rgba c : Color Gray) = Color.rgba c) :=
  UnscrambleImage_leftover_strips (grayRaster 35 33) 12345 4 (by decide) (by decide)
    (by decide)

/-- C5, as stated, fails: a 100 × 100 greyscale raster is narrower than
`8·tileCount` for `tileCount = 2^61`, but the product `tileCount*8` of the size
guard wraps to 0 in the 64-bit type `int`, the guard is not taken, and
`UnscrambleImage` returns a fresh raster (the tiles have size 0, so that the
tile loop copies nothing whatever indices it runs over, and the whole picture
is copied as leftover strip) whose pixel `(0, 0)` is a `color.RGBA` value and
not the pixel of the input. -/
theorem UnscrambleImage_guard_wraps :
    (100 : Int) < 8 * 2 ^ 61 ∧
    ∃ out, UnscrambleImage (grayRaster 100 100) 0 (2 ^ 61) = some (out, none) ∧
      out.At 0 0 ≠ (grayRaster 100 100).At 0 0 := by
  have hcount : (0 : Int) ≤ 2 ^ 61 * 2 ^ 61 := by decide
  obtain ⟨order, ho, _, _⟩ := ShuffleOrder_perm (2 ^ 61 * 2 ^ 61) 0 hcount
  obtain ⟨hlen, hmem, _, _⟩ := order_facts (2 ^ 61 * 2 ^ 61) 0 order hcount ho
  obtain ⟨fb, fnd⟩ := forwardMoves_ok (2 ^ 61 * 2 ^ 61) order hlen hmem
  have hd : CalculateDescrambleDimensions (grayRaster 100 100).W (grayRaster 100 100).H
      (2 ^ 61) = some (0, 0, true) := by decide
  obtain ⟨_, _, _, hOut⟩ := assembleRaster_spec (grayRaster 100 100) (2 ^ 61) 0 0
    (forwardMoves order) (by decide) (le_refl 0) (le_refl 0) (by decide) (by decide) fb fnd
  refine ⟨by decide, _, UnscrambleImage_of_dims (grayRaster 100 100) 0 (2 ^ 61) 0 0 order hd ho,
    ?_⟩
  rw [hOut 0 0 (le_refl 0) (by decide) (le_refl 0) (by decide) (Or.inl (by decide))]
  exact rgbaModel_ne_other _ _

/-- C5 (amended). For a tile count `1 ≤ tc < 2^60` (so that `8·tc` does not
leave the range of the 64-bit type `int`), a raster whose width or height is
below `8·tc`, and any seed, `UnscrambleImage` returns the input raster itself
and no error. -/
theorem UnscrambleImage_too_small {κ : Type} [ColorType κ] (img : Image (Color κ))
    (seed tc : Int) (htc : 1 ≤ tc) (h60 : tc < 2 ^ 60)
    (hsmall : img.W < 8 * tc ∨ img.H < 8 * tc) :
    UnscrambleImage img seed tc = some (img, none) := by
  unfold UnscrambleImage
  simp only [CalculateDescrambleDimensions_small img.W img.H tc htc h60 hsmall]
  rfl

/-- Witness of C5 (amended): the 31 × 31 raster with `tileCount = 4` of the
specification's scenario. -/
theorem UnscrambleImage_too_small_witness :
    UnscrambleImage (grayRaster 31 31) 98765 4 = some (grayRaster 31 31, none) :=
  UnscrambleImage_too_small (grayRaster 31 31) 98765 4 (by decide) (by decide) (by decide)

/-! ### Round trip -/

/-- Every pixel of the scrambled region lies in the tile of some index. -/
theorem region_tile (tc tw th a b : Int) (htc : 1 ≤ tc) (htw : 0 < tw) (hth : 0 < th)
    (ha0 : 0 ≤ a) (ha1 : a < tw * tc) (hb0 : 0 ≤ b) (hb1 : b < th * tc) :
    ∃ j, 0 ≤ j ∧ j < tc * tc ∧ inTile tc tw th j a b := by
  have r0 : 0 ≤ a / tw := Int.ediv_nonneg ha0 (by omega)
  have r1 : a / tw < tc := Int.ediv_lt_of_lt_mul htw (by rw [Int.mul_comm]; exact ha1)
  have q0 : 0 ≤ b / th := Int.ediv_nonneg hb0 (by omega)
  have q1 : b / th < tc := Int.ediv_lt_of_lt_mul hth (by rw [Int.mul_comm]; exact hb1)
  have em : (a / tw + b / th * tc) % tc = a / tw := by
    rw [Int.add_mul_emod_self, Int.emod_eq_of_lt r0 r1]
  have ed : (a / tw + b / th * tc) / tc = b / th := by
    rw [Int.add_mul_ediv_right _ _ (by omega), Int.ediv_eq_zero_of_lt r0 r1, Int.zero_add]
  have hq : b / th * tc ≤ (tc - 1) * tc := Int.mul_le_mul_of_nonneg_right (by omega) (by omega)
  have hq' : 0 ≤ b / th * tc := Int.mul_nonneg q0 (by omega)
  rw [Int.sub_mul, Int.one_mul] at hq
  refine ⟨a / tw + b / th * tc, by omega, by omega, ?_⟩
  unfold inTile
  rw [em, ed]
  have a1 := Int.ediv_mul_le a (Int.ne_of_gt htw)
  have a2 := Int.lt_ediv_add_one_mul_self a htw
  have b1 := Int.ediv_mul_le b (Int.ne_of_gt hth)
  have b2 := Int.lt_ediv_add_one_mul_self b hth
  rw [Int.add_mul, Int.one_mul] at a2 b2
  exact ⟨a1, a2, b1, b2⟩

/-- The two tile moves one after the other, for a raster that passes the size
guard: the scrambled region and the leftover strips of the second result hold
the converted pixels of the input. -/
theorem descramble_then_inverse {κ : Type} [ColorType κ] (img : Image (Color κ))
    (seed tc : Int) (htc : 1 ≤ tc) (hW : 8 * tc ≤ img.W) (hH : 8 * tc ≤ img.H) :
    ∃ tileW tileH out1 out2,
      CalculateDescrambleDimensions img.W img.H tc = some (tileW, tileH, true) ∧
      0 < tileW * tc ∧ 0 < tileH * tc ∧
      UnscrambleImage img seed tc = some (out1, none) ∧
      inverseTileMove out1 seed tc = some (out2, none) ∧
      (∀ x y : Int, 0 ≤ x → x < tileW * tc → 0 ≤ y → y < tileH * tc →
        out2.At x y = rgbaModel (img.At x y)) ∧
      (∀ x y : Int, 0 ≤ x → x < img.W → 0 ≤ y → y < img.H →
        (tileW * tc ≤ x ∨ tileH * tc ≤ y) →
        out1.At x y = rgbaModel (img.At x y) ∧ out2.At x y = out1.At x y) := by
  have hcount : 0 ≤ tc * tc := Int.mul_nonneg (by omega) (by omega)
  obtain ⟨order, ho, _, _⟩ := ShuffleOrder_perm (tc * tc) seed hcount
  obtain ⟨hlen, hmem, hnd, hsurj⟩ := order_facts (tc * tc) seed order hcount ho
  obtain ⟨w8, wle, _⟩ := tileDim_bounds img.W tc htc hW
  obtain ⟨h8, hle, _⟩ := tileDim_bounds img.H tc htc hH
  obtain ⟨fb, fnd⟩ := forwardMoves_ok (tc * tc) order hlen hmem
  obtain ⟨ib, ind⟩ := inverseMoves_ok (tc * tc) order hmem hnd
  generalize htw : img.W / 8 / tc * 8 = tw at w8 wle
  generalize hth : img.H / 8 / tc * 8 = th at h8 hle
  obtain ⟨eW, eH, fIn, fOut⟩ := assembleRaster_spec img tc tw th
    (forwardMoves order) htc (by omega) (by omega) wle hle fb fnd
  have hu := UnscrambleImage_eq img seed tc order htc hW hH ho
  rw [htw, hth] at hu
  generalize assembleRaster img tc tw th (forwardMoves order) = out1 at eW eH fIn fOut hu
  have hi := inverseTileMove_eq out1 seed tc order htc (by rw [eW]; exact hW)
    (by rw [eH]; exact hH) ho
  rw [eW, eH, htw, hth] at hi
  obtain ⟨_, _, gIn, gOut⟩ := assembleRaster_spec out1 tc tw th
    (inverseMoves order) htc (by omega) (by omega) (by rw [eW]; exact wle)
    (by rw [eH]; exact hle) ib ind
  have hd := CalculateDescrambleDimensions_ok img.W img.H tc htc hW hH
  rw [htw, hth] at hd
  have pw : 0 < tw * tc := Int.mul_pos (by omega) (by omega)
  have ph : 0 < th * tc := Int.mul_pos (by omega) (by omega)
  refine ⟨tw, th, out1, _, hd, pw, ph, hu, hi, ?_, ?_⟩
  · intro x y hx0 hx1 hy0 hy1
    obtain ⟨j, hj0, hj1, hj⟩ := region_tile tc tw th x y htc (by omega) (by omega)
      hx0 hx1 hy0 hy1
    obtain ⟨i, hil, hij⟩ := List.getElem_of_mem (hsurj j hj0 hj1)
    have hgd : order.getD i 0 = j := by rw [List.getD_eq_getElem _ _ hil]; exact hij
    have h2 := gIn _ (inverseMoves_mem order i hil) x y (by rw [hgd]; exact hj)
    simp only [hgd] at h2
    have hin1 : inTile tc tw th (i : Int)
        (((i : Int) % tc) * tw + (x - (j % tc) * tw))
        (((i : Int) / tc) * th + (y - (j / tc) * th)) := by
      obtain ⟨j1, j2, j3, j4⟩ := hj
      exact ⟨by omega, by omega, by omega, by omega⟩
    have h1 := fIn _ (forwardMoves_mem order i hil) _ _ hin1
    simp only [hgd] at h1
    have ex : ∀ u v : Int, u + v - u = v := fun u v => by omega
    have ey : ∀ u v : Int, u + (v - u) = v := fun u v => by omega
    rw [h2, h1, rgbaModel_idem, ex, ex, ey, ey]
  · intro x y hx0 hx1 hy0 hy1 hout
    refine ⟨fOut x y hx0 hx1 hy0 hy1 hout, ?_⟩
    rw [gOut x y hx0 (by rw [eW]; exact hx1) hy0 (by rw [eH]; exact hy1) hout,
      fOut x y hx0 hx1 hy0 hy1 hout, rgbaModel_idem]

/-- C4, as stated, fails: for a 35 × 33 greyscale raster, `tileCount = 4` and
seed 98765 the two tile moves one after the other do not give back the pixel
`(0, 0)` of the scrambled region: the first move, `UnscrambleImage`, has
already turned the `color.Gray` pixels into `color.RGBA` values. -/
theorem gray_round_trip_is_converted :
    ∃ tileW tileH out1 out2,
      CalculateDescrambleDimensions 35 33 4 = some (tileW, tileH, true) ∧
      0 < tileW * 4 ∧ 0 < tileH * 4 ∧
      UnscrambleImage (grayRaster 35 33) 98765 4 = some (out1, none) ∧
      inverseTileMove out1 98765 4 = some (out2, none) ∧
      out2.At 0 0 ≠ (grayRaster 35 33).At 0 0 := by
  obtain ⟨tileW, tileH, out1, out2, hd, pw, ph, hu, hi, hregion, _⟩ :=
    descramble_then_inverse (grayRaster 35 33) 98765 4 (by decide) (by decide) (by decide)
  refine ⟨tileW, tileH, out1, out2, hd, pw, ph, hu, hi, ?_⟩
  rw [hregion 0 0 (le_refl 0) pw (le_refl 0) ph]
  exact rgbaModel_ne_other _ _

/-- C4 (amended). For a raster meeting the size threshold and any seed, the
tile move `destination i ← source π(i)` performed by `UnscrambleImage`,
followed by the tile move `destination π(i) ← source i` with the same seed and
tile count, gives for every pixel of the region `[0, tileW·tc) × [0, tileH·tc)`
the conversion by `color.RGBAModel` of the original pixel; on the leftover
strips the first step returns the converted pixels it was given and the second
step returns the pixels it was given. The conversion leaves a `color.RGBA`
pixel as it is. -/
theorem descramble_round_trip {κ : Type} [ColorType κ] (img : Image (Color κ))
    (seed tc : Int) (htc : 1 ≤ tc) (hW : 8 * tc ≤ img.W) (hH : 8 * tc ≤ img.H) :
    ∃ tileW tileH out1 out2,
      CalculateDescrambleDimensions img.W img.H tc = some (tileW, tileH, true) ∧
      UnscrambleImage img seed tc = some (out1, none) ∧
      inverseTileMove out1 seed tc = some (out2, none) ∧
      (∀ x y : Int, 0 ≤ x → x < tileW * tc → 0 ≤ y → y < tileH * tc →
        out2.At x y = rgbaModel (img.At x y)) ∧
      (∀ x y : Int, 0 ≤ x → x < img.W → 0 ≤ y → y < img.H →
        (tileW * tc ≤ x ∨ tileH * tc ≤ y) →
        out1.At x y = rgbaModel (img.At x y) ∧ out2.At x y = out1.At x y) ∧
      (∀ c : RGBA, rgbaModel (Color.rgba c : Color κ) = Color.rgba c) := by
  obtain ⟨tileW, tileH, out1, out2, hd, _, _, hu, hi, hregion, hstrips⟩ :=
    descramble_then_inverse img seed tc htc hW hH
  exact ⟨tileW, tileH, out1, out2, hd, hu, hi, hregion, hstrips, fun c => rgbaModel_rgba c⟩

/-- Witness of C4 (amended): a 35 × 33 greyscale raster, `tileCount = 4`, seed
98765. -/
theorem descramble_round_trip_witness :
    ∃ tileW tileH out1 out2,
      CalculateDescrambleDimensions 35 33 4 = some (tileW, tileH, true) ∧
      UnscrambleImage (grayRaster 35 33) 98765 4 = some (out1, none) ∧
      inverseTileMove out1 98765 4 = some (out2, none) ∧
      (∀ x y : Int, 0 ≤ x → x < tileW * 4 → 0 ≤ y → y < tileH * 4 →
        out2.At x y = rgbaModel ((grayRaster 35 33).At x y)) ∧
      (∀ x y : Int, 0 ≤ x → x < 35 → 0 ≤ y → y < 33 →
        (tileW * 4 ≤ x ∨ tileH * 4 ≤ y) →
        out1.At x y = rgbaModel ((grayRaster 35 33).At x y) ∧ out2.At x y = out1.At x y) ∧
      (∀ c : RGBA, rgbaModel (Color.rgba c : Color Gray) = Color.rgba c) :=
  descramble_round_trip (grayRaster 35 33) 98765 4 (by decide) (by decide) (by decide)

/-! ### API signature -/

theorem foldl_append_singleton {α β : Type} (f : α → β) (l : List α) (init : List β) :
    l.foldl (fun acc x => acc ++ [f x]) init = init ++ l.map f := by
  induction l generalizing init with
  | nil => simp
  | cons a l ih => simp [ih]

theorem hextable_digit : ∀ d, d < 16 → hextable.getD d '0' = lowerHexDigit d := by
  decide

theorem hexEncodeToString_eq_lowerHex (bytes : List UInt8) :
    hexEncodeToString bytes = lowerHex bytes := by
  have hstep : ∀ v : UInt8,
      [hextable.getD (v.toNat >>> 4) '0', hextable.getD (v.toNat &&& 0x0f) '0'] =
        [lowerHexDigit (v.toNat / 16), lowerHexDigit (v.toNat % 16)] := by
    intro v
    have hv := UInt8.toNat_lt v
    have e1 : v.toNat >>> 4 = v.toNat / 16 := by rw [Nat.shiftRight_eq_div_pow]
    have e2 : v.toNat &&& 0x0f = v.toNat % 16 := Nat.and_pow_two_sub_one_eq_mod v.toNat 4
    rw [e1, e2, hextable_digit _ (by omega), hextable_digit _ (by omega)]
  have hgen : ∀ (l : List UInt8) (init : List Char),
      l.foldl (fun dst v =>
        dst ++ [hextable.getD (v.toNat >>> 4) '0', hextable.getD (v.toNat &&& 0x0f) '0']) init =
        init ++ l.flatMap
          (fun b => [lowerHexDigit (b.toNat / 16), lowerHexDigit (b.toNat % 16)]) := by
    intro l
    induction l with
    | nil => intro init; simp
    | cons a l ih =>
      intro init
      rw [List.foldl_cons, ih, hstep, List.flatMap_cons, List.append_assoc]
  unfold hexEncodeToString lowerHex
  rw [hgen, List.nil_append]

theorem lowerHexDigit_mem : ∀ d, d < 16 → lowerHexDigit d ∈ "0123456789abcdef".toList := by
  decide

theorem lowerHex_length (bytes : List UInt8) : (lowerHex bytes).length = 2 * bytes.length := by
  unfold lowerHex
  show (List.flatMap bytes _).length = _
  induction bytes with
  | nil => rfl
  | cons b bs ih => rw [List.flatMap_cons, List.length_append, ih]; simp; omega

theorem lowerHex_chars (bytes : List UInt8) :
    ∀ c ∈ (lowerHex bytes).toList, c ∈ "0123456789abcdef".toList := by
  intro c hc
  have hc' : c ∈ bytes.flatMap
      (fun b => [lowerHexDigit (b.toNat / 16), lowerHexDigit (b.toNat % 16)]) := hc
  rw [List.mem_flatMap] at hc'
  obtain ⟨b, _, hb⟩ := hc'
  have hv := UInt8.toNat_lt b
  rcases List.mem_cons.mp hb with h | h
  · rw [h]; exact lowerHexDigit_mem _ (by omega)
  · rw [List.mem_singleton] at h
    rw [h]; exact lowerHexDigit_mem _ (by omega)

theorem lookup_mem (l : List (String × String)) (k v : String) :
    l.lookup k = some v → (k, v) ∈ l := by
  induction l with
  | nil => intro h; cases h
  | cons p l ih =>
    obtain ⟨k', v'⟩ := p
    rw [List.lookup_cons]
    by_cases hk : k = k'
    · subst hk
      simp only [beq_self_eq_true]
      intro h
      cases h
      exact List.mem_cons_self _ _
    · have : (k == k') = false := by simpa using hk
      rw [this]
      intro h
      exact List.mem_cons_of_mem _ (ih h)

theorem mem_lookup (l : List (String × String)) (k v : String)
    (hnd : (l.map Prod.fst).Nodup) : (k, v) ∈ l → l.lookup k = some v := by
  induction l with
  | nil => intro h; cases h
  | cons p l ih =>
    obtain ⟨k', v'⟩ := p
    rw [List.map_cons, List.nodup_cons] at hnd
    intro h
    rw [List.lookup_cons]
    by_cases hk : k = k'
    · subst hk
      simp only [beq_self_eq_true]
      rcases List.mem_cons.mp h with h | h
      · cases h; rfl
      · exact absurd (List.mem_map.mpr ⟨(k, v), h, rfl⟩) hnd.1
    · have hb : (k == k') = false := by simpa using hk
      rw [hb]
      rcases List.mem_cons.mp h with h | h
      · cases h; exact absurd rfl hk
      · exact ih hnd.2 h

theorem lookup_perm (l l' : List (String × String)) (hp : l'.Perm l)
    (hnd : (l.map Prod.fst).Nodup) (k : String) : l'.lookup k = l.lookup k := by
  have hnd' : (l'.map Prod.fst).Nodup := (hp.map Prod.fst).nodup_iff.mpr hnd
  cases h : l.lookup k with
  | none =>
    cases h' : l'.lookup k with
    | none => rfl
    | some v =>
      have := mem_lookup l k v hnd (hp.mem_iff.mp (lookup_mem l' k v h'))
      rw [h] at this
      cases this
  | some v => exact mem_lookup l' k v hnd' (hp.mem_iff.mpr (lookup_mem l k v h))

theorem ComputeHash_eq (sha256 sha512 : String → List UInt8) (params : List (String × String))
    (seed : String) :
    ComputeHash sha256 sha512 params seed =
      (signatureSpec sha256 sha512 params (sortStrings (params.map Prod.fst)) seed, none) := by
  unfold ComputeHash signatureSpec
  simp only [foldl_append_singleton, List.nil_append, hexEncodeToString_eq_lowerHex]

theorem sortStrings_unique (keys ks : List String) (hp : ks.Perm keys)
    (hs : ks.Sorted (fun a b => a ≤ b)) : ks = sortStrings keys :=
  List.eq_of_perm_of_sorted (hp.trans (List.perm_insertionSort _ keys).symm) hs
    (List.sorted_insertionSort _ keys)

/-- C7. For every map `params` (given by any enumeration of its entries, keys
pairwise distinct) and every seed, with SHA-256 and SHA-512 given functions
(SHA-512 returning 64 bytes): `ComputeHash` returns no error; its result is
`lowerhex(SHA-512(lowerhex(SHA-256(combined)) ++ seed))` with `combined` the
comma-join over the keys in ascending order of
`lowerhex(SHA-256(key)) ++ "_" ++ lowerhex(SHA-512(value))`; the result is the
same for every enumeration order of the entries; and it has exactly 128
characters, each one of `0-9a-f`. -/
theorem ComputeHash_signature (sha256 sha512 : String → List UInt8)
    (params : List (String × String)) (seed : String)
    (hnd : (params.map Prod.fst).Nodup) (h512 : ∀ s, (sha512 s).length = 64) :
    (ComputeHash sha256 sha512 params seed).2 = none ∧
    (∀ ks : List String, ks.Perm (params.map Prod.fst) → ks.Sorted (fun a b => a ≤ b) →
      (ComputeHash sha256 sha512 params seed).1 =
        signatureSpec sha256 sha512 params ks seed) ∧
    (∀ params' : List (String × String), params'.Perm params →
      ComputeHash sha256 sha512 params' seed = ComputeHash sha256 sha512 params seed) ∧
    (ComputeHash sha256 sha512 params seed).1.length = 128 ∧
    (∀ c ∈ (ComputeHash sha256 sha512 params seed).1.toList,
      c ∈ "0123456789abcdef".toList) := by
  refine ⟨by rw [ComputeHash_eq], ?_, ?_, ?_, ?_⟩
  · intro ks hp hs
    rw [ComputeHash_eq, ← sortStrings_unique _ ks hp hs]
  · intro params' hp
    rw [ComputeHash_eq, ComputeHash_eq]
    have hk : sortStrings (params'.map Prod.fst) = sortStrings (params.map Prod.fst) :=
      sortStrings_unique _ _
        ((List.perm_insertionSort _ _).trans (hp.map Prod.fst))
        (List.sorted_insertionSort _ _)
    have hl : ∀ k, params'.lookup k = params.lookup k := lookup_perm params params' hp hnd
    rw [hk]
    unfold signatureSpec
    simp only [hl]
  · rw [ComputeHash_eq]
    show (lowerHex _).length = 128
    rw [lowerHex_length, h512]
  · rw [ComputeHash_eq]
    exact lowerHex_chars _

/-- Witness of C7: the parameters of the specification's signature scenario,
with constant stand-ins for the two hash functions. -/
theorem ComputeHash_signature_witness :
    (ComputeHash (fun _ => List.replicate 32 7) (fun _ => List.replicate 64 9)
      [("episode_id", "1234")] "seed").2 = none ∧
    (∀ ks : List String, ks.Perm ([("episode_id", "1234")].map Prod.fst) →
      ks.Sorted (fun a b => a ≤ b) →
      (ComputeHash (fun _ => List.replicate 32 7) (fun _ => List.replicate 64 9)
        [("episode_id", "1234")] "seed").1 =
        signatureSpec (fun _ => List.replicate 32 7) (fun _ => List.replicate 64 9)
          [("episode_id", "1234")] ks "seed") ∧
    (∀ params' : List (String × String), params'.Perm [("episode_id", "1234")] →
      ComputeHash (fun _ => List.replicate 32 7) (fun _ => List.replicate 64 9) params' "seed" =
        ComputeHash (fun _ => List.replicate 32 7) (fun _ => List.replicate 64 9)
          [("episode_id", "1234")] "seed") ∧
    (ComputeHash (fun _ => List.replicate 32 7) (fun _ => List.replicate 64 9)
      [("episode_id", "1234")] "seed").1.length = 128 ∧
    (∀ c ∈ (ComputeHash (fun _ => List.replicate 32 7) (fun _ => List.replicate 64 9)
      [("episode_id", "1234")] "seed").1.toList, c ∈ "0123456789abcdef".toList) :=
  ComputeHash_signature (fun _ => List.replicate 32 7) (fun _ => List.replicate 64 9)
    [("episode_id", "1234")] "seed" (by decide) (fun _ => List.length_replicate _ _)

/-! ### Source B manifest -/

theorem sortSlice_perm {α : Type} (less : α → α → Bool) (x : List α) :
    (sortSlice less x).Perm x :=
  List.perm_insertionSort _ x

theorem sortSlice_src_sorted (x : List Page) :
    (sortSlice (fun a b => decide (a.Src < b.Src)) x).Pairwise (fun a b => a.Src ≤ b.Src) := by
  haveI : IsTotal Page (fun a b => decide (b.Src < a.Src) = false) :=
    ⟨fun a b => by
      simp only [decide_eq_false_iff_not, not_lt]
      exact le_total a.Src b.Src⟩
  haveI : IsTrans Page (fun a b => decide (b.Src < a.Src) = false) :=
    ⟨fun a b c hab hbc => by
      simp only [decide_eq_false_iff_not, not_lt] at hab hbc ⊢
      exact le_trans hab hbc⟩
  have h := List.sorted_insertionSort (fun (a b : Page) => decide (b.Src < a.Src) = false) x
  refine List.Pairwise.imp ?_ h
  intro a b hab
  simpa using hab

theorem parsePagesStep_eq (acc : List Page) (p : JsonValue) :
    parsePagesStep acc p = acc ++ (validEntryPage p).toList := by
  cases p with
  | object page =>
    simp only [parsePagesStep, validEntryPage, asMap]
    rcases h1 : page.lookup "src" with _ | (_ | _ | _ | src | _ | _) <;>
    rcases h2 : page.lookup "width" with _ | (_ | _ | w | _ | _ | _) <;>
    rcases h3 : page.lookup "height" with _ | (_ | _ | h | _ | _ | _) <;>
    simp [asString, asFloat64]
    by_cases hs : src = "" <;> simp [hs]
  | _ => simp [parsePagesStep, validEntryPage, asMap]

theorem parsePages_fold (pages : List JsonValue) :
    pages.foldl parsePagesStep [] = pages.filterMap validEntryPage := by
  have hgen : ∀ (l : List JsonValue) (acc : List Page),
      l.foldl parsePagesStep acc = acc ++ l.filterMap validEntryPage := by
    intro l
    induction l with
    | nil => intro acc; simp
    | cons p l ih =>
      intro acc
      rw [List.foldl_cons, ih, parsePagesStep_eq]
      cases h : validEntryPage p <;> simp [List.filterMap_cons, h]
  rw [hgen, List.nil_append]

/-- Shape of a successful `parsePages` call: the three lookups succeeded and
the result is the sorted list of the valid entries. -/
theorem parsePages_ok (u : String → Except GoError (List (String × JsonValue)))
    (jsonData : String) (result : List Page) (h : parsePages u jsonData = Except.ok result) :
    ∃ data rp ps pages, u jsonData = Except.ok data ∧
      data.lookup "readableProduct" = some (JsonValue.object rp) ∧
      rp.lookup "pageStructure" = some (JsonValue.object ps) ∧
      ps.lookup "pages" = some (JsonValue.array pages) ∧
      result = sortSlice (fun a b => decide (a.Src < b.Src))
        (pages.filterMap validEntryPage) := by
  unfold parsePages at h
  cases hu : u jsonData with
  | error e => rw [hu] at h; cases h
  | ok data =>
    rw [hu] at h
    simp only at h
    rcases h1 : data.lookup "readableProduct" with _ | (_ | _ | _ | _ | _ | rp) <;>
      rw [h1] at h <;>
      simp only [asMap, Bool.not_true, Bool.not_false, Bool.false_eq_true, if_false, if_true,
        reduceCtorEq] at h
    rcases h2 : rp.lookup "pageStructure" with _ | (_ | _ | _ | _ | _ | ps) <;>
      rw [h2] at h <;>
      simp only [asMap, Bool.not_true, Bool.not_false, Bool.false_eq_true, if_false, if_true,
        reduceCtorEq] at h
    rcases h3 : ps.lookup "pages" with _ | (_ | _ | _ | _ | pages | _) <;>
      rw [h3] at h <;>
      simp only [asSlice, Bool.not_true, Bool.not_false, Bool.false_eq_true, if_false, if_true,
        reduceCtorEq] at h
    cases h
    exact ⟨data, rp, ps, pages, rfl, h1, h2, h3, by rw [parsePages_fold]⟩

theorem parsePages_of_document (u : String → Except GoError (List (String × JsonValue)))
    (jsonData : String) (data rp ps : List (String × JsonValue)) (pages : List JsonValue)
    (hu : u jsonData = Except.ok data)
    (h1 : data.lookup "readableProduct" = some (JsonValue.object rp))
    (h2 : rp.lookup "pageStructure" = some (JsonValue.object ps))
    (h3 : ps.lookup "pages" = some (JsonValue.array pages)) :
    parsePages u jsonData =
      Except.ok (sortSlice (fun a b => decide (a.Src < b.Src))
        (pages.filterMap validEntryPage)) := by
  unfold parsePages
  rw [hu]
  simp only [h1, h2, h3, asMap, asSlice, parsePages_fold, Bool.not_true, Bool.false_eq_true,
    if_false]

theorem parsePages_episodeDocument (pages : List JsonValue) (jsonData : String) :
    parsePages (fun _ => Except.ok (episodeDocument pages)) jsonData =
      Except.ok (sortSlice (fun a b => decide (a.Src < b.Src))
        (pages.filterMap validEntryPage)) :=
  parsePages_of_document _ jsonData (episodeDocument pages)
    [("pageStructure", JsonValue.object [("pages", JsonValue.array pages)])]
    [("pages", JsonValue.array pages)] pages rfl rfl rfl rfl

/-- C8. For every JSON document on which `parsePages` succeeds, the returned
page list is sorted ascending by `Src` in the lexicographic order of strings:
`pages[i].Src ≤ pages[j].Src` for all positions `i < j`. -/
theorem parsePages_sorted (u : String → Except GoError (List (String × JsonValue)))
    (jsonData : String) (result : List Page) (h : parsePages u jsonData = Except.ok result) :
    ∀ (i j : Nat) (hi : i < result.length) (hj : j < result.length), i < j →
      result[i].Src ≤ result[j].Src := by
  obtain ⟨_, _, _, pages, _, _, _, _, hr⟩ := parsePages_ok u jsonData result h
  subst hr
  exact List.pairwise_iff_getElem.mp (sortSlice_src_sorted _)

/-- Witness of C8: a document listing the page `b.jpg` before `a.jpg`. -/
theorem parsePages_sorted_witness :
    parsePages (fun _ => Except.ok
        (episodeDocument [pageEntry "b.jpg" 800 1200, pageEntry "a.jpg" 7 9])) "doc" =
      Except.ok [NewPage "a.jpg" 7 9, NewPage "b.jpg" 800 1200] ∧
    ∀ (i j : Nat) (hi : i < [NewPage "a.jpg" 7 9, NewPage "b.jpg" 800 1200].length)
      (hj : j < [NewPage "a.jpg" 7 9, NewPage "b.jpg" 800 1200].length), i < j →
      [NewPage "a.jpg" 7 9, NewPage "b.jpg" 800 1200][i].Src ≤
        [NewPage "a.jpg" 7 9, NewPage "b.jpg" 800 1200][j].Src :=
  (fun h => ⟨h, parsePages_sorted _ _ _ h⟩)
    (by
      rw [parsePages_episodeDocument]
      have hf : [pageEntry "b.jpg" 800 1200, pageEntry "a.jpg" 7 9].filterMap validEntryPage =
          [NewPage "b.jpg" 800 1200, NewPage "a.jpg" 7 9] := by decide
      have hlt : ¬ ("b.jpg" : String) < "a.jpg" := by
        rw [String.lt_iff_toList_lt]; decide
      have hlt' : ("a.jpg" : String) < "b.jpg" := by
        rw [String.lt_iff_toList_lt]; decide
      rw [hf]
      simp only [sortSlice, List.insertionSort, List.orderedInsert, NewPage, hlt, hlt',
        decide_True, decide_False, if_true, if_false, reduceCtorEq])

theorem intOfFloat64_in_range (f : ℚ) (h0 : -2 ^ 63 ≤ Int.tdiv f.num f.den)
    (h1 : Int.tdiv f.num f.den < 2 ^ 63) : intOfFloat64 f = Int.tdiv f.num f.den := by
  unfold intOfFloat64
  simp only
  rw [if_pos ⟨h0, h1⟩]

/-- C9, as stated, fails: of three entries of `pages[]` that each have a string
`src`, a numeric `width` and a numeric `height`, the one whose `src` is the
empty string is dropped, the one of width 800.5 gives a page of width 800, and
the one of width `10^19`, which no `int` can hold, gives a page of another
width. -/
theorem parsePages_drops_empty_src :
    ∃ result,
      parsePages (fun _ => Except.ok (episodeDocument
        [pageEntry "" 800 1200, pageEntry "a.jpg" (mkRat 1601 2) 1200,
          pageEntry "b.jpg" 10000000000000000000 1200])) "doc" = Except.ok result ∧
      result.length = 2 ∧
      (∀ p ∈ result, p.Src ≠ "") ∧
      (∀ p ∈ result, p.Src = "a.jpg" → p.Width = 800) ∧
      (∀ p ∈ result, p.Src = "b.jpg" → p.Width ≠ 10000000000000000000) := by
  have hf : [pageEntry "" 800 1200, pageEntry "a.jpg" (mkRat 1601 2) 1200,
      pageEntry "b.jpg" 10000000000000000000 1200].filterMap validEntryPage =
      [NewPage "a.jpg" 800 1200, NewPage "b.jpg" (-2 ^ 63) 1200] := by decide
  have hlt : ¬ ("b.jpg" : String) < "a.jpg" := by
    rw [String.lt_iff_toList_lt]; decide
  have hr : parsePages (fun _ => Except.ok (episodeDocument
      [pageEntry "" 800 1200, pageEntry "a.jpg" (mkRat 1601 2) 1200,
        pageEntry "b.jpg" 10000000000000000000 1200])) "doc" =
      Except.ok [NewPage "a.jpg" 800 1200, NewPage "b.jpg" (-2 ^ 63) 1200] := by
    rw [parsePages_episodeDocument, hf]
    simp only [sortSlice, List.insertionSort, List.orderedInsert, NewPage, hlt,
      decide_True, decide_False, if_true, if_false, reduceCtorEq]
  refine ⟨_, hr, rfl, ?_, ?_, ?_⟩
  · intro p hp
    simp only [List.mem_cons, List.mem_singleton, List.not_mem_nil, or_false] at hp
    rcases hp with rfl | rfl <;> decide
  · intro p hp
    simp only [List.mem_cons, List.mem_singleton, List.not_mem_nil, or_false] at hp
    rcases hp with rfl | rfl
    · intro _; rfl
    · intro h; exact absurd h (by decide)
  · intro p hp
    simp only [List.mem_cons, List.mem_singleton, List.not_mem_nil, or_false] at hp
    rcases hp with rfl | rfl
    · intro h; exact absurd h (by decide)
    · intro _; decide

/-- C9 (amended). For every JSON document whose
`readableProduct.pageStructure.pages` is an array, `parsePages` succeeds and
returns, as a multiset, exactly the pages of the entries that have a non-empty
string `src`, a numeric `width` and a numeric `height`, one page per such
entry carrying that `src`, `int(width)` and `int(height)`; every other entry
is dropped. The conversion `int(f)` is the integer part of `f`, truncated
toward zero, whenever that lies in the range of the 64-bit type `int`. -/
theorem parsePages_valid_entries (u : String → Except GoError (List (String × JsonValue)))
    (jsonData : String) (data rp ps : List (String × JsonValue)) (pages : List JsonValue)
    (hu : u jsonData = Except.ok data)
    (h1 : data.lookup "readableProduct" = some (JsonValue.object rp))
    (h2 : rp.lookup "pageStructure" = some (JsonValue.object ps))
    (h3 : ps.lookup "pages" = some (JsonValue.array pages)) :
    (∃ result, parsePages u jsonData = Except.ok result ∧
      result.Perm (pages.filterMap validEntryPage)) ∧
    (∀ f : ℚ, -2 ^ 63 ≤ Int.tdiv f.num f.den → Int.tdiv f.num f.den < 2 ^ 63 →
      intOfFloat64 f = Int.tdiv f.num f.den) :=
  ⟨⟨_, parsePages_of_document u jsonData data rp ps pages hu h1 h2 h3, sortSlice_perm _ _⟩,
    intOfFloat64_in_range⟩

/-- Witness of C9 (amended): a document with a valid entry, an entry with an
empty `src`, a `null` entry and an entry without dimensions. -/
theorem parsePages_valid_entries_witness :
    (∃ result,
      parsePages (fun _ => Except.ok (episodeDocument
        [pageEntry "b.jpg" 800 1200, pageEntry "" 1 1, JsonValue.null,
          JsonValue.object [("src", JsonValue.str "z.jpg")]])) "doc" = Except.ok result ∧
      result.Perm ([pageEntry "b.jpg" 800 1200, pageEntry "" 1 1, JsonValue.null,
        JsonValue.object [("src", JsonValue.str "z.jpg")]].filterMap validEntryPage)) ∧
    (∀ f : ℚ, -2 ^ 63 ≤ Int.tdiv f.num f.den → Int.tdiv f.num f.den < 2 ^ 63 →
      intOfFloat64 f = Int.tdiv f.num f.den) :=
  parsePages_valid_entries _ "doc"
    (episodeDocument [pageEntry "b.jpg" 800 1200, pageEntry "" 1 1, JsonValue.null,
      JsonValue.object [("src", JsonValue.str "z.jpg")]])
    [("pageStructure", JsonValue.object [("pages", JsonValue.array
      [pageEntry "b.jpg" 800 1200, pageEntry "" 1 1, JsonValue.null,
        JsonValue.object [("src", JsonValue.str "z.jpg")]])])]
    [("pages", JsonValue.array
      [pageEntry "b.jpg" 800 1200, pageEntry "" 1 1, JsonValue.null,
        JsonValue.object [("src", JsonValue.str "z.jpg")]])]
    _ rfl rfl rfl rfl

/-! ### Search -/

/-- C10 fails on the code: with mode `ourfeel`, an episode URL as the query and
an adapter that returns the title `第1話` and a thumbnail without error,
`SearchComics` returns the empty list and no error, because `contains(title,
query)` is false for a title shorter than the URL. -/
theorem SearchComics_short_title_dropped :
    SearchComics
      (fun _ => ("", "", some "unused"))
      (fun _ => ("第1話", "data:image/png;base64,iVBORw0KGgo=", none))
      (fun _ => ("", "", some "unused"))
      "ourfeel" "https://ourfeel.jp/episode/2551460909837012072" = ([], none) := by
  decide

/-- What `SearchComics` returns when the adapter of a supported mode succeeds:
the single `ComicInfo` if the query is empty or `contains(title, query)`
holds, and the empty list otherwise; never an error. -/
theorem SearchComics_of_success (cd ofl ps : FirstPageAdapter) (mode query title thumb : String)
    (hmode : (mode = "comicDays" ∧ cd query = (title, thumb, none)) ∨
      (mode = "ourfeel" ∧ ofl query = (title, thumb, none)) ∨
      (mode = "PocketShonenmagazine" ∧ ps query = (title, thumb, none))) :
    SearchComics cd ofl ps mode query =
      (if query = "" ∨ contains title query = true then
        [{ Mode := mode, Title := title, Thumbnail := thumb, PageURL := query }]
      else [], none) := by
  have hsw : searchSwitch cd ofl ps mode query =
      Except.ok [{ Mode := mode, Title := title, Thumbnail := thumb, PageURL := query }] := by
    unfold searchSwitch
    rcases hmode with ⟨hm, ha⟩ | ⟨hm, ha⟩ | ⟨hm, ha⟩
    · rw [if_pos hm, ha]
    · have h1 : ¬ mode = "comicDays" := by rw [hm]; decide
      rw [if_neg h1, if_pos hm, ha]
    · have h1 : ¬ mode = "comicDays" := by rw [hm]; decide
      have h2 : ¬ mode = "ourfeel" := by rw [hm]; decide
      rw [if_neg h1, if_neg h2, if_pos hm, ha]
  unfold SearchComics
  rw [hsw]
  by_cases hq : query = "" ∨ contains title query = true
  · rw [if_pos hq]
    simp only [List.foldl_cons, List.foldl_nil, List.nil_append]
    rw [if_pos (by simpa using hq)]
  · rw [if_neg hq]
    simp only [List.foldl_cons, List.foldl_nil, List.nil_append]
    rw [if_neg (by simpa using hq)]

/-! ### Grid derivation, all cases -/

/-- C16, as stated, fails: for `W = H = 100` and `tileCount = 2^61` the raster
is below `8·tileCount`, but the product `tileCount*8` wraps to 0 in the 64-bit
type `int` and `CalculateDescrambleDimensions` reports `ok` with tiles of
size 0. -/
theorem CalculateDescrambleDimensions_guard_wraps :
    (100 : Int) < 8 * 2 ^ 61 ∧
    CalculateDescrambleDimensions 100 100 (2 ^ 61) = some (0, 0, true) := by
  decide

/-- C16 (amended). For `W ≥ 0`, `H ≥ 0` and `1 ≤ tileCount < 2^60` (so that
`8·tileCount` does not leave the range of the 64-bit type `int`),
`CalculateDescrambleDimensions(W, H, tileCount)` returns (no division by
zero), reports "not ok" exactly when `W < 8·tileCount` or `H < 8·tileCount`,
and otherwise returns `tileW = (W div 8 div tileCount)·8` and
`tileH = (H div 8 div tileCount)·8` with truncating division; both returned
values are multiples of 8. -/
theorem CalculateDescrambleDimensions_spec (W H tc : Int) (hW : 0 ≤ W) (hH : 0 ≤ H)
    (htc : 1 ≤ tc) (h60 : tc < 2 ^ 60) :
    ∃ tw th ok, CalculateDescrambleDimensions W H tc = some (tw, th, ok) ∧
      (ok = false ↔ (W < 8 * tc ∨ H < 8 * tc)) ∧
      (ok = true → tw = Int.tdiv (Int.tdiv W 8) tc * 8 ∧
        th = Int.tdiv (Int.tdiv H 8) tc * 8) ∧
      8 ∣ tw ∧ 8 ∣ th := by
  by_cases hs : W < 8 * tc ∨ H < 8 * tc
  · refine ⟨0, 0, false, CalculateDescrambleDimensions_small W H tc htc h60 hs, ?_, ?_, ?_, ?_⟩
    · simp [hs]
    · intro h; cases h
    · exact Int.dvd_zero 8
    · exact Int.dvd_zero 8
  · have hW8 : 8 * tc ≤ W := by omega
    have hH8 : 8 * tc ≤ H := by omega
    refine ⟨W / 8 / tc * 8, H / 8 / tc * 8, true,
      CalculateDescrambleDimensions_ok W H tc htc hW8 hH8, ?_, ?_, ?_, ?_⟩
    · simp [hs]
    · intro _
      rw [Int.tdiv_eq_ediv hW (by omega), Int.tdiv_eq_ediv hH (by omega),
        Int.tdiv_eq_ediv (by omega) (by omega), Int.tdiv_eq_ediv (by omega) (by omega)]
      exact ⟨rfl, rfl⟩
    · exact Int.dvd_mul_left _ _
    · exact Int.dvd_mul_left _ _

/-- Witness of C16 (amended): a 35 × 33 raster with `tileCount = 4`. -/
theorem CalculateDescrambleDimensions_spec_witness :
    ∃ tw th ok, CalculateDescrambleDimensions 35 33 4 = some (tw, th, ok) ∧
      (ok = false ↔ ((35 : Int) < 8 * 4 ∨ (33 : Int) < 8 * 4)) ∧
      (ok = true → tw = Int.tdiv (Int.tdiv 35 8) 4 * 8 ∧
        th = Int.tdiv (Int.tdiv 33 8) 4 * 8) ∧
      8 ∣ tw ∧ 8 ∣ th :=
  CalculateDescrambleDimensions_spec 35 33 4 (by decide) (by decide) (by decide) (by decide)

/-! ### Source B session -/

theorem initialFetchLoop_all_fail (fetch : Nat → Except GoError Document)
    (hfail : ∀ j, ∃ e, fetch j = Except.error e) :
    ∀ fuel attempt, initialFetchLoop fetch fuel attempt = none := by
  intro fuel
  induction fuel with
  | zero => intro attempt; rfl
  | succ fuel ih =>
    intro attempt
    obtain ⟨e, he⟩ := hfail attempt
    simp only [initialFetchLoop, he]
    exact ih (attempt + 1)

theorem initialFetchLoop_first_success (fetch : Nat → Except GoError Document)
    (doc : Document) :
    ∀ (k attempt : Nat), (∀ j, j < k → ∃ e, fetch (attempt + j) = Except.error e) →
      fetch (attempt + k) = Except.ok doc →
      (∀ fuel, fuel ≤ k → initialFetchLoop fetch fuel attempt = none) ∧
      (∀ fuel, k < fuel → initialFetchLoop fetch fuel attempt = some doc) := by
  intro k
  induction k with
  | zero =>
    intro attempt _ hok
    constructor
    · intro fuel hf
      have : fuel = 0 := by omega
      subst this
      rfl
    · intro fuel hf
      obtain ⟨f, rfl⟩ : ∃ f, fuel = f + 1 := ⟨fuel - 1, by omega⟩
      simp only [initialFetchLoop]
      rw [Nat.add_zero] at hok
      rw [hok]
  | succ k ih =>
    intro attempt hfail hok
    obtain ⟨e, he⟩ := hfail 0 (by omega)
    rw [Nat.add_zero] at he
    have ih' := ih (attempt + 1)
      (fun j hj => by
        have := hfail (j + 1) (by omega)
        rwa [show attempt + (j + 1) = attempt + 1 + j by omega] at this)
      (by rwa [show attempt + (k + 1) = attempt + 1 + k by omega] at hok)
    constructor
    · intro fuel hf
      cases fuel with
      | zero => rfl
      | succ f =>
        simp only [initialFetchLoop, he]
        exact ih'.1 f (by omega)
    · intro fuel hf
      obtain ⟨f, rfl⟩ : ∃ f, fuel = f + 1 := ⟨fuel - 1, by omega⟩
      simp only [initialFetchLoop, he]
      exact ih'.2 f (by omega)

/-- C13, as stated, fails: when every call of `fetchComicHTML` fails,
`NewComicSession` never returns, whatever the number of loop iterations
allowed; in particular it returns no error to its caller. -/
theorem NewComicSession_all_fetches_fail :
    ¬ ∃ fuel, (NewComicSession (fun _ => Except.error "failed to execute request after 5 attempts")
      (fun s => s) (fun _ => Except.ok []) "https://ourfeel.jp/episode/1" fuel).isSome = true := by
  rintro ⟨fuel, h⟩
  have hn := initialFetchLoop_all_fail
    (fun _ => (Except.error "failed to execute request after 5 attempts" :
      Except GoError Document)) (fun _ => ⟨_, rfl⟩) fuel 0
  simp [NewComicSession, hn] at h

/-- C13 (amended). For source B a failed fetch of the episode HTML is retried
until a fetch succeeds: if the calls number `0 .. k-1` of `fetchComicHTML`
fail and call number `k` returns a document, `NewComicSession` is still
running after `k` iterations or fewer, returns once more than `k` iterations
are allowed, and then returns exactly what it returns when the first fetch
delivers that document, so no fetch error reaches the caller; if every call
fails, it does not return for any number of iterations. -/
theorem NewComicSession_retries_until_success
    (fetch : Nat → Except GoError Document) (htmlUnescape : String → String)
    (jsonUnmarshal : String → Except GoError (List (String × JsonValue))) (url : String) :
    (∀ (k : Nat) (doc : Document), (∀ j, j < k → ∃ e, fetch j = Except.error e) →
      fetch k = Except.ok doc →
      (∀ fuel, fuel ≤ k → NewComicSession fetch htmlUnescape jsonUnmarshal url fuel = none) ∧
      (∀ fuel, k < fuel →
        NewComicSession fetch htmlUnescape jsonUnmarshal url fuel =
          NewComicSession (fun _ => Except.ok doc) htmlUnescape jsonUnmarshal url 1 ∧
        (NewComicSession fetch htmlUnescape jsonUnmarshal url fuel).isSome = true)) ∧
    ((∀ j, ∃ e, fetch j = Except.error e) →
      ∀ fuel, NewComicSession fetch htmlUnescape jsonUnmarshal url fuel = none) := by
  constructor
  · intro k doc hfail hok
    obtain ⟨h1, h2⟩ := initialFetchLoop_first_success fetch doc k 0
      (fun j hj => by rw [Nat.zero_add]; exact hfail j hj) (by rw [Nat.zero_add]; exact hok)
    constructor
    · intro fuel hf
      simp only [NewComicSession, h1 fuel hf]
    · intro fuel hf
      have e1 : NewComicSession fetch htmlUnescape jsonUnmarshal url fuel =
          NewComicSession (fun _ => Except.ok doc) htmlUnescape jsonUnmarshal url 1 := by
        simp only [NewComicSession, h2 fuel hf, initialFetchLoop]
      refine ⟨e1, ?_⟩
      rw [e1]
      simp only [NewComicSession, initialFetchLoop]
      cases extractEpisodeJSON htmlUnescape doc with
      | error e => rfl
      | ok jsonData =>
        simp only
        cases parsePages jsonUnmarshal jsonData <;> rfl
  · intro hfail fuel
    simp only [NewComicSession, initialFetchLoop_all_fail fetch hfail fuel 0]

/-- Witness of C13 (amended): the first two fetches fail, the third returns a
document. -/
theorem NewComicSession_retries_until_success_witness :
    (∀ fuel, fuel ≤ 2 →
      NewComicSession
        (fun k => if k < 2 then Except.error "timeout"
          else Except.ok { title := "Episode 1", episodeJson := some "doc" })
        (fun s => s) (fun _ => Except.ok (episodeDocument [pageEntry "a.jpg" 7 9]))
        "https://ourfeel.jp/episode/1" fuel = none) ∧
    (∀ fuel, 2 < fuel →
      NewComicSession
        (fun k => if k < 2 then Except.error "timeout"
          else Except.ok { title := "Episode 1", episodeJson := some "doc" })
        (fun s => s) (fun _ => Except.ok (episodeDocument [pageEntry "a.jpg" 7 9]))
        "https://ourfeel.jp/episode/1" fuel =
      NewComicSession
        (fun _ => Except.ok { title := "Episode 1", episodeJson := some "doc" })
        (fun s => s) (fun _ => Except.ok (episodeDocument [pageEntry "a.jpg" 7 9]))
        "https://ourfeel.jp/episode/1" 1 ∧
      (NewComicSession
        (fun k => if k < 2 then Except.error "timeout"
          else Except.ok { title := "Episode 1", episodeJson := some "doc" })
        (fun s => s) (fun _ => Except.ok (episodeDocument [pageEntry "a.jpg" 7 9]))
        "https://ourfeel.jp/episode/1" fuel).isSome = true) :=
  (NewComicSession_retries_until_success
    (fun k => if k < 2 then Except.error "timeout"
      else Except.ok { title := "Episode 1", episodeJson := some "doc" })
    (fun s => s) (fun _ => Except.ok (episodeDocument [pageEntry "a.jpg" 7 9]))
    "https://ourfeel.jp/episode/1").1 2 { title := "Episode 1", episodeJson := some "doc" }
    (fun j hj => ⟨"timeout", if_pos hj⟩) (if_neg (by decide))

/-- C14 fails on the code: for an episode document whose `pages` array is
empty, `parsePages` returns an empty page list and no error, `NewComicSession`
returns a session with no page and no error, and the expression
`session.Pages[0]` of `GetFirstPageFromOurfeel` is out of range. -/
theorem NewComicSession_empty_manifest :
    parsePages (fun _ => Except.ok (episodeDocument [])) "doc" = Except.ok [] ∧
    NewComicSession (fun _ => Except.ok { title := "Episode 1", episodeJson := some "doc" })
      (fun s => s) (fun _ => Except.ok (episodeDocument []))
      "https://ourfeel.jp/episode/1" 1 =
      some ("Episode 1",
        some { URL := "https://ourfeel.jp/episode/1",
               Doc := { title := "Episode 1", episodeJson := some "doc" }, Pages := [] },
        none) ∧
    firstPageOfSession
      { URL := "https://ourfeel.jp/episode/1",
        Doc := { title := "Episode 1", episodeJson := some "doc" }, Pages := [] } = none := by
  have hp : parsePages (fun _ => Except.ok (episodeDocument [])) "doc" = Except.ok [] := by
    rw [parsePages_episodeDocument]
    rfl
  refine ⟨hp, ?_, rfl⟩
  have he : extractEpisodeJSON (fun s => s)
      { title := "Episode 1", episodeJson := some "doc" } = Except.ok "doc" := by
    have hne : ¬ ("doc" : String) = "" := by decide
    simp only [extractEpisodeJSON, if_neg hne]
  simp only [NewComicSession, initialFetchLoop, he, hp]

/-! ### Download session controller -/

/-- C17 fails on the code: in a state in which `shouldStopDownload` is false,
the cancel channel is empty and the progress-stop channel holds a signal, each
of the three page loops sets `forceStop` but does not return: the page of the
iteration is still processed (sources A and B) or downloaded and saved
(source C), and the loop stops only at the check after the page. -/
theorem progress_stop_signal_does_not_return :
    ({ startedApp 1 with progressStopChan := 1 }).shouldStopDownload 1 = false ∧
    (({ startedApp 1 with progressStopChan := 1 }).downloadComicDays quietSchedule
      [NewPage "a.jpg" 800 1200, NewPage "b.jpg" 800 1200] 2 "title" 1).1.processed = [1] ∧
    (({ startedApp 1 with progressStopChan := 1 }).downloadOurfeel quietSchedule
      [NewPage "a.jpg" 800 1200, NewPage "b.jpg" 800 1200] 2 "title" 1).1.processed = [1] ∧
    (({ startedApp 1 with progressStopChan := 1 }).downloadPocketShonenmagazine quietSchedule
      successIO { ScrambleSeed := 5, PageList := ["u1", "u2"] } "out" 2 "title" 1).1.saved =
      [(1, "out/001.jpg")] ∧
    (({ startedApp 1 with progressStopChan := 1 }).downloadOurfeel quietSchedule
      [NewPage "a.jpg" 800 1200, NewPage "b.jpg" 800 1200] 2 "title" 1).1.forceStop = true := by
  decide

/-- C11 fails on the code: in a download of two pages (session 1, each of the
three loops) during which the shell calls `CancelDownload` once, while
`sendProgressSafely` is sending the event `completed` (after its checks,
before `runtime.EventsEmit`), the call finds the download active after two
emitted events and sets `forceStop`, and the third event, the one with status
`completed`, is emitted after it. Without that interleaving the checks work:
after a `CancelDownload` on the started session `sendProgressSafely` emits
nothing and returns an error. -/
theorem completed_event_after_cancel :
    (((startedApp 1).downloadComicDays cancelBeforeCompletedEmit
        [NewPage "a.jpg" 800 1200, NewPage "b.jpg" 800 1200] 2 "title" 1).1.cancelled = [2] ∧
      ((startedApp 1).downloadComicDays cancelBeforeCompletedEmit
        [NewPage "a.jpg" 800 1200, NewPage "b.jpg" 800 1200] 2 "title" 1).1.forceStop = true ∧
      ((startedApp 1).downloadComicDays cancelBeforeCompletedEmit
        [NewPage "a.jpg" 800 1200, NewPage "b.jpg" 800 1200] 2 "title" 1).1.emitted =
        [{ Current := 1, Total := 2, Title := "title", Status := "downloading" },
         { Current := 2, Total := 2, Title := "title", Status := "downloading" },
         { Current := 2, Total := 2, Title := "title", Status := "completed" }]) ∧
    (((startedApp 1).downloadOurfeel cancelBeforeCompletedEmit
        [NewPage "a.jpg" 800 1200, NewPage "b.jpg" 800 1200] 2 "title" 1).1.cancelled = [2] ∧
      ((startedApp 1).downloadOurfeel cancelBeforeCompletedEmit
        [NewPage "a.jpg" 800 1200, NewPage "b.jpg" 800 1200] 2 "title" 1).1.forceStop = true ∧
      ((startedApp 1).downloadOurfeel cancelBeforeCompletedEmit
        [NewPage "a.jpg" 800 1200, NewPage "b.jpg" 800 1200] 2 "title" 1).1.emitted =
        [{ Current := 1, Total := 2, Title := "title", Status := "downloading" },
         { Current := 2, Total := 2, Title := "title", Status := "downloading" },
         { Current := 2, Total := 2, Title := "title", Status := "completed" }]) ∧
    (((startedApp 1).downloadPocketShonenmagazine cancelBeforeCompletedEmit successIO
        { ScrambleSeed := 5, PageList := ["u1", "u2"] } "out" 2 "title" 1).1.cancelled = [2] ∧
      ((startedApp 1).downloadPocketShonenmagazine cancelBeforeCompletedEmit successIO
        { ScrambleSeed := 5, PageList := ["u1", "u2"] } "out" 2 "title" 1).1.forceStop = true ∧
      ((startedApp 1).downloadPocketShonenmagazine cancelBeforeCompletedEmit successIO
        { ScrambleSeed := 5, PageList := ["u1", "u2"] } "out" 2 "title" 1).1.emitted =
        [{ Current := 1, Total := 2, Title := "title", Status := "downloading" },
         { Current := 2, Total := 2, Title := "title", Status := "downloading" },
         { Current := 2, Total := 2, Title := "title", Status := "completed" }]) ∧
    ((startedApp 1).CancelDownload.1.sendProgressSafely quietSchedule
      { Current := 2, Total := 2, Title := "title", Status := "completed" } 1).1.emitted = [] ∧
    ((startedApp 1).CancelDownload.1.sendProgressSafely quietSchedule
      { Current := 2, Total := 2, Title := "title", Status := "completed" } 1).2 ≠ none := by
  decide

theorem sendForceStopSignals_fields (a : App) :
    a.sendForceStopSignals.emitted = a.emitted ∧
    a.sendForceStopSignals.forceStop = a.forceStop ∧
    a.sendForceStopSignals.isDownloading = a.isDownloading ∧
    a.sendForceStopSignals.saved = a.saved := by
  simp [App.sendForceStopSignals, App.clearAllChannels, List.range, List.range.loop]

theorem CancelDownload_saved (a : App) : a.CancelDownload.1.saved = a.saved := by
  unfold App.CancelDownload
  split
  · rfl
  · obtain ⟨_, _, _, h4⟩ := sendForceStopSignals_fields
      { a with forceStop := true, cancelled := a.cancelled ++ [a.emitted.length] }
    simp only [App.forceCleanupAll, App.clearAllChannels, h4]

theorem interleave_saved (a : App) (sched : Schedule) (pt : YieldPoint) :
    (a.interleave sched pt).saved = a.saved := by
  unfold App.interleave
  split
  · exact CancelDownload_saved a
  · rfl

theorem sendProgressSafely_saved (a : App) (sched : Schedule) (p : DownloadProgress)
    (sessionId : Int) : (a.sendProgressSafely sched p sessionId).1.saved = a.saved := by
  unfold App.sendProgressSafely
  simp only
  split
  · exact interleave_saved _ _ _
  · split
    · simp only [App.setForceStop, interleave_saved]
    · split
      · simp only [interleave_saved]
      · simp only [interleave_saved]

theorem pollStopSignals_saved (a : App) (c : Bool) : (a.pollStopSignals c).app.saved = a.saved := by
  unfold App.pollStopSignals
  repeat' split
  all_goals rfl

theorem savedOnly_refl (P : Int × String → Prop) (a : App) : savedOnly P a a :=
  ⟨[], by simp, fun e he => by cases he⟩

theorem savedOnly_of_eq (P : Int × String → Prop) {a b : App} (h : b.saved = a.saved) :
    savedOnly P a b :=
  ⟨[], by simp [h], fun e he => by cases he⟩

theorem savedOnly_trans {P : Int × String → Prop} {a b c : App} (h1 : savedOnly P a b)
    (h2 : savedOnly P b c) : savedOnly P a c := by
  obtain ⟨n1, e1, p1⟩ := h1
  obtain ⟨n2, e2, p2⟩ := h2
  refine ⟨n1 ++ n2, by rw [e2, e1, List.append_assoc], ?_⟩
  intro e he
  rcases List.mem_append.mp he with h | h
  · exact p1 e h
  · exact p2 e h

theorem savedOnly_mono {P Q : Int × String → Prop} {a b : App} (hPQ : ∀ e, P e → Q e)
    (h : savedOnly P a b) : savedOnly Q a b := by
  obtain ⟨n, e, p⟩ := h
  exact ⟨n, e, fun x hx => hPQ x (p x hx)⟩

theorem pageStepC_saved (sched : Schedule) (io : PageIO) (episode : ShonenMagazineEpisodeData)
    (outDir : String) (totalPages : Int) (title : String) (sessionId : Int)
    (a : App) (i : Nat) (imgURL : String) :
    savedOnly
      (fun e => e = ((i : Int) + 1, io.pathJoin outDir (sprintf03d ((i : Int) + 1) ++ ".jpg")))
      a (pageStepC sched io episode outDir totalPages title sessionId a i imgURL).app := by
  unfold pageStepC
  simp only
  generalize hA0 : a.interleave sched (YieldPoint.iterationStart ((i : Int) + 1)) = a0
  have s0 : a0.saved = a.saved := by rw [← hA0]; exact interleave_saved _ _ _
  split
  · exact savedOnly_of_eq _ s0
  · generalize hA1 : a0.interleave sched (YieldPoint.beforeSelect ((i : Int) + 1)) = a1
    have s1 : a1.saved = a.saved := by rw [← hA1, interleave_saved, s0]
    have h0 := pollStopSignals_saved a1 (sched.selectCancel ((i : Int) + 1))
    split
    · next a2 e hpoll =>
      rw [hpoll] at h0
      exact savedOnly_of_eq _ (h0.trans s1)
    · next a2 hpoll =>
      rw [hpoll] at h0
      have h2 : (a2.sendProgressSafely sched
          { Current := (i : Int) + 1, Total := totalPages, Title := title,
            Status := "downloading" } sessionId).1.saved = a.saved := by
        rw [sendProgressSafely_saved]; exact h0.trans s1
      have h3 : ((a2.sendProgressSafely sched
          { Current := (i : Int) + 1, Total := totalPages, Title := title,
            Status := "downloading" } sessionId).1.interleave sched
            (YieldPoint.pageIO ((i : Int) + 1))).saved = a.saved := by
        rw [interleave_saved, h2]
      have h4 : savedOnly
          (fun e => e = ((i : Int) + 1,
            io.pathJoin outDir (sprintf03d ((i : Int) + 1) ++ ".jpg")))
          a (((a2.sendProgressSafely sched
            { Current := (i : Int) + 1, Total := totalPages, Title := title,
              Status := "downloading" } sessionId).1.interleave sched
              (YieldPoint.pageIO ((i : Int) + 1))).saveFile ((i : Int) + 1)
              (io.pathJoin outDir (sprintf03d ((i : Int) + 1) ++ ".jpg"))) :=
        ⟨[_], by simp only [App.saveFile, h3], fun e he => List.mem_singleton.mp he⟩
      repeat' split
      all_goals first
        | exact savedOnly_of_eq _ h2
        | exact savedOnly_of_eq _ h3
        | exact h4

/-! ### File names of source C -/

theorem rangeLoop_pageStepC_saved (sched : Schedule) (io : PageIO)
    (episode : ShonenMagazineEpisodeData) (outDir : String) (totalPages : Int)
    (title : String) (sessionId : Int) :
    ∀ (xs : List String) (i : Nat) (a : App),
      savedOnly
        (fun e => ∃ j : Nat, i ≤ j ∧ j < i + xs.length ∧
          e = ((j : Int) + 1, io.pathJoin outDir (sprintf03d ((j : Int) + 1) ++ ".jpg")))
        a (rangeLoop (pageStepC sched io episode outDir totalPages title sessionId)
          i xs a).app
  | [], _, a => savedOnly_refl _ a
  | x :: xs, i, a => by
      have h1 : savedOnly
          (fun e => ∃ j : Nat, i ≤ j ∧ j < i + (x :: xs).length ∧
            e = ((j : Int) + 1, io.pathJoin outDir (sprintf03d ((j : Int) + 1) ++ ".jpg")))
          a (pageStepC sched io episode outDir totalPages title sessionId a i x).app :=
        savedOnly_mono
          (fun e he => ⟨i, Nat.le_refl i, by simp only [List.length_cons]; omega, he⟩)
          (pageStepC_saved sched io episode outDir totalPages title sessionId a i x)
      unfold rangeLoop
      cases hb : pageStepC sched io episode outDir totalPages title sessionId a i x with
      | returned a' e =>
        rw [hb] at h1
        exact h1
      | next a' =>
        rw [hb] at h1
        refine savedOnly_trans h1 (savedOnly_mono ?_
          (rangeLoop_pageStepC_saved sched io episode outDir totalPages title sessionId
            xs (i + 1) a'))
        rintro e ⟨j, hj1, hj2, hj3⟩
        exact ⟨j, by omega, by simp only [List.length_cons]; omega, hj3⟩

theorem finishDownload_saved (sched : Schedule) (totalPages : Int) (title : String)
    (sessionId : Int) (r : LoopStep) :
    (finishDownload sched totalPages title sessionId r).1.saved = r.app.saved := by
  cases r with
  | returned b e => rfl
  | next b =>
    simp only [finishDownload, LoopStep.app]
    split
    · rw [sendProgressSafely_saved, interleave_saved]
    · exact interleave_saved _ _ _

theorem toDigitsCore_length_ge (b : Nat) :
    ∀ (fuel n : Nat) (ds : List Char), ds.length ≤ (Nat.toDigitsCore b fuel n ds).length
  | 0, _, ds => Nat.le_refl _
  | fuel + 1, n, ds => by
      simp only [Nat.toDigitsCore]
      split
      · simp
      · exact Nat.le_trans (by simp) (toDigitsCore_length_ge b fuel (n / b) _)

theorem repr_length_ge_four (n : Nat) (h : 1000 ≤ n) : 4 ≤ (Nat.repr n).length := by
  obtain ⟨m, hm⟩ : ∃ m, n + 1 = m + 4 := ⟨n - 3, by omega⟩
  have h1 : ¬ n / 10 = 0 := by omega
  have h2 : ¬ n / 10 / 10 = 0 := by omega
  have h3 : ¬ n / 10 / 10 / 10 = 0 := by omega
  show 4 ≤ (Nat.toDigits 10 n).length
  unfold Nat.toDigits
  rw [hm]
  simp only [Nat.toDigitsCore, h1, h2, h3, if_false]
  split
  · simp
  · exact Nat.le_trans (by simp) (toDigitsCore_length_ge 10 m _ _)

set_option maxRecDepth 1000000 in
theorem sprintf03d_small : ∀ n : Nat, n < 1000 →
    String.mk (List.replicate (3 - (Nat.repr n).length) '0') ++ Nat.repr n = threeDigits n := by
  decide

theorem sprintf03d_three_digits (n : Nat) (h : n ≤ 999) :
    sprintf03d (n : Int) = threeDigits n := by
  have hn : ¬ ((n : Int) < 0) := by omega
  simp only [sprintf03d, if_neg hn, Int.natAbs_ofNat]
  exact sprintf03d_small n (by omega)

theorem sprintf03d_large (n : Nat) (h : 1000 ≤ n) :
    sprintf03d (n : Int) = Nat.repr n ∧ 4 ≤ (Nat.repr n).length := by
  have hn : ¬ ((n : Int) < 0) := by omega
  have hl := repr_length_ge_four n h
  have h0 : 3 - (Nat.repr n).length = 0 := by omega
  refine ⟨?_, hl⟩
  simp only [sprintf03d, if_neg hn, Int.natAbs_ofNat, h0, List.replicate]
  apply String.ext
  simp

/-- C12 (amended). Every file that a run of the source C loop writes belongs to
a page at some 0-based position `i` of the page list and is named
`filepath.Join(outDir, NNN.jpg)` where `NNN` is `%03d` of the 1-based index
`i + 1`: exactly the three digits (hundreds, tens, units) of `i + 1` while
`i + 1 ≤ 999`, and the unpadded decimal representation, of four or more
digits, from page 1000 on. The first page is written as `001.jpg`. -/
theorem saved_file_names (a : App) (sched : Schedule) (io : PageIO)
    (episode : ShonenMagazineEpisodeData) (outDir : String) (totalPages : Int)
    (title : String) (sessionId : Int) :
    (∃ new,
      (a.downloadPocketShonenmagazine sched io episode outDir totalPages title
        sessionId).1.saved = a.saved ++ new ∧
      ∀ e ∈ new, ∃ i : Nat, i < episode.PageList.length ∧ e.1 = (i : Int) + 1 ∧
        e.2 = io.pathJoin outDir (sprintf03d ((i : Int) + 1) ++ ".jpg") ∧
        (i + 1 ≤ 999 → sprintf03d ((i : Int) + 1) = threeDigits (i + 1)) ∧
        (1000 ≤ i + 1 → sprintf03d ((i : Int) + 1) = Nat.repr (i + 1) ∧
          4 ≤ (Nat.repr (i + 1)).length)) ∧
    sprintf03d 1 ++ ".jpg" = "001.jpg" := by
  refine ⟨?_, by decide⟩
  obtain ⟨new, hnew, hP⟩ := rangeLoop_pageStepC_saved sched io episode outDir totalPages
    title sessionId episode.PageList 0 a
  refine ⟨new, ?_, ?_⟩
  · unfold App.downloadPocketShonenmagazine
    rw [finishDownload_saved, hnew]
  · intro e he
    obtain ⟨j, _, hj2, hj3⟩ := hP e he
    refine ⟨j, by omega, by rw [hj3], by rw [hj3], ?_, ?_⟩
    · intro h
      have := sprintf03d_three_digits (j + 1) h
      rwa [Nat.cast_succ] at this
    · intro h
      have := sprintf03d_large (j + 1) h
      rwa [Nat.cast_succ] at this

theorem pageStepC_quiet (episode : ShonenMagazineEpisodeData) (outDir : String)
    (totalPages : Int) (title : String) (sessionId : Int) (a : App) (i : Nat) (imgURL : String)
    (hne : ¬ episode.PageList.length = 0)
    (h1 : a.forceStop = false) (h2 : a.downloadSessionId = sessionId)
    (h3 : a.downloadCancelChan = 0) (h4 : a.progressStopChan = 0) (h5 : a.ctxValid = true) :
    ∃ a', pageStepC quietSchedule successIO episode outDir totalPages title sessionId
        a i imgURL = LoopStep.next a' ∧
      a'.forceStop = false ∧ a'.downloadSessionId = sessionId ∧
      a'.downloadCancelChan = 0 ∧ a'.progressStopChan = 0 ∧ a'.ctxValid = true ∧
      a'.saved = a.saved ++
        [((i : Int) + 1, outDir ++ "/" ++ (sprintf03d ((i : Int) + 1) ++ ".jpg"))] := by
  refine ⟨({ a with emitted := a.emitted ++
      [({ Current := (i : Int) + 1, Total := totalPages, Title := title,
          Status := "downloading" } : DownloadProgress)] }).saveFile ((i : Int) + 1)
      (outDir ++ "/" ++ (sprintf03d ((i : Int) + 1) ++ ".jpg")), ?_, h1, h2, h3, h4, h5, rfl⟩
  simp [pageStepC, App.shouldStopDownload, App.pollStopSignals, App.sendProgressSafely,
    App.interleave, App.saveFile, quietSchedule, successIO, hne, h1, h2, h3, h4, h5]

theorem rangeLoop_quiet (episode : ShonenMagazineEpisodeData) (outDir : String)
    (totalPages : Int) (title : String) (sessionId : Int)
    (hne : ¬ episode.PageList.length = 0) :
    ∀ (xs : List String) (i : Nat) (a : App),
      a.forceStop = false → a.downloadSessionId = sessionId →
      a.downloadCancelChan = 0 → a.progressStopChan = 0 → a.ctxValid = true →
      ∃ a', rangeLoop (pageStepC quietSchedule successIO episode outDir totalPages title
          sessionId) i xs a = LoopStep.next a' ∧
        a'.saved = a.saved ++ (List.range xs.length).map (fun j =>
          (((i + j : Nat) : Int) + 1,
            outDir ++ "/" ++ (sprintf03d (((i + j : Nat) : Int) + 1) ++ ".jpg")))
  | [], _, a, _, _, _, _, _ => ⟨a, rfl, by simp⟩
  | x :: xs, i, a, h1, h2, h3, h4, h5 => by
      obtain ⟨a1, hs, g1, g2, g3, g4, g5, hsaved⟩ :=
        pageStepC_quiet episode outDir totalPages title sessionId a i x hne h1 h2 h3 h4 h5
      obtain ⟨a2, hl, hsaved2⟩ :=
        rangeLoop_quiet episode outDir totalPages title sessionId hne xs (i + 1) a1
          g1 g2 g3 g4 g5
      refine ⟨a2, by simp only [rangeLoop, hs, hl], ?_⟩
      rw [hsaved2, hsaved, List.append_assoc]
      congr 1
      simp only [List.length_cons, List.range_succ_eq_map, List.map_cons, List.map_map,
        List.singleton_append, Nat.add_zero]
      congr 1
      apply List.map_congr_left
      intro j _
      simp only [Function.comp, Nat.succ_eq_add_one]
      rw [show i + 1 + j = i + (j + 1) by omega]

/-- C12, as stated, fails: in a run over 1000 pages in which every download,
processing and save succeeds, the page at position 999 is written as
`1000.jpg`, a name of four digits. -/
theorem page_1000_file_name :
    ((1000 : Int), "out/1000.jpg") ∈
      ((startedApp 1).downloadPocketShonenmagazine quietSchedule successIO
        { ScrambleSeed := 5, PageList := List.replicate 1000 "u" } "out" 1000 "title"
        1).1.saved ∧
    (sprintf03d 1000).length = 4 := by
  refine ⟨?_, by decide⟩
  have hne : ¬ (List.replicate 1000 "u").length = 0 := by
    rw [List.length_replicate]; decide
  obtain ⟨a', hl, hsaved⟩ := rangeLoop_quiet
    { ScrambleSeed := 5, PageList := List.replicate 1000 "u" } "out" 1000 "title" 1
    hne (List.replicate 1000 "u") 0 (startedApp 1) rfl rfl rfl rfl rfl
  unfold App.downloadPocketShonenmagazine
  rw [finishDownload_saved]
  show _ ∈ (rangeLoop (pageStepC quietSchedule successIO
    { ScrambleSeed := 5, PageList := List.replicate 1000 "u" } "out" 1000 "title" 1) 0
    (List.replicate 1000 "u") (startedApp 1)).app.saved
  rw [hl]
  show _ ∈ a'.saved
  rw [hsaved]
  refine List.mem_append_right _ (List.mem_map.mpr ⟨999, ?_, by decide⟩)
  rw [List.length_replicate]
  exact List.mem_range.mpr (by decide)

/-! ### Pixel accesses of the descrambler -/

theorem foldl_flatMap_eq {α β γ : Type} (f : α → List β) (g : γ → β → γ) :
    ∀ (l : List α) (init : γ),
      (l.flatMap f).foldl g init = l.foldl (fun acc a => (f a).foldl g acc) init
  | [], _ => rfl
  | a :: l, init => by
      rw [List.flatMap_cons, List.foldl_append, List.foldl_cons]
      exact foldl_flatMap_eq f g l _

theorem applyCopies_append {κ : Type} [ColorType κ] (img : Image (Color κ)) (l1 l2 : List PixelCopy)
    (out : Image (Color κ)) :
    applyCopies img (l1 ++ l2) out = applyCopies img l2 (applyCopies img l1 out) := by
  simp only [applyCopies, List.foldl_append]

theorem copyTile_eq_applyCopies {κ : Type} [ColorType κ] (img out : Image (Color κ)) (sx sy dx dy w h : Int) :
    copyTile img sx sy dx dy w h out =
      applyCopies img (copyTileAccesses sx sy dx dy w h) out := by
  simp only [copyTile, forRange, applyCopies, copyTileAccesses, foldl_flatMap_eq,
    List.foldl_map]

theorem tileStep_eq_applyCopies {κ : Type} [ColorType κ] (img out : Image (Color κ)) (tc tw th d s : Int) :
    tileStep img tc tw th out d s =
      applyCopies img (tileStepAccesses tc tw th d s) out := by
  simp only [tileStep, tileStepAccesses, copyTile_eq_applyCopies]

theorem copyRightStrip_eq_applyCopies {κ : Type} [ColorType κ] (img out : Image (Color κ)) (W H lw : Int) :
    copyRightStrip img W H lw out = applyCopies img (rightStripAccesses W H lw) out := by
  unfold copyRightStrip rightStripAccesses
  split
  · simp only [forRange, applyCopies, foldl_flatMap_eq, List.foldl_map]
  · rfl

theorem copyBottomStrip_eq_applyCopies {κ : Type} [ColorType κ] (img out : Image (Color κ)) (W H lh : Int) :
    copyBottomStrip img W H lh out = applyCopies img (bottomStripAccesses W H lh) out := by
  unfold copyBottomStrip bottomStripAccesses
  split
  · simp only [forRange, applyCopies, foldl_flatMap_eq, List.foldl_map]
  · rfl

theorem rightStripAccesses_eq (W H lw : Int) :
    rightStripAccesses W H lw =
      if lw > 0 then copyTileAccesses (W - lw) 0 (W - lw) 0 lw H else [] := by
  simp only [rightStripAccesses, copyTileAccesses, Int.zero_add]

theorem bottomStripAccesses_eq (W H lh : Int) :
    bottomStripAccesses W H lh =
      if lh > 0 then copyTileAccesses 0 (H - lh) 0 (H - lh) W lh else [] := by
  simp only [bottomStripAccesses, copyTileAccesses, Int.zero_add]

theorem mem_copyTileAccesses (sx sy dx dy w h : Int) (c : PixelCopy) :
    c ∈ copyTileAccesses sx sy dx dy w h ↔
      ∃ x y : Int, 0 ≤ x ∧ x < w ∧ 0 ≤ y ∧ y < h ∧
        c = { srcX := sx + x, srcY := sy + y, dstX := dx + x, dstY := dy + y } := by
  unfold copyTileAccesses
  simp only [List.mem_flatMap, List.mem_map, List.mem_range]
  constructor
  · rintro ⟨y, hy, x, hx, rfl⟩
    exact ⟨x, y, by omega, by omega, by omega, by omega, rfl⟩
  · rintro ⟨x, y, hx0, hx1, hy0, hy1, rfl⟩
    refine ⟨y.toNat, by omega, x.toNat, by omega, ?_⟩
    rw [Int.toNat_of_nonneg hx0, Int.toNat_of_nonneg hy0]

theorem unscrambleAccesses_eq (W H seed tc : Int) (order : List Int) (htc : 1 ≤ tc)
    (hW : 8 * tc ≤ W) (hH : 8 * tc ≤ H) (ho : ShuffleOrder (tc * tc) seed = some order) :
    unscrambleAccesses W H seed tc =
      some ((List.range order.length).flatMap
          (fun (i : Nat) =>
            tileStepAccesses tc (W / 8 / tc * 8) (H / 8 / tc * 8) (i : Int) (order.getD i 0)) ++
        rightStripAccesses W H (W - W / 8 / tc * 8 * tc) ++
        bottomStripAccesses W H (H - H / 8 / tc * 8 * tc)) := by
  unfold unscrambleAccesses
  simp only [CalculateDescrambleDimensions_ok W H tc htc hW hH, ho]
  rfl

theorem UnscrambleImage_eq_applyCopies {κ : Type} [ColorType κ] (img : Image (Color κ))
    (seed tc : Int) (order : List Int) (htc : 1 ≤ tc) (hW : 8 * tc ≤ img.W)
    (hH : 8 * tc ≤ img.H) (ho : ShuffleOrder (tc * tc) seed = some order) :
    ∃ copies, unscrambleAccesses img.W img.H seed tc = some copies ∧
      UnscrambleImage img seed tc =
        some (applyCopies img copies (NewRGBA img.W img.H), none) := by
  refine ⟨_, unscrambleAccesses_eq img.W img.H seed tc order htc hW hH ho, ?_⟩
  rw [UnscrambleImage_eq img seed tc order htc hW hH ho]
  simp only [assembleRaster, forwardMoves, List.foldl_map, applyCopies_append,
    copyRightStrip_eq_applyCopies, copyBottomStrip_eq_applyCopies, tileStep_eq_applyCopies]
  congr 3
  simp only [applyCopies, foldl_flatMap_eq]

theorem tileStepAccesses_eq (tc tw th d s : Int) (htc : 0 ≤ tc) (hd : 0 ≤ d) (hs : 0 ≤ s) :
    tileStepAccesses tc tw th d s =
      copyTileAccesses ((s % tc) * tw) ((s / tc) * th) ((d % tc) * tw) ((d / tc) * th)
        tw th := by
  simp only [tileStepAccesses, Int.tmod_eq_emod hd htc, Int.tmod_eq_emod hs htc,
    Int.tdiv_eq_ediv hd htc, Int.tdiv_eq_ediv hs htc]

theorem UnscrambleImage_isSome {κ : Type} [ColorType κ] (img : Image (Color κ)) (seed tc : Int)
    (htc : 1 ≤ tc) : (UnscrambleImage img seed tc).isSome = true := by
  obtain ⟨tw, th, ok, hd⟩ := CalculateDescrambleDimensions_isSome img.W img.H tc (by omega)
  cases ok with
  | false =>
    unfold UnscrambleImage
    simp only [hd]
    rfl
  | true =>
    obtain ⟨order, ho, _, _⟩ :=
      ShuffleOrder_perm (tc * tc) seed (Int.mul_nonneg (by omega) (by omega))
    rw [UnscrambleImage_of_dims img seed tc tw th order hd ho]
    rfl

/-- C18. For a raster of width `W` and height `H`, `tc ≥ 1` with `W ≥ 8·tc` and
`H ≥ 8·tc`, and any seed: `tileW ≥ 8`, `tileH ≥ 8`, `tileW·tc ≤ W`,
`tileH·tc ≤ H`, `0 ≤ leftoverW < 8·tc`, `0 ≤ leftoverH < 8·tc`; the result of
`UnscrambleImage` is the execution of its list of pixel copies, every
coordinate read or written by a copy lies in `[0, W) × [0, H)`, and every
pixel of the output is written by at least one copy. For `tc ≥ 1`
`UnscrambleImage` never panics (no division by zero), whatever the raster. -/
theorem UnscrambleImage_accesses_in_bounds {κ : Type} [ColorType κ] (img : Image (Color κ))
    (seed tc : Int) (htc : 1 ≤ tc) (hW : 8 * tc ≤ img.W) (hH : 8 * tc ≤ img.H) :
    ∃ tileW tileH copies,
      CalculateDescrambleDimensions img.W img.H tc = some (tileW, tileH, true) ∧
      8 ≤ tileW ∧ 8 ≤ tileH ∧ tileW * tc ≤ img.W ∧ tileH * tc ≤ img.H ∧
      0 ≤ img.W - tileW * tc ∧ img.W - tileW * tc < 8 * tc ∧
      0 ≤ img.H - tileH * tc ∧ img.H - tileH * tc < 8 * tc ∧
      unscrambleAccesses img.W img.H seed tc = some copies ∧
      UnscrambleImage img seed tc =
        some (applyCopies img copies (NewRGBA img.W img.H), none) ∧
      (∀ c ∈ copies, 0 ≤ c.srcX ∧ c.srcX < img.W ∧ 0 ≤ c.srcY ∧ c.srcY < img.H ∧
        0 ≤ c.dstX ∧ c.dstX < img.W ∧ 0 ≤ c.dstY ∧ c.dstY < img.H) ∧
      (∀ x y : Int, 0 ≤ x → x < img.W → 0 ≤ y → y < img.H →
        ∃ c ∈ copies, c.dstX = x ∧ c.dstY = y) ∧
      (∀ (img' : Image (Color κ)) (seed' : Int), (UnscrambleImage img' seed' tc).isSome = true) := by
  have hcount : 0 ≤ tc * tc := Int.mul_nonneg (by omega) (by omega)
  obtain ⟨order, ho, _, _⟩ := ShuffleOrder_perm (tc * tc) seed hcount
  obtain ⟨hlen, hmem, _, _⟩ := order_facts (tc * tc) seed order hcount ho
  obtain ⟨w8, wle, wlt⟩ := tileDim_bounds img.W tc htc hW
  obtain ⟨h8, hle, hlt⟩ := tileDim_bounds img.H tc htc hH
  have hd := CalculateDescrambleDimensions_ok img.W img.H tc htc hW hH
  have hacc := unscrambleAccesses_eq img.W img.H seed tc order htc hW hH ho
  obtain ⟨copies', hc1, hc2⟩ := UnscrambleImage_eq_applyCopies img seed tc order htc hW hH ho
  rw [hacc] at hc1
  cases hc1
  generalize htw : img.W / 8 / tc * 8 = tw at *
  generalize hth : img.H / 8 / tc * 8 = th at *
  refine ⟨tw, th, _, hd, w8, h8, wle, hle, by omega, wlt, by omega, hlt, hacc, hc2, ?_, ?_,
    fun img' seed' => UnscrambleImage_isSome img' seed' tc htc⟩
  · intro c hc
    rcases List.mem_append.mp hc with hc | hc
    · rcases List.mem_append.mp hc with hc | hc
      · obtain ⟨i, hi, hci⟩ := List.mem_flatMap.mp hc
        have hi' := List.mem_range.mp hi
        have hs := hmem _ (getD_mem order i hi')
        rw [tileStepAccesses_eq tc tw th _ _ (by omega) (by omega) hs.1,
          mem_copyTileAccesses] at hci
        obtain ⟨x, y, hx0, hx1, hy0, hy1, rfl⟩ := hci
        have hsrc := inTile_in_bounds tc tw th (order.getD i 0)
          ((order.getD i 0 % tc) * tw + x) ((order.getD i 0 / tc) * th + y) htc hs.1 hs.2
          (by omega) (by omega) ⟨by omega, by omega, by omega, by omega⟩
        have hdst := inTile_in_bounds tc tw th (i : Int)
          (((i : Int) % tc) * tw + x) (((i : Int) / tc) * th + y) htc (by omega) (by omega)
          (by omega) (by omega) ⟨by omega, by omega, by omega, by omega⟩
        simp only
        omega
      · rw [rightStripAccesses_eq] at hc
        split at hc
        · rw [mem_copyTileAccesses] at hc
          obtain ⟨x, y, hx0, hx1, hy0, hy1, rfl⟩ := hc
          simp only
          omega
        · cases hc
    · rw [bottomStripAccesses_eq] at hc
      split at hc
      · rw [mem_copyTileAccesses] at hc
        obtain ⟨x, y, hx0, hx1, hy0, hy1, rfl⟩ := hc
        simp only
        omega
      · cases hc
  · intro x y hx0 hx1 hy0 hy1
    by_cases hxr : tw * tc ≤ x
    · refine ⟨{ srcX := x, srcY := y, dstX := x, dstY := y }, ?_, rfl, rfl⟩
      apply List.mem_append_left
      apply List.mem_append_right
      rw [rightStripAccesses_eq, if_pos (by omega), mem_copyTileAccesses]
      refine ⟨x - tw * tc, y, by omega, by omega, hy0, hy1, ?_⟩
      congr 1 <;> omega
    · by_cases hyr : th * tc ≤ y
      · refine ⟨{ srcX := x, srcY := y, dstX := x, dstY := y }, ?_, rfl, rfl⟩
        apply List.mem_append_right
        rw [bottomStripAccesses_eq, if_pos (by omega), mem_copyTileAccesses]
        refine ⟨x, y - th * tc, hx0, hx1, by omega, by omega, ?_⟩
        congr 1 <;> omega
      · obtain ⟨j, hj0, hj1, hj⟩ := region_tile tc tw th x y htc (by omega) (by omega)
          hx0 (by omega) hy0 (by omega)
        have hjn : j.toNat < order.length := by omega
        have hjc : ((j.toNat : Nat) : Int) = j := Int.toNat_of_nonneg hj0
        have hs := hmem _ (getD_mem order j.toNat hjn)
        obtain ⟨j1, j2, j3, j4⟩ := hj
        refine ⟨{ srcX := (order.getD j.toNat 0 % tc) * tw + (x - (j % tc) * tw),
                  srcY := (order.getD j.toNat 0 / tc) * th + (y - (j / tc) * th),
                  dstX := (j % tc) * tw + (x - (j % tc) * tw),
                  dstY := (j / tc) * th + (y - (j / tc) * th) }, ?_, by simp only; omega,
          by simp only; omega⟩
        apply List.mem_append_left
        apply List.mem_append_left
        refine List.mem_flatMap.mpr ⟨j.toNat, List.mem_range.mpr hjn, ?_⟩
        rw [tileStepAccesses_eq tc tw th _ _ (by omega) (by omega) hs.1, mem_copyTileAccesses,
          hjc]
        exact ⟨x - (j % tc) * tw, y - (j / tc) * th, by omega, by omega, by omega, by omega,
          rfl⟩

/-- Witness of C18: a 35 × 33 greyscale raster, `tileCount = 4`, seed 12345. -/
theorem UnscrambleImage_accesses_in_bounds_witness :
    ∃ tileW tileH copies,
      CalculateDescrambleDimensions 35 33 4 = some (tileW, tileH, true) ∧
      8 ≤ tileW ∧ 8 ≤ tileH ∧ tileW * 4 ≤ 35 ∧ tileH * 4 ≤ 33 ∧
      0 ≤ 35 - tileW * 4 ∧ 35 - tileW * 4 < 8 * 4 ∧
      0 ≤ 33 - tileH * 4 ∧ 33 - tileH * 4 < 8 * 4 ∧
      unscrambleAccesses 35 33 12345 4 = some copies ∧
      UnscrambleImage (grayRaster 35 33) 12345 4 =
        some (applyCopies (grayRaster 35 33) copies (NewRGBA 35 33), none) ∧
      (∀ c ∈ copies, 0 ≤ c.srcX ∧ c.srcX < 35 ∧ 0 ≤ c.srcY ∧ c.srcY < 33 ∧
        0 ≤ c.dstX ∧ c.dstX < 35 ∧ 0 ≤ c.dstY ∧ c.dstY < 33) ∧
      (∀ x y : Int, 0 ≤ x → x < 35 → 0 ≤ y → y < 33 →
        ∃ c ∈ copies, c.dstX = x ∧ c.dstY = y) ∧
      (∀ (img' : Image (Color Gray)) (seed' : Int),
        (UnscrambleImage img' seed' 4).isSome = true) :=
  UnscrambleImage_accesses_in_bounds (grayRaster 35 33) 12345 4
    (by decide) (by decide) (by decide)

/-! ### Short cycles of the xorshift step -/

theorem cycleCertificates_check : ∀ d, d < 16 → ∀ i, i < 32 →
    applyCols (cycleCertificates.getD d []) 0 (cycleMap d (2 ^ i)) = 2 ^ i := by
  decide

theorem xorLinear_zero {f : Nat → Nat} (hf : XorLinear f) : f 0 = 0 := by
  have h := hf 0 0
  rw [Nat.xor_self] at h
  have h2 : f 0 ^^^ f 0 = 0 := Nat.xor_self _
  rw [h2] at h
  exact h

theorem xorLinear_comp {f g : Nat → Nat} (hf : XorLinear f) (hg : XorLinear g) :
    XorLinear (fun x => f (g x)) := by
  intro x y
  show f (g (x ^^^ y)) = f (g x) ^^^ f (g y)
  rw [hg, hf]

theorem xor_xor_xor_comm (a b c d : Nat) : (a ^^^ b) ^^^ (c ^^^ d) = (a ^^^ c) ^^^ (b ^^^ d) := by
  rw [Nat.xor_assoc, Nat.xor_assoc, ← Nat.xor_assoc b c d, Nat.xor_comm b c,
    Nat.xor_assoc c b d]

theorem xorLinear_xor {f g : Nat → Nat} (hf : XorLinear f) (hg : XorLinear g) :
    XorLinear (fun x => f x ^^^ g x) := by
  intro x y
  show f (x ^^^ y) ^^^ g (x ^^^ y) = (f x ^^^ g x) ^^^ (f y ^^^ g y)
  rw [hf, hg, xor_xor_xor_comm]

theorem xorLinear_id : XorLinear (fun x => x) := fun _ _ => rfl

theorem xorLinear_iterate {f : Nat → Nat} (hf : XorLinear f) :
    ∀ d : Nat, XorLinear (fun x => f^[d] x)
  | 0 => fun _ _ => rfl
  | d + 1 => by
      intro x y
      show f^[d + 1] (x ^^^ y) = f^[d + 1] x ^^^ f^[d + 1] y
      have ih : f^[d] (x ^^^ y) = f^[d] x ^^^ f^[d] y := xorLinear_iterate hf d x y
      rw [Function.iterate_succ_apply', Function.iterate_succ_apply',
        Function.iterate_succ_apply', ih, hf]

theorem xorLinear_shiftLeft_mod (k : Nat) : XorLinear (fun x => (x * 2 ^ k) % 2 ^ 32) := by
  intro x y
  apply Nat.eq_of_testBit_eq
  intro j
  simp only [Nat.testBit_mod_two_pow, Nat.testBit_xor, ← Nat.shiftLeft_eq,
    Nat.testBit_shiftLeft]
  by_cases h1 : j < 32 <;> by_cases h2 : k ≤ j <;> simp [h1, h2]

theorem xorLinear_shiftRight_mod (k : Nat) : XorLinear (fun x => (x / 2 ^ k) % 2 ^ 32) := by
  intro x y
  apply Nat.eq_of_testBit_eq
  intro j
  simp only [Nat.testBit_mod_two_pow, Nat.testBit_xor, ← Nat.shiftRight_eq_div_pow,
    Nat.testBit_shiftRight]
  by_cases h1 : j < 32 <;> simp [h1]

theorem xorLinear_step : XorLinear xorshiftStepSpec := by
  have h1 := xorLinear_xor xorLinear_id (xorLinear_shiftLeft_mod 13)
  have h2 := xorLinear_xor xorLinear_id (xorLinear_shiftRight_mod 17)
  have h3 := xorLinear_xor xorLinear_id (xorLinear_shiftLeft_mod 5)
  exact fun x y => xorLinear_comp h3 (xorLinear_comp h2 h1) x y

theorem xorLinear_cycleMap (d : Nat) : XorLinear (cycleMap d) := by
  unfold cycleMap
  by_cases h : d = 0
  · simp only [h, if_true]
    exact xorLinear_step
  · simp only [h, if_false]
    exact xorLinear_xor (xorLinear_iterate xorLinear_step d) xorLinear_id

theorem xorLinear_applyCols : ∀ (cols : List Nat) (i : Nat), XorLinear (applyCols cols i)
  | [], _ => by
      intro x y
      simp [applyCols]
  | c :: cs, i => by
      intro x y
      simp only [applyCols]
      rw [xorLinear_applyCols cs (i + 1) x y, Nat.testBit_xor]
      cases hx : x.testBit i <;> cases hy : y.testBit i <;>
        simp only [Bool.xor_false, Bool.xor_true, Bool.not_false, Bool.not_true, if_true,
          if_false, Bool.false_eq_true] <;> rw [xor_xor_xor_comm] <;> simp

/-- A linear map that fixes the 32 basis words fixes every 32-bit word. -/
theorem xorLinear_fixes {g : Nat → Nat} (hg : XorLinear g)
    (hbasis : ∀ i, i < 32 → g (2 ^ i) = 2 ^ i) :
    ∀ k, k ≤ 32 → ∀ x, x < 2 ^ k → g x = x := by
  intro k
  induction k with
  | zero =>
    intro _ x hx
    have : x = 0 := by omega
    rw [this]
    exact xorLinear_zero hg
  | succ k ih =>
    intro hk x hx
    by_cases hlt : x < 2 ^ k
    · exact ih (by omega) x hlt
    · have hr : x - 2 ^ k < 2 ^ k := by
        rw [Nat.pow_succ] at hx
        omega
      have hsplit : x = 2 ^ k ^^^ (x - 2 ^ k) := by
        apply Nat.eq_of_testBit_eq
        intro j
        have hx' : x = 2 ^ k + (x - 2 ^ k) := by omega
        rw [Nat.testBit_xor]
        conv => lhs; rw [hx']
        rcases Nat.lt_trichotomy j k with h | h | h
        · rw [Nat.testBit_two_pow_add_gt h, Nat.testBit_two_pow_of_ne (by omega)]
          simp
        · subst h
          rw [Nat.testBit_two_pow_add_eq, Nat.testBit_two_pow_self,
            Nat.testBit_lt_two_pow hr]
          rfl
        · have h1 : 2 ^ k + (x - 2 ^ k) < 2 ^ j := by
            have : 2 ^ (k + 1) ≤ 2 ^ j := Nat.pow_le_pow_right (by decide) h
            omega
          have h2 : x - 2 ^ k < 2 ^ j :=
            Nat.lt_of_lt_of_le hr (Nat.pow_le_pow_right (by decide) (by omega))
          rw [Nat.testBit_lt_two_pow h1, Nat.testBit_two_pow_of_ne (by omega),
            Nat.testBit_lt_two_pow h2]
          rfl
      rw [hsplit, hg, hbasis k (by omega), ih (by omega) _ hr]

/-- For `d < 16` the map `cycleMap d` sends no 32-bit word other than 0 to 0. -/
theorem cycleMap_eq_zero (d : Nat) (hd : d < 16) (x : Nat) (hx : x < 2 ^ 32)
    (h : cycleMap d x = 0) : x = 0 := by
  have hg : XorLinear (fun y => applyCols (cycleCertificates.getD d []) 0 (cycleMap d y)) :=
    xorLinear_comp (xorLinear_applyCols _ 0) (xorLinear_cycleMap d)
  have hfix := xorLinear_fixes hg (fun i hi => cycleCertificates_check d hd i hi) 32
    (Nat.le_refl _) x hx
  simp only [h] at hfix
  rw [← hfix]
  exact xorLinear_zero (xorLinear_applyCols _ 0)

theorem xor_eq_zero_iff (a b : Nat) : a ^^^ b = 0 ↔ a = b := by
  constructor
  · intro h
    have : (a ^^^ b) ^^^ b = 0 ^^^ b := by rw [h]
    rwa [Nat.xor_assoc, Nat.xor_self, Nat.xor_zero, Nat.zero_xor] at this
  · rintro rfl
    exact Nat.xor_self a

theorem iterate_step_lt (s : Nat) (hs : s < 2 ^ 32) : ∀ k, xorshiftStepSpec^[k] s < 2 ^ 32
  | 0 => hs
  | k + 1 => by
      rw [Function.iterate_succ_apply']
      exact xorshiftStepSpec_lt _ (iterate_step_lt s hs k)

theorem iterate_step_ne_zero (s : Nat) (hs : s < 2 ^ 32) (h0 : s ≠ 0) :
    ∀ k, xorshiftStepSpec^[k] s ≠ 0
  | 0 => h0
  | k + 1 => by
      rw [Function.iterate_succ_apply']
      intro h
      have := cycleMap_eq_zero 0 (by decide) _ (iterate_step_lt s hs k)
        (by simpa [cycleMap] using h)
      exact iterate_step_ne_zero s hs h0 k this

/-- Two outputs of a generator with a non-zero 32-bit seed that are at most 15
steps apart are distinct. -/
theorem iterate_step_distinct (s : Nat) (hs : s < 2 ^ 32) (h0 : s ≠ 0) (i j : Nat)
    (hij : i < j) (hj : j ≤ i + 15) : xorshiftStepSpec^[i] s ≠ xorshiftStepSpec^[j] s := by
  intro h
  obtain ⟨d, rfl⟩ : ∃ d, j = d + i := ⟨j - i, by omega⟩
  rw [Function.iterate_add_apply] at h
  have hz : cycleMap d (xorshiftStepSpec^[i] s) = 0 := by
    have hd : ¬ d = 0 := by omega
    simp only [cycleMap, hd, if_false]
    rw [xor_eq_zero_iff]
    exact h.symm
  exact iterate_step_ne_zero s hs h0 i
    (cycleMap_eq_zero d (by omega) _ (iterate_step_lt s hs i) hz)


theorem swapPairs_getD (ps : List (Int × Int)) (i j k : Nat)
    (hi : i < ps.length) (hj : j < ps.length) :
    (swapPairs ps i j).getD k (0, 0) =
      if k = j then ps.getD i (0, 0)
      else if k = i then ps.getD j (0, 0) else ps.getD k (0, 0) := by
  unfold swapPairs
  by_cases hk : k < ps.length
  · rw [List.getD_eq_getElem _ _ (by simpa using hk), List.getElem_set]
    by_cases h1 : j = k
    · rw [if_pos h1, if_pos h1.symm]
    · rw [if_neg h1, if_neg (fun h => h1 h.symm), List.getElem_set]
      by_cases h2 : i = k
      · rw [if_pos h2, if_pos h2.symm]
      · rw [if_neg h2, if_neg (fun h => h2 h.symm), List.getD_eq_getElem _ _ hk]
  · have hkj : ¬ k = j := by omega
    have hki : ¬ k = i := by omega
    rw [if_neg hkj, if_neg hki, List.getD_eq_default _ _ (by simp; omega),
      List.getD_eq_default _ _ (by omega)]

theorem keyAt_swapPairs (ps : List (Int × Int)) (i j k : Nat)
    (hi : i < ps.length) (hj : j < ps.length) :
    keyAt (swapPairs ps i j) k =
      if k = j then keyAt ps i else if k = i then keyAt ps j else keyAt ps k := by
  unfold keyAt
  rw [swapPairs_getD ps i j k hi hj]
  split
  · rfl
  · split <;> rfl

/-- Inner loop of the exchange sort: after the indices `i+1 .. i+m` have been
compared with position `i`, the prefix before `i` is still in place and
position `i` holds a minimum of the positions visited so far. -/
theorem sortInner_loop (count i : Nat) (ps : List (Int × Int)) (hlen : ps.length = count)
    (hO : ∀ p q, p < i → p < q → q < count → keyAt ps p ≤ keyAt ps q) (m : Nat)
    (hm : i + 1 + m ≤ count) :
    ((List.range' (i + 1) m).foldl
        (fun ps j => if (ps.getD i (0, 0)).1 > (ps.getD j (0, 0)).1 then swapPairs ps i j else ps)
        ps).length = count ∧
    (∀ p q, p < i → p < q → q < count →
      keyAt ((List.range' (i + 1) m).foldl
        (fun ps j => if (ps.getD i (0, 0)).1 > (ps.getD j (0, 0)).1 then swapPairs ps i j else ps)
        ps) p ≤
      keyAt ((List.range' (i + 1) m).foldl
        (fun ps j => if (ps.getD i (0, 0)).1 > (ps.getD j (0, 0)).1 then swapPairs ps i j else ps)
        ps) q) ∧
    (∀ q, i < q → q < i + 1 + m →
      keyAt ((List.range' (i + 1) m).foldl
        (fun ps j => if (ps.getD i (0, 0)).1 > (ps.getD j (0, 0)).1 then swapPairs ps i j else ps)
        ps) i ≤
      keyAt ((List.range' (i + 1) m).foldl
        (fun ps j => if (ps.getD i (0, 0)).1 > (ps.getD j (0, 0)).1 then swapPairs ps i j else ps)
        ps) q) := by
  induction m with
  | zero =>
    refine ⟨hlen, hO, ?_⟩
    intro q h1 h2
    omega
  | succ m ih =>
    obtain ⟨h1, h2, h3⟩ := ih (by omega)
    rw [List.range'_1_concat, List.foldl_append]
    simp only [List.foldl_cons, List.foldl_nil]
    generalize (List.range' (i + 1) m).foldl
        (fun ps j => if (ps.getD i (0, 0)).1 > (ps.getD j (0, 0)).1 then swapPairs ps i j else ps)
        ps = l at h1 h2 h3 ⊢
    have hi : i < l.length := by omega
    have hj : i + 1 + m < l.length := by omega
    by_cases hc : (l.getD i (0, 0)).1 > (l.getD (i + 1 + m) (0, 0)).1
    · rw [if_pos hc]
      have hc' : keyAt l (i + 1 + m) < keyAt l i := hc
      refine ⟨by rw [swapPairs_length]; exact h1, ?_, ?_⟩
      · intro p q hp hpq hq
        rw [keyAt_swapPairs l i _ p hi hj, keyAt_swapPairs l i _ q hi hj]
        rw [if_neg (by omega), if_neg (by omega)]
        by_cases hq1 : q = i + 1 + m
        · rw [if_pos hq1]
          exact h2 p i hp hp (by omega)
        · rw [if_neg hq1]
          by_cases hq2 : q = i
          · rw [if_pos hq2]
            exact h2 p (i + 1 + m) hp (by omega) (by omega)
          · rw [if_neg hq2]
            exact h2 p q hp hpq hq
      · intro q hq1 hq2
        rw [keyAt_swapPairs l i _ i hi hj, keyAt_swapPairs l i _ q hi hj]
        rw [if_neg (by omega), if_pos rfl]
        by_cases hq3 : q = i + 1 + m
        · rw [if_pos hq3]
          exact le_of_lt hc'
        · rw [if_neg hq3, if_neg (by omega)]
          exact le_trans (le_of_lt hc') (h3 q hq1 (by omega))
    · rw [if_neg hc]
      have hc' : keyAt l i ≤ keyAt l (i + 1 + m) := not_lt.mp hc
      refine ⟨h1, h2, ?_⟩
      intro q hq1 hq2
      by_cases hq3 : q = i + 1 + m
      · rw [hq3]
        exact hc'
      · exact h3 q hq1 (by omega)

/-- One pass of the outer loop extends the sorted prefix by one position. -/
theorem sortInner_sorted (count i : Nat) (ps : List (Int × Int)) (hlen : ps.length = count)
    (hi : i < count)
    (hO : ∀ p q, p < i → p < q → q < count → keyAt ps p ≤ keyAt ps q) :
    ∀ p q, p < i + 1 → p < q → q < count →
      keyAt (sortInner count ps i) p ≤ keyAt (sortInner count ps i) q := by
  obtain ⟨_, h2, h3⟩ := sortInner_loop count i ps hlen hO (count - (i + 1)) (by omega)
  intro p q hp hpq hq
  unfold sortInner
  by_cases hpi : p < i
  · exact h2 p q hpi hpq hq
  · have hpe : p = i := by omega
    rw [hpe]
    exact h3 q (by omega) (by omega)

/-- The exchange sort leaves the first components in ascending order. -/
theorem sortPairs_sorted (count : Nat) (ps : List (Int × Int)) (hlen : ps.length = count) :
    (sortPairs count ps).Pairwise (fun a b => a.1 ≤ b.1) := by
  have hloop : ∀ k, k ≤ count →
      ((List.range k).foldl (sortInner count) ps).length = count ∧
      ∀ p q, p < k → p < q → q < count →
        keyAt ((List.range k).foldl (sortInner count) ps) p ≤
        keyAt ((List.range k).foldl (sortInner count) ps) q := by
    intro k
    induction k with
    | zero =>
      intro _
      refine ⟨hlen, ?_⟩
      intro p q hp
      omega
    | succ k ih =>
      intro hk
      obtain ⟨h1, h2⟩ := ih (by omega)
      rw [List.range_succ, List.foldl_append]
      simp only [List.foldl_cons, List.foldl_nil]
      exact ⟨(sortInner_inv count _ k h1 (by omega)).1,
        sortInner_sorted count k _ h1 (by omega) h2⟩
  obtain ⟨h1, h2⟩ := hloop count (Nat.le_refl _)
  unfold sortPairs
  rw [List.pairwise_iff_getElem]
  intro p q hp hq hpq
  have := h2 p q (by omega) hpq (by omega)
  unfold keyAt at this
  rwa [List.getD_eq_getElem _ _ hp, List.getD_eq_getElem _ _ hq] at this

theorem foldl_fixed {α β : Type} (f : β → α → β) (b : β) :
    ∀ (l : List α), (∀ a, a ∈ l → f b a = b) → l.foldl f b = b
  | [], _ => rfl
  | a :: l, h => by
      rw [List.foldl_cons, h a (List.mem_cons_self a l)]
      exact foldl_fixed f b l (fun a' ha' => h a' (List.mem_cons_of_mem a ha'))

/-- On an array whose first components are already ascending the exchange
sort performs no swap. -/
theorem sortPairs_of_sorted (count : Nat) (ps : List (Int × Int)) (hlen : ps.length = count)
    (hs : ps.Pairwise (fun a b => a.1 ≤ b.1)) : sortPairs count ps = ps := by
  rw [List.pairwise_iff_getElem] at hs
  unfold sortPairs
  apply foldl_fixed
  intro i hi
  have hi' : i < count := List.mem_range.mp hi
  unfold sortInner
  apply foldl_fixed
  intro j hj
  rw [List.mem_range'_1] at hj
  have h := hs i j (by omega) (by omega) (by omega)
  rw [List.getD_eq_getElem _ _ (by omega), List.getD_eq_getElem _ _ (by omega)]
  rw [if_neg (not_lt.mpr h)]

/-- Fill loop of `ShuffleOrder` in closed form: after `k` draws the generator
state is the `k`-th iterate of the step and entry `j` holds the `(j+1)`-th
iterate together with its index. -/
theorem fillLoop_full (count s : Nat) (hs : s < 2 ^ 32) (k : Nat) (hk : k ≤ count) :
    ((List.range k).foldl fillStep
        (NewXorshift32 s, List.replicate count ((0 : Int), (0 : Int)))).1.state
      = xorshiftStepSpec^[k] s ∧
    ((List.range k).foldl fillStep
        (NewXorshift32 s, List.replicate count ((0 : Int), (0 : Int)))).2.length = count ∧
    ∀ j, j < k → ((List.range k).foldl fillStep
        (NewXorshift32 s, List.replicate count ((0 : Int), (0 : Int)))).2.getD j (0, 0)
      = (((xorshiftStepSpec^[j + 1] s : Nat) : Int), (j : Int)) := by
  induction k with
  | zero =>
    refine ⟨rfl, by simp, ?_⟩
    intro j hj
    omega
  | succ k ih =>
    obtain ⟨hst, hlen, hval⟩ := ih (by omega)
    rw [List.range_succ, List.foldl_append]
    simp only [List.foldl_cons, List.foldl_nil]
    generalize (List.range k).foldl fillStep
        (NewXorshift32 s, List.replicate count ((0 : Int), (0 : Int))) = st at hst hlen hval ⊢
    obtain ⟨⟨g⟩, l⟩ := st
    simp only at hst hlen hval
    subst hst
    have hnext : (Xorshift32.Next { state := xorshiftStepSpec^[k] s }).1
        = xorshiftStepSpec^[k + 1] s := by
      rw [Next_eq_spec _ (iterate_step_lt s hs k), Function.iterate_succ_apply']
    have hstate : (Xorshift32.Next { state := xorshiftStepSpec^[k] s }).2.state
        = (Xorshift32.Next { state := xorshiftStepSpec^[k] s }).1 := rfl
    simp only [fillStep]
    refine ⟨by rw [hstate, hnext], by rw [List.length_set]; exact hlen, ?_⟩
    intro j hj
    rw [List.getD_eq_getElem _ _ (by rw [List.length_set]; omega), List.getElem_set]
    by_cases h : k = j
    · rw [if_pos h, hnext, h]
    · rw [if_neg h]
      have := hval j (by omega)
      rwa [List.getD_eq_getElem _ _ (by omega)] at this

theorem fillPairs_eq (count s : Nat) (hs : s < 2 ^ 32) :
    (fillPairs count (NewXorshift32 s)).2 =
      (List.range count).map (fun j => (((xorshiftStepSpec^[j + 1] s : Nat) : Int), (j : Int))) := by
  obtain ⟨_, hlen, hval⟩ := fillLoop_full count s hs count (Nat.le_refl _)
  unfold fillPairs
  apply List.ext_getElem
  · rw [hlen, List.length_map, List.length_range]
  · intro j h1 h2
    have hj : j < count := by rw [hlen] at h1; exact h1
    have := hval j hj
    rw [List.getD_eq_getElem _ _ h1] at this
    rw [this, List.getElem_map, List.getElem_range]

theorem xorshiftOutputs_eq (count : Nat) : ∀ (s : Nat), s < 2 ^ 32 →
    xorshiftOutputs count (NewXorshift32 s) =
      (List.range count).map (fun j => xorshiftStepSpec^[j + 1] s) := by
  induction count with
  | zero => intro s _; rfl
  | succ n ih =>
    intro s hs
    have hnext : (Xorshift32.Next (NewXorshift32 s)).1 = xorshiftStepSpec s :=
      Next_eq_spec s hs
    have hstate : (Xorshift32.Next (NewXorshift32 s)).2
        = NewXorshift32 (Xorshift32.Next (NewXorshift32 s)).1 := rfl
    rw [xorshiftOutputs, hstate, hnext, ih _ (xorshiftStepSpec_lt s hs),
      List.range_succ_eq_map, List.map_cons, List.map_map]
    rfl

theorem zip_range_outputs (count : Nat) (f : Nat → Nat) :
    ((List.range count).map f).zip (List.range count) =
      (List.range count).map (fun j => (f j, j)) := by
  apply List.ext_getElem
  · simp
  · intro j h1 h2
    simp [List.getElem_zip]

theorem uint32OfInt_lt (seed : Int) : uint32OfInt seed < 2 ^ 32 := by
  unfold uint32OfInt
  have h1 : 0 ≤ seed % 2 ^ 32 := Int.emod_nonneg _ (by decide)
  have h2 : seed % 2 ^ 32 < 2 ^ 32 := Int.emod_lt_of_pos _ (by decide)
  omega

theorem iterate_step_zero (k : Nat) : xorshiftStepSpec^[k] 0 = 0 := by
  induction k with
  | zero => rfl
  | succ k ih =>
    rw [Function.iterate_succ_apply', ih]
    decide

/-- For a non-zero 32-bit seed the first sixteen outputs are pairwise
different. -/
theorem outputs_injOn (s : Nat) (hs : s < 2 ^ 32) (h0 : s ≠ 0) (i j : Nat)
    (hi : i < 16) (hj : j < 16)
    (h : xorshiftStepSpec^[i + 1] s = xorshiftStepSpec^[j + 1] s) : i = j := by
  by_contra hne
  rcases Nat.lt_or_gt_of_ne hne with hlt | hgt
  · exact iterate_step_distinct s hs h0 (i + 1) (j + 1) (by omega) (by omega) h
  · exact iterate_step_distinct s hs h0 (j + 1) (i + 1) (by omega) (by omega) h.symm

theorem strict_of_sorted_nodup (l : List (Int × Int))
    (hs : l.Pairwise (fun a b => a.1 ≤ b.1)) (hn : (l.map Prod.fst).Nodup) :
    l.Pairwise (fun a b => a.1 < b.1) := by
  have hne : l.Pairwise (fun a b => a.1 ≠ b.1) := by
    unfold List.Nodup at hn
    rwa [List.pairwise_map] at hn
  exact (hs.and hne).imp (fun h => lt_of_le_of_ne h.1 h.2)

theorem eq_of_perm_of_strict (l₁ l₂ : List (Int × Int)) (hp : l₁.Perm l₂)
    (h1 : l₁.Pairwise (fun a b => a.1 < b.1)) (h2 : l₂.Pairwise (fun a b => a.1 < b.1)) :
    l₁ = l₂ := by
  haveI : IsAntisymm (Int × Int) (fun a b => a.1 < b.1) :=
    ⟨fun a b hab hba => absurd (lt_trans hab hba) (lt_irrefl _)⟩
  exact List.eq_of_perm_of_sorted hp h1 h2

/-- C15. For every seed and every `count` with `0 ≤ count ≤ 16`,
`ShuffleOrder count seed` returns exactly the second components of the pairs
`(r_i, i)`, `i = 0 .. count-1`, after a stable (merge) sort by the first
component in ascending unsigned order, where `r_i` are the first `count`
outputs of a generator seeded with `seed`: the exchange sort of the code and
the stable sort of the reference give the same permutation. -/
theorem ShuffleOrder_eq_stable_sort (count seed : Int) (h0 : 0 ≤ count) (h16 : count ≤ 16) :
    ShuffleOrder count seed = some (stableShuffleOrder count.toNat seed) := by
  rw [ShuffleOrder_eq count seed h0]
  congr 1
  unfold stableShuffleOrder
  simp only
  have hn : count.toNat ≤ 16 := by omega
  generalize count.toNat = n at hn
  have hs := uint32OfInt_lt seed
  generalize uint32OfInt seed = s at hs
  rw [fillPairs_eq n s hs, xorshiftOutputs_eq n s hs, zip_range_outputs]
  have hP : (List.range n).map
      (fun j => (((xorshiftStepSpec^[j + 1] s : Nat) : Int), (j : Int))) =
      ((List.range n).map (fun j => (xorshiftStepSpec^[j + 1] s, j))).map
        (fun p => ((p.1 : Int), (p.2 : Int))) := by
    rw [List.map_map]
    rfl
  rw [hP]
  generalize hPdef : (List.range n).map (fun j => (xorshiftStepSpec^[j + 1] s, j)) = P
  have hlen : (P.map (fun p => ((p.1 : Int), (p.2 : Int)))).length = n := by
    rw [← hPdef]
    simp
  suffices hmain : sortPairs n (P.map (fun p => ((p.1 : Int), (p.2 : Int)))) =
      (P.mergeSort (fun a b => decide (a.1 ≤ b.1))).map (fun p => ((p.1 : Int), (p.2 : Int))) by
    rw [hmain, List.map_map]
    rfl
  by_cases hz : s = 0
  · have hsorted : P.Pairwise (fun a b => decide (a.1 ≤ b.1) = true) := by
      rw [← hPdef, List.pairwise_map]
      apply List.pairwise_of_forall
      intro a b
      simp only [hz, iterate_step_zero]
      decide
    rw [List.mergeSort_of_sorted hsorted]
    apply sortPairs_of_sorted n _ hlen
    rw [List.pairwise_map]
    exact hsorted.imp (fun h => Int.ofNat_le.mpr (of_decide_eq_true h))
  · have hinv := sortPairs_inv n _ hlen
    have hpermY : ((P.mergeSort (fun a b => decide (a.1 ≤ b.1))).map
        (fun p => ((p.1 : Int), (p.2 : Int)))).Perm
        (P.map (fun p => ((p.1 : Int), (p.2 : Int)))) :=
      (List.mergeSort_perm P _).map _
    have hnodup : ((P.map (fun p => ((p.1 : Int), (p.2 : Int)))).map Prod.fst).Nodup := by
      rw [← hPdef, List.map_map, List.map_map]
      apply List.Nodup.map_on _ (List.nodup_range n)
      intro i hi j hj hij
      have hi' : i < n := List.mem_range.mp hi
      have hj' : j < n := List.mem_range.mp hj
      simp only [Function.comp_apply] at hij
      exact outputs_injOn s hs hz i j (by omega) (by omega) (by exact_mod_cast hij)
    have hsX := sortPairs_sorted n _ hlen
    have hsY : ((P.mergeSort (fun a b => decide (a.1 ≤ b.1))).map
        (fun p => ((p.1 : Int), (p.2 : Int)))).Pairwise (fun a b => a.1 ≤ b.1) := by
      rw [List.pairwise_map]
      have hsm := @List.sorted_mergeSort (Nat × Nat) (fun a b => decide (a.1 ≤ b.1))
        (fun a b c hab hbc => decide_eq_true
          (le_trans (of_decide_eq_true hab) (of_decide_eq_true hbc)))
        (fun a b => by
          rcases Nat.le_total a.1 b.1 with h | h
          · simp [h]
          · simp [h]) P
      exact hsm.imp (fun h => Int.ofNat_le.mpr (of_decide_eq_true h))
    exact eq_of_perm_of_strict _ _ (hinv.2.trans hpermY.symm)
      (strict_of_sorted_nodup _ hsX (((hinv.2.map Prod.fst).nodup_iff).mpr hnodup))
      (strict_of_sorted_nodup _ hsY (((hpermY.map Prod.fst).nodup_iff).mpr hnodup))

theorem ShuffleOrder_eq_stable_sort_witness :
    (0 : Int) ≤ 16 ∧ (16 : Int) ≤ 16 ∧
      ShuffleOrder 16 12345 = some (stableShuffleOrder (16 : Int).toNat 12345) :=
  ⟨by decide, by decide, ShuffleOrder_eq_stable_sort 16 12345 (by decide) (by decide)⟩

end MgDownloader
